import Mathlib

/-!
# CrowPanel e-paper driver: paint engine and controller driver

A shallow embedding of `epaper_driver.c`: the raster layer (`Paint_NewImage`,
`Paint_SetPixel`, `EPD_Full`, `EPD_ClearWindows`, `EPD_DrawLine`,
`EPD_DrawRectangle`, `EPD_DrawCircle`, `EPD_Pow`, `EPD_ShowChar`, `EPD_ShowString`,
`EPD_ShowNum`, `EPD_ShowFloatNum1`, `EPD_ShowPicture`) and the controller layer (`EPD_WR_REG`,
`EPD_WR_DATA8`, `EPD_WR_DATA_BUFFER`, `EPD_WR_DATA_REPEAT`, `EPD_Init`,
`EPD_Init_Fast`, `EPD_Update`, `EPD_Clear`, `EPD_Display`, `EPD_Display_Fast`,
`EPD_Display_Part`), together with theorems about them.

Conventions of the embedding.

* C integers are natural numbers or integers; every place where the C code
  truncates a value to an unsigned type is an explicit `% 2 ^ w` (`u16`, `u8`).
  `int` has 32 bits on the target and none of the `int` expressions of the
  modelled functions leaves its range for `uint16_t` inputs, so `int` is `Int`.
* `Paint.Image` is a pointer to caller-owned memory: it is modelled as the map
  from byte offsets to the stored values, a `uint8_t` read being `% 256`.
* The drawing primitives touch the framebuffer only through `Paint_SetPixel`.
  Each one is embedded as the list of its `Paint_SetPixel` calls, in program
  order, and its effect on the framebuffer is that list replayed.
* `for (;;)` and `while` loops, and `for` loops whose counter can wrap, carry a
  fuel argument and return `none` when the fuel is used up before the loop
  exits. A `for` loop over a `uint16_t` counter with a fixed upper bound is a
  recursion on the number of rounds left.
* A division whose divisor is 0 has no defined result in C; the model returns
  `none` there as well.
* `float` is IEEE 754 binary32 with rounding to nearest, ties to even. A
  non-negative `float` is a fraction of natural numbers and `binary32` rounds a
  rational to the nearest `float`; the decimal argument of `EPD_ShowFloatNum1` is
  given as `numN / numD`.
* The glyph tables `ascii_0806`, `ascii_1206`, `ascii_1608`, `ascii_2412` are only
  declared in `epaper_fonts.h`; the text functions take them as the parameter
  `Fonts`.
* The controller layer acts on the pins and the SPI bus only. Each function is
  embedded as the list of its pin and bus events in program order (`Ev`); the
  panel variant selected by the preprocessor is the argument `Panel`, and
  `spi` says whether `spi_handle` is set. `decode` gives the commands and data
  bytes the controller receives.
-/

namespace EPaper

/-! ## Constants of `epaper_driver.h` -/

def WHITE : Nat := 0xFF
def BLACK : Nat := 0x00
def ROTATE_0 : Nat := 0
def ROTATE_90 : Nat := 90
def ROTATE_180 : Nat := 180
def ROTATE_270 : Nat := 270

/-- Conversion of an `int` value to `uint16_t`. -/
def u16 (i : Int) : Nat := (i % 65536).toNat

/-- Conversion of an `int` value to `uint8_t`. -/
def u8 (i : Int) : Nat := (i % 256).toNat

/-! ## The framebuffer descriptor -/

/-- The struct `Paint_t`. `Image` is the memory behind the pointer, indexed by
byte offset; the other fields are the `uint16_t` members. -/
structure Paint_t where
  Image : Nat → Nat
  Width : Nat
  Height : Nat
  WidthMemory : Nat
  HeightMemory : Nat
  Color : Nat
  Rotate : Nat
  WidthByte : Nat
  HeightByte : Nat

/-- The numeric members of a descriptor are `uint16_t` values. -/
def Paint_t.is16 (p : Paint_t) : Prop :=
  p.Width < 65536 ∧ p.Height < 65536 ∧ p.WidthMemory < 65536 ∧ p.HeightMemory < 65536 ∧
  p.Color < 65536 ∧ p.Rotate < 65536 ∧ p.WidthByte < 65536 ∧ p.HeightByte < 65536

instance (p : Paint_t) : Decidable p.is16 := by
  unfold Paint_t.is16; infer_instance

/-- A `uint8_t` read of `Paint.Image[a]`. -/
def Paint_t.byte (p : Paint_t) (a : Nat) : Nat := p.Image a % 256

/-- The function `Paint_NewImage` (lines 527-544). -/
def Paint_NewImage (image : Nat → Nat) (Width Height Rotate Color : Nat) : Paint_t :=
  { Image := image
    WidthMemory := Width
    HeightMemory := Height
    Color := Color
    WidthByte := if Width % 8 = 0 then Width / 8 else Width / 8 + 1
    HeightByte := Height
    Rotate := Rotate
    Width := if Rotate = ROTATE_0 ∨ Rotate = ROTATE_180 then Width else Height
    Height := if Rotate = ROTATE_0 ∨ Rotate = ROTATE_180 then Height else Width }

/-- The `switch (Paint.Rotate)` of `Paint_SetPixel`: the `uint16_t` pair `(X, Y)`,
or `none` in the `default` case. The subtractions are done in `int` and
truncated on assignment. -/
def Paint_SetPixel_XY (p : Paint_t) (Xpoint Ypoint : Nat) : Option (Nat × Nat) :=
  if p.Rotate = 0 then
    some (Xpoint, Ypoint)
  else if p.Rotate = 90 then
    some (u16 ((p.WidthMemory : Int) - Ypoint - 1), Xpoint)
  else if p.Rotate = 180 then
    some (u16 ((p.WidthMemory : Int) - Xpoint - 1), u16 ((p.HeightMemory : Int) - Ypoint - 1))
  else if p.Rotate = 270 then
    some (Ypoint, u16 ((p.HeightMemory : Int) - Xpoint - 1))
  else
    none

/-- The 32-bit complement `~m` of a non-negative `int`, as an unsigned value. -/
def not32 (m : Nat) : Nat := 2 ^ 32 - 1 - m

/-- Storing `v` at offset `a`. -/
def store (img : Nat → Nat) (a v : Nat) : Nat → Nat :=
  fun i => if i = a then v else img i

/-- The function `Paint_SetPixel` (lines 546-579). -/
def Paint_SetPixel (p : Paint_t) (Xpoint Ypoint Color : Nat) : Paint_t :=
  match Paint_SetPixel_XY p Xpoint Ypoint with
  | none => p
  | some (X, Y) =>
    if X ≥ p.WidthMemory ∨ Y ≥ p.HeightMemory then p
    else
      let Addr := (X / 8 + Y * p.WidthByte) % 2 ^ 32
      let Rdata := p.Image Addr % 256
      if Color = BLACK then
        { p with Image := store p.Image Addr ((Rdata &&& not32 (0x80 >>> (X % 8))) % 256) }
      else
        { p with Image := store p.Image Addr ((Rdata ||| (0x80 >>> (X % 8))) % 256) }

/-- Replaying a list of `Paint_SetPixel` calls that share one colour. -/
def Paint_SetPixels (p : Paint_t) (pts : List (Nat × Nat)) (Color : Nat) : Paint_t :=
  pts.foldl (fun q pt => Paint_SetPixel q pt.1 pt.2 Color) p

/-- A 400 x 300 all-white framebuffer with rotation `rot`, used for concrete
instances. -/
def demoPaint (rot : Nat) : Paint_t := Paint_NewImage (fun _ => 0xFF) 400 300 rot WHITE

/-- The pair lies in `[0, W) x [0, H)`. -/
def inFrame (W H : Nat) (P : Int × Int) : Prop :=
  0 ≤ P.1 ∧ P.1 < W ∧ 0 ≤ P.2 ∧ P.2 < H

instance (W H : Nat) (P : Int × Int) : Decidable (inFrame W H P) := by
  unfold inFrame; infer_instance

/-! ## Lines and rectangles -/

/-- The loop variables of `EPD_DrawLine`. -/
structure LineState where
  Xpoint : Nat
  Ypoint : Nat
  Esp : Int
deriving DecidableEq, Repr

/-- The two `if` statements of the body of `EPD_DrawLine` that follow the pixel
call (lines 662-673); `none` is a `break`. The second test reads the value of
`Esp` left by the first. -/
def EPD_DrawLine_body (Xend Yend : Nat) (dx dy XAddway YAddway : Int) (s : LineState) :
    Option LineState :=
  let afterX : Option LineState :=
    if 2 * s.Esp ≥ dy then
      if s.Xpoint = Xend then none
      else some { s with Esp := s.Esp + dy, Xpoint := u16 (s.Xpoint + XAddway) }
    else some s
  match afterX with
  | none => none
  | some s1 =>
    if 2 * s1.Esp ≤ dx then
      if s1.Ypoint = Yend then none
      else some { s1 with Esp := s1.Esp + dx, Ypoint := u16 (s1.Ypoint + YAddway) }
    else some s1

/-- The `for (;;)` loop of `EPD_DrawLine`: the pixel calls made from state `s`
on, `none` when the fuel runs out before a `break`. -/
def EPD_DrawLine_loop (Xend Yend : Nat) (dx dy XAddway YAddway : Int) :
    Nat → LineState → Option (List (Nat × Nat))
  | 0, _ => none
  | fuel + 1, s =>
    match EPD_DrawLine_body Xend Yend dx dy XAddway YAddway s with
    | none => some [(s.Xpoint, s.Ypoint)]
    | some s1 =>
      (EPD_DrawLine_loop Xend Yend dx dy XAddway YAddway fuel s1).map
        (fun l => (s.Xpoint, s.Ypoint) :: l)

/-- The pixel calls of `EPD_DrawLine` (lines 647-675), in order. -/
def EPD_DrawLine_calls (fuel Xstart Ystart Xend Yend : Nat) : Option (List (Nat × Nat)) :=
  let dx : Int := if (Xend : Int) - Xstart ≥ 0 then (Xend : Int) - Xstart else (Xstart : Int) - Xend
  let dy : Int := if (Yend : Int) - Ystart ≤ 0 then (Yend : Int) - Ystart else (Ystart : Int) - Yend
  let XAddway : Int := if Xstart < Xend then 1 else -1
  let YAddway : Int := if Ystart < Yend then 1 else -1
  EPD_DrawLine_loop Xend Yend dx dy XAddway YAddway fuel
    { Xpoint := Xstart, Ypoint := Ystart, Esp := dx + dy }

/-- The function `EPD_DrawLine` acting on the framebuffer. -/
def EPD_DrawLine (fuel : Nat) (p : Paint_t) (Xstart Ystart Xend Yend Color : Nat) :
    Option Paint_t :=
  (EPD_DrawLine_calls fuel Xstart Ystart Xend Yend).map (fun l => Paint_SetPixels p l Color)

/-- The filled branch of `EPD_DrawRectangle`: `for (i = Ystart; i < Yend; i++)`
started at `i` with `n = Yend - i` rounds left (`i < Yend <= 65535`, so `i++`
does not wrap). -/
def EPD_DrawRectangle_fill (fuel Xstart Xend : Nat) : Nat → Nat → Option (List (Nat × Nat))
  | _, 0 => some []
  | i, n + 1 =>
    match EPD_DrawLine_calls fuel Xstart i Xend i with
    | none => none
    | some row =>
      (EPD_DrawRectangle_fill fuel Xstart Xend (i + 1) n).map (fun l => row ++ l)

/-- The outline branch of `EPD_DrawRectangle`: four lines. -/
def EPD_DrawRectangle_outline (fuel Xstart Ystart Xend Yend : Nat) :
    Option (List (Nat × Nat)) :=
  match EPD_DrawLine_calls fuel Xstart Ystart Xend Ystart,
        EPD_DrawLine_calls fuel Xstart Ystart Xstart Yend,
        EPD_DrawLine_calls fuel Xend Yend Xend Ystart,
        EPD_DrawLine_calls fuel Xend Yend Xstart Yend with
  | some l1, some l2, some l3, some l4 => some (l1 ++ l2 ++ l3 ++ l4)
  | _, _, _, _ => none

/-- The pixel calls of `EPD_DrawRectangle` (lines 678-692), in order. -/
def EPD_DrawRectangle_calls (fuel Xstart Ystart Xend Yend mode : Nat) :
    Option (List (Nat × Nat)) :=
  if mode ≠ 0 then EPD_DrawRectangle_fill fuel Xstart Xend Ystart (Yend - Ystart)
  else EPD_DrawRectangle_outline fuel Xstart Ystart Xend Yend

/-- The function `EPD_DrawRectangle` acting on the framebuffer. -/
def EPD_DrawRectangle (fuel : Nat) (p : Paint_t) (Xstart Ystart Xend Yend Color mode : Nat) :
    Option Paint_t :=
  (EPD_DrawRectangle_calls fuel Xstart Ystart Xend Yend mode).map
    (fun l => Paint_SetPixels p l Color)

/-! ## Circles -/

/-- The loop variables of `EPD_DrawCircle`. -/
structure CircleState where
  XCurrent : Nat
  YCurrent : Nat
  Esp : Int
deriving DecidableEq, Repr

/-- The eight `Paint_SetPixel` calls made for the offsets `a` (the value of
`XCurrent`) and `b` (`sCountY` in filled mode, `YCurrent` in hollow mode), in
the order of the source. -/
def EPD_DrawCircle_points (X_Center Y_Center : Nat) (a b : Nat) : List (Nat × Nat) :=
  [ (u16 ((X_Center : Int) + a), u16 ((Y_Center : Int) + b)),
    (u16 ((X_Center : Int) - a), u16 ((Y_Center : Int) + b)),
    (u16 ((X_Center : Int) - b), u16 ((Y_Center : Int) + a)),
    (u16 ((X_Center : Int) - b), u16 ((Y_Center : Int) - a)),
    (u16 ((X_Center : Int) - a), u16 ((Y_Center : Int) - b)),
    (u16 ((X_Center : Int) + a), u16 ((Y_Center : Int) - b)),
    (u16 ((X_Center : Int) + b), u16 ((Y_Center : Int) - a)),
    (u16 ((X_Center : Int) + b), u16 ((Y_Center : Int) + a)) ]

/-- The inner loop of filled mode, `for (sCountY = XCurrent; sCountY <= YCurrent;
sCountY++)`, started at `sCountY` with `n` rounds left. -/
def EPD_DrawCircle_span (X_Center Y_Center XCurrent : Nat) : Nat → Nat → List (Nat × Nat)
  | _, 0 => []
  | sCountY, n + 1 =>
    EPD_DrawCircle_points X_Center Y_Center XCurrent sCountY ++
      EPD_DrawCircle_span X_Center Y_Center XCurrent (sCountY + 1) n

/-- The pixel calls of one round of the `while` loop. -/
def EPD_DrawCircle_round (X_Center Y_Center mode : Nat) (s : CircleState) : List (Nat × Nat) :=
  if mode ≠ 0 then
    EPD_DrawCircle_span X_Center Y_Center s.XCurrent s.XCurrent (s.YCurrent + 1 - s.XCurrent)
  else
    EPD_DrawCircle_points X_Center Y_Center s.XCurrent s.YCurrent

/-- The update of `Esp`, `YCurrent` and `XCurrent` at the end of a round. -/
def EPD_DrawCircle_next (s : CircleState) : CircleState :=
  if s.Esp < 0 then
    { XCurrent := u16 ((s.XCurrent : Int) + 1)
      YCurrent := s.YCurrent
      Esp := s.Esp + (4 * (s.XCurrent : Int) + 6) }
  else
    { XCurrent := u16 ((s.XCurrent : Int) + 1)
      YCurrent := u16 ((s.YCurrent : Int) - 1)
      Esp := s.Esp + (10 + 4 * ((s.XCurrent : Int) - s.YCurrent)) }

/-- The loop `while (XCurrent <= YCurrent)` of either mode; `none` when the
fuel runs out. -/
def EPD_DrawCircle_loop (X_Center Y_Center mode : Nat) :
    Nat → CircleState → Option (List (Nat × Nat))
  | 0, _ => none
  | fuel + 1, s =>
    if s.XCurrent ≤ s.YCurrent then
      (EPD_DrawCircle_loop X_Center Y_Center mode fuel (EPD_DrawCircle_next s)).map
        (fun l => EPD_DrawCircle_round X_Center Y_Center mode s ++ l)
    else some []

/-- The pixel calls of `EPD_DrawCircle` (lines 695-744), in order. -/
def EPD_DrawCircle_calls (fuel X_Center Y_Center Radius mode : Nat) :
    Option (List (Nat × Nat)) :=
  EPD_DrawCircle_loop X_Center Y_Center mode fuel
    { XCurrent := 0, YCurrent := Radius, Esp := 3 - ((Radius <<< 1 : Nat) : Int) }

/-- The function `EPD_DrawCircle` acting on the framebuffer. -/
def EPD_DrawCircle (fuel : Nat) (p : Paint_t) (X_Center Y_Center Radius Color mode : Nat) :
    Option Paint_t :=
  (EPD_DrawCircle_calls fuel X_Center Y_Center Radius mode).map
    (fun l => Paint_SetPixels p l Color)

/-! ## Numbers as glyph sequences -/

/-- The loop `while (n--) result *= m;` of `EPD_Pow`, `result` being `uint32_t`. -/
def EPD_Pow_loop (m : Nat) : Nat → Nat → Nat
  | 0, result => result
  | n + 1, result => EPD_Pow_loop m n ((result * m) % 2 ^ 32)

/-- The function `EPD_Pow` (lines 749-755). -/
def EPD_Pow (m n : Nat) : Nat := EPD_Pow_loop m n 1

/-- One call `EPD_ShowChar(x, y, chr, size1, color)`, the arguments as received
by the callee (`uint16_t` values). -/
structure CharCall where
  x : Nat
  y : Nat
  chr : Nat
  size1 : Nat
  color : Nat
deriving DecidableEq, Repr

/-- The loop `for (t = 0; t < len; t++)` of `EPD_ShowNum`, `t` and `temp` being
`uint8_t`: the `EPD_ShowChar` calls made from `t` on. `none` when the fuel runs
out, and also when `EPD_Pow` returns 0 and the division is undefined. -/
def EPD_ShowNum_loop (x y num len size1 color m : Nat) : Nat → Nat → Option (List CharCall)
  | 0, _ => none
  | fuel + 1, t =>
    if t < len then
      let pw := EPD_Pow 10 (u16 ((len : Int) - t - 1))
      if pw = 0 then none
      else
        let temp := u8 (((num / pw) % 10 : Nat) : Int)
        let chr := if temp = 0 then 48 else temp + 48
        (EPD_ShowNum_loop x y num len size1 color m fuel (u8 ((t : Int) + 1))).map
          (fun l => { x := u16 ((x : Int) + ((size1 / 2 + m) * t : Nat)), y := y,
                      chr := u16 (chr : Nat), size1 := size1, color := color } :: l)
    else some []

/-- The `EPD_ShowChar` calls of `EPD_ShowNum` (lines 809-821), in order. -/
def EPD_ShowNum_calls (fuel x y num len size1 color : Nat) : Option (List CharCall) :=
  EPD_ShowNum_loop x y num len size1 color (if size1 = 8 then 2 else 0) fuel 0

/-- The loop of `EPD_ShowFloatNum1` on the loop variables `t` and `len` (both
`uint8_t`; the body changes both). `none` as in `EPD_ShowNum_loop`. -/
def EPD_ShowFloatNum1_loop (x y num1 pre sizey color sizex : Nat) :
    Nat → Nat → Nat → Option (List CharCall)
  | 0, _, _ => none
  | fuel + 1, t, len =>
    if t < len then
      let pw := EPD_Pow 10 (u16 ((len : Int) - t - 1))
      if pw = 0 then none
      else
        let temp := u8 (((num1 / pw) % 10 : Nat) : Int)
        if (t : Int) = (len : Int) - pre then
          let t1 := u8 ((t : Int) + 1)
          let len1 := u8 ((len : Int) + 1)
          (EPD_ShowFloatNum1_loop x y num1 pre sizey color sizex fuel (u8 ((t1 : Int) + 1)) len1).map
            (fun l =>
              { x := u16 ((x : Int) + ((len : Int) - pre) * sizex), y := y, chr := 46,
                size1 := sizey, color := color } ::
              { x := u16 ((x : Int) + ((t1 * sizex : Nat) : Int)), y := y,
                chr := u16 ((temp + 48 : Nat) : Int), size1 := sizey, color := color } :: l)
        else
          (EPD_ShowFloatNum1_loop x y num1 pre sizey color sizex fuel (u8 ((t : Int) + 1)) len).map
            (fun l =>
              { x := u16 ((x : Int) + ((t * sizex : Nat) : Int)), y := y,
                chr := u16 ((temp + 48 : Nat) : Int), size1 := sizey, color := color } :: l)
    else some []

/-- The number of binary digits of `n`, by halving, in at most `fuel` rounds. -/
def bitLength_loop : Nat → Nat → Nat
  | 0, _ => 0
  | fuel + 1, n => if n = 0 then 0 else bitLength_loop fuel (n / 2) + 1

/-- The number of binary digits of `n`: 0 for 0, and
`2 ^ (bitLength n - 1) <= n < 2 ^ bitLength n` for `n >= 1`. -/
def bitLength (n : Nat) : Nat := bitLength_loop n n

/-- The binary exponent `e` of the positive rational `N / D`:
`2 ^ e <= N / D < 2 ^ (e + 1)`. The difference `s` of the bit lengths is `e` or
`e + 1`; the comparison of `N / D` with `2 ^ s` decides. -/
def binaryExponent (N D : Nat) : Int :=
  let s : Int := (bitLength N : Int) - bitLength D
  if D * 2 ^ s.toNat ≤ N * 2 ^ (-s).toNat then s else s - 1

/-- The integer nearest to `num / den`, the even one of the two at a tie. -/
def roundHalfEven (num den : Nat) : Nat :=
  let q0 := num / den
  let r := num % den
  if den < 2 * r ∨ (2 * r = den ∧ q0 % 2 = 1) then q0 + 1 else q0

/-- The arithmetic of the C type `float` (IEEE 754 binary32, round to nearest, ties
to even): the `float` nearest to the non-negative rational `N / D`, as a
fraction `(a, b)` with value `a / b`; `none` when `D = 0` or when the result
is infinite (rounded value `2 ^ 128` or more). With `e` the binary exponent of
`N / D` the spacing of the `float` values around `N / D` is `2 ^ k`,
`k = max (e - 23) (-149)` (24 significant bits; -149 is the exponent of the
least subnormal), and the result is `q * 2 ^ k` for the integer `q` nearest to
`N / D / 2 ^ k`, the even one of the two at a tie. -/
def binary32 (N D : Nat) : Option (Nat × Nat) :=
  if D = 0 then none
  else if N = 0 then some (0, 1)
  else
    let k : Int := max (binaryExponent N D - 23) (-149)
    let q := roundHalfEven (N * 2 ^ (-k).toNat) (D * 2 ^ k.toNat)
    if q * 2 ^ k.toNat < 2 ^ 128 * 2 ^ (-k).toNat then some (q * 2 ^ k.toNat, 2 ^ (-k).toNat)
    else none

/-- The `float` product `num * EPD_Pow(10, pre)` of line 828 for the non-negative
argument `num = numN / numD`: the argument is a `float` (the decimal value
rounded to binary32), the `uint32_t` power is converted to `float`, and the
product is rounded to `float`; `none` when one of the three is not finite. -/
def EPD_ShowFloatNum1_product (numN numD pre : Nat) : Option (Nat × Nat) :=
  match binary32 numN numD, binary32 (EPD_Pow 10 pre) 1 with
  | some f, some pf => binary32 (f.1 * pf.1) (f.2 * pf.2)
  | _, _ => none

/-- The value stored by `num1 = num * EPD_Pow(10, pre)` (line 828): the `float`
product truncated toward zero and converted to `uint16_t`. C defines the
conversion only for a finite product below 65536; outside that range the low
16 bits (0 for an infinite product) stand for the unspecified value, and no
statement about the digits is made there. -/
def EPD_ShowFloatNum1_num1 (numN numD pre : Nat) : Nat :=
  match EPD_ShowFloatNum1_product numN numD pre with
  | some p => (p.1 / p.2) % 65536
  | none => 0

/-- The `EPD_ShowChar` calls of `EPD_ShowFloatNum1` (lines 824-839), in order,
for the argument `num = numN / numD`. -/
def EPD_ShowFloatNum1_calls (fuel x y numN numD len pre sizey color : Nat) :
    Option (List CharCall) :=
  EPD_ShowFloatNum1_loop x y (EPD_ShowFloatNum1_num1 numN numD pre) pre sizey color
    (u8 ((sizey / 2 : Nat) : Int)) fuel 0 len

/-! ## Closed forms used in the statements -/

/-- The points `(x0, y), ..., (x1, y)` in the order from `x0` to `x1`. -/
def hline (x0 x1 y : Nat) : List (Nat × Nat) :=
  (List.range (max x0 x1 - min x0 x1 + 1)).map
    (fun i => (if x0 ≤ x1 then x0 + i else x0 - i, y))

/-- The points `(x, y0), ..., (x, y1)` in the order from `y0` to `y1`. -/
def vline (x y0 y1 : Nat) : List (Nat × Nat) :=
  (List.range (max y0 y1 - min y0 y1 + 1)).map
    (fun i => (x, if y0 ≤ y1 then y0 + i else y0 - i))

/-- Some call of the list is at the integer point `(X, Y)`. -/
def plotted (L : List (Nat × Nat)) (X Y : Int) : Prop :=
  ∃ pt ∈ L, (pt.1 : Int) = X ∧ (pt.2 : Int) = Y

/-- Every point of the list lies in the square of half-width `R` around
`(cx, cy)` and its mirror images in the two axes through `(cx, cy)` are in
the list too. -/
def SymBox (cx cy R : Nat) (L : List (Nat × Nat)) : Prop :=
  ∀ pt ∈ L, (cx - R ≤ pt.1 ∧ pt.1 ≤ cx + R ∧ cy - R ≤ pt.2 ∧ pt.2 ≤ cy + R) ∧
    (2 * cx - pt.1, pt.2) ∈ L ∧ (pt.1, 2 * cy - pt.2) ∈ L

/-- The call that draws, at glyph position `pos`, the decimal digit of `num1`
with weight `10 ^ e`. -/
def digitCall (x y num1 sizex sizey color pos e : Nat) : CharCall :=
  { x := u16 ((x : Int) + ((pos * sizex : Nat) : Int)), y := y,
    chr := (num1 / 10 ^ e) % 10 + 48, size1 := sizey, color := color }

/-- The call that draws `'.'` (code 46) at glyph position `pos`. -/
def dotCall (x y sizex sizey color pos : Nat) : CharCall :=
  { x := u16 ((x : Int) + ((pos * sizex : Nat) : Int)), y := y,
    chr := 46, size1 := sizey, color := color }

/-- The glyph sequence for `len` digits of `num1` with `pre` of them behind the
point: `len - pre` digits, then (when `pre > 0`) the point and `pre` more
digits, one glyph position each. -/
def fixedPointCalls (x y num1 len pre sizex sizey color : Nat) : List CharCall :=
  (List.range (len - pre)).map (fun j => digitCall x y num1 sizex sizey color j (len - 1 - j)) ++
    (if pre = 0 then []
     else dotCall x y sizex sizey color (len - pre) ::
       (List.range pre).map
         (fun k => digitCall x y num1 sizex sizey color (len - pre + 1 + k) (pre - 1 - k)))

/-- The loop variables of `EPD_DrawLine` lie between the start and the end
coordinate, on the side of the end coordinate the walk started from. -/
def LineInv (Xstart Ystart Xend Yend : Nat) (s : LineState) : Prop :=
  (Xstart < Xend → s.Xpoint ≤ Xend) ∧ (¬ Xstart < Xend → Xend ≤ s.Xpoint ∧ s.Xpoint < 65536) ∧
  (Ystart < Yend → s.Ypoint ≤ Yend) ∧ (¬ Ystart < Yend → Yend ≤ s.Ypoint ∧ s.Ypoint < 65536)

/-- The number of unit steps between the current point and the end point. -/
def LineDist (Xend Yend : Nat) (s : LineState) : Nat :=
  (Xend - s.Xpoint) + (s.Xpoint - Xend) + ((Yend - s.Ypoint) + (s.Ypoint - Yend))

/-! ## Byte indexes and reading a pixel back -/

/-- The index `Addr` at which a call `Paint_SetPixel(Xpoint, Ypoint, _)` reads and
writes `Paint.Image` (lines 572-578); `none` when the call returns before the
access (lines 567-570). -/
def Paint_SetPixel_Addr (p : Paint_t) (Xpoint Ypoint : Nat) : Option Nat :=
  match Paint_SetPixel_XY p Xpoint Ypoint with
  | none => none
  | some (X, Y) =>
    if X ≥ p.WidthMemory ∨ Y ≥ p.HeightMemory then none
    else some ((X / 8 + Y * p.WidthByte) % 2 ^ 32)

/-- The indexes of `Paint.Image` accessed while a list of `Paint_SetPixel` calls
is replayed, in order. -/
def Paint_SetPixels_Addrs (p : Paint_t) : List (Nat × Nat × Nat) → List Nat
  | [] => []
  | c :: L =>
    (Paint_SetPixel_Addr p c.1 c.2.1).toList ++
      Paint_SetPixels_Addrs (Paint_SetPixel p c.1 c.2.1 c.2.2) L

/-- The stored bit of the logical pixel `(x, y)`, read through the transform
and the bit address that `Paint_SetPixel` uses; `none` for a pixel that
`Paint_SetPixel` drops. The driver has no such function: it is the observation
in which the pixel claims are stated. -/
def Paint_GetPixel (p : Paint_t) (x y : Nat) : Option Bool :=
  match Paint_SetPixel_XY p x y with
  | none => none
  | some (X, Y) =>
    if X ≥ p.WidthMemory ∨ Y ≥ p.HeightMemory then none
    else some ((p.byte ((X / 8 + Y * p.WidthByte) % 2 ^ 32)).testBit (7 - X % 8))

/-- A descriptor as `Paint_NewImage` leaves it: 16-bit members and a row of
`WidthByte` bytes that holds `WidthMemory` pixels. -/
def Paint_t.wf (p : Paint_t) : Prop :=
  p.is16 ∧ p.WidthMemory ≤ 8 * p.WidthByte

instance (p : Paint_t) : Decidable p.wf := by
  unfold Paint_t.wf; infer_instance

/-- Replaying a list of `Paint_SetPixel` calls `(x, y, color)`. -/
def Paint_SetPixelCalls (p : Paint_t) (L : List (Nat × Nat × Nat)) : Paint_t :=
  L.foldl (fun q c => Paint_SetPixel q c.1 c.2.1 c.2.2) p

/-! ## `EPD_Full` and `EPD_ClearWindows` -/

/-- The inner loop `for (X = 0; X < Paint.WidthByte; X++)` of `EPD_Full`, started
at `X` with `n` rounds left. -/
def EPD_Full_row (WidthByte Y Color : Nat) : Nat → Nat → (Nat → Nat) → (Nat → Nat)
  | _, 0, img => img
  | X, n + 1, img =>
    EPD_Full_row WidthByte Y Color (X + 1) n (store img ((X + Y * WidthByte) % 2 ^ 32) Color)

/-- The outer loop `for (Y = 0; Y < Paint.HeightByte; Y++)` of `EPD_Full`, started
at `Y` with `n` rounds left. -/
def EPD_Full_rows (WidthByte Color : Nat) : Nat → Nat → (Nat → Nat) → (Nat → Nat)
  | _, 0, img => img
  | Y, n + 1, img =>
    EPD_Full_rows WidthByte Color (Y + 1) n (EPD_Full_row WidthByte Y Color 0 WidthByte img)

/-- The function `EPD_Full` (lines 581-590); `Color` is the `uint8_t` argument. -/
def EPD_Full (p : Paint_t) (Color : Nat) : Paint_t :=
  { p with Image := EPD_Full_rows p.WidthByte Color 0 p.HeightByte p.Image }

/-- The inner loop `for (j = xs; j < xe; j++)` of `EPD_ClearWindows` in row `i`,
started at `j` with `n` rounds left. -/
def EPD_ClearWindows_row (i : Nat) : Nat → Nat → List (Nat × Nat)
  | _, 0 => []
  | j, n + 1 => (j, i) :: EPD_ClearWindows_row i (j + 1) n

/-- The outer loop `for (i = ys; i < ye; i++)` of `EPD_ClearWindows`, started at
`i` with `n` rounds left. -/
def EPD_ClearWindows_rows (xs xe : Nat) : Nat → Nat → List (Nat × Nat)
  | _, 0 => []
  | i, n + 1 => EPD_ClearWindows_row i xs (xe - xs) ++ EPD_ClearWindows_rows xs xe (i + 1) n

/-- The pixel calls of `EPD_ClearWindows` (lines 637-644), in order. -/
def EPD_ClearWindows_calls (xs ys xe ye : Nat) : List (Nat × Nat) :=
  EPD_ClearWindows_rows xs xe ys (ye - ys)

/-- The function `EPD_ClearWindows` acting on the framebuffer. -/
def EPD_ClearWindows (p : Paint_t) (xs ys xe ye color : Nat) : Paint_t :=
  Paint_SetPixels p (EPD_ClearWindows_calls xs ys xe ye) color

/-! ## Glyphs and strings -/

/-- The four glyph tables used by `EPD_ShowChar`. They are declared `extern` in
`epaper_fonts.h` and their contents are not part of the sources, so they are
a parameter: `ascii_0806 c i` stands for `ascii_0806[c][i]`. -/
structure Fonts where
  ascii_0806 : Nat → Nat → Nat
  ascii_1206 : Nat → Nat → Nat
  ascii_1608 : Nat → Nat → Nat
  ascii_2412 : Nat → Nat → Nat

/-- What `EPD_ShowChar` does, in program order: reads of a glyph table entry
(`size1` names the table) and calls of `Paint_SetPixel`. -/
inductive GlyphEv where
  | read (size1 chr1 i : Nat)
  | pixel (x y color : Nat)
deriving DecidableEq, Repr

/-- The `if` chain on `size1` that loads `temp` (lines 769-779); `none` is the
`return` of an unsupported size. -/
def EPD_ShowChar_temp (F : Fonts) (size1 chr1 i : Nat) : Option Nat :=
  if size1 = 8 then some (F.ascii_0806 chr1 i % 256)
  else if size1 = 12 then some (F.ascii_1206 chr1 i % 256)
  else if size1 = 16 then some (F.ascii_1608 chr1 i % 256)
  else if size1 = 24 then some (F.ascii_2412 chr1 i % 256)
  else none

/-- The loop `for (m = 0; m < 8; m++)` of `EPD_ShowChar` with `n` rounds left:
the lowest bit of `temp` selects `color` or `!color`, then `temp >>= 1; y++`. -/
def EPD_ShowChar_bits (x color : Nat) : Nat → Nat → Nat → List GlyphEv
  | 0, _, _ => []
  | n + 1, temp, y =>
    GlyphEv.pixel x y (if temp &&& 0x01 ≠ 0 then color else (if color = 0 then 1 else 0)) ::
      EPD_ShowChar_bits x color n (temp >>> 1) (u16 ((y : Int) + 1))

/-- The loop `for (i = 0; i < size2; i++)` of `EPD_ShowChar` with `n` rounds left;
`x` and `y0` are the loop variables at the start of round `i` (`y` equals `y0`
there). -/
def EPD_ShowChar_loop (F : Fonts) (size1 chr1 color x0 : Nat) :
    Nat → Nat → Nat → Nat → List GlyphEv
  | 0, _, _, _ => []
  | n + 1, i, x, y0 =>
    match EPD_ShowChar_temp F size1 chr1 i with
    | none => []
    | some temp =>
      GlyphEv.read size1 chr1 i :: EPD_ShowChar_bits x color 8 temp y0 ++
        (if size1 ≠ 8 ∧ ((u16 ((x : Int) + 1) : Nat) : Int) - (x0 : Int) = ((size1 / 2 : Nat) : Int) then
          EPD_ShowChar_loop F size1 chr1 color x0 n (i + 1) x0 (u16 ((y0 : Int) + 8))
        else
          EPD_ShowChar_loop F size1 chr1 color x0 n (i + 1) (u16 ((x : Int) + 1)) y0)

/-- The events of `EPD_ShowChar` (lines 758-797), in order. -/
def EPD_ShowChar_events (F : Fonts) (x y chr size1 color : Nat) : List GlyphEv :=
  let x0 := u16 ((x : Int) + 1)
  let y0 := u16 ((y : Int) + 1)
  let size2 :=
    if size1 = 8 then 6
    else u16 (((size1 / 8 + (if size1 % 8 ≠ 0 then 1 else 0)) * (size1 / 2) : Nat) : Int)
  let chr1 := u16 ((chr : Int) - 32)
  EPD_ShowChar_loop F size1 chr1 color x0 size2 0 x0 y0

/-- The `Paint_SetPixel` call of an event, if it is one. -/
def GlyphEv.call? : GlyphEv → Option (Nat × Nat × Nat)
  | GlyphEv.read _ _ _ => none
  | GlyphEv.pixel x y c => some (x, y, c)

/-- Replaying the `Paint_SetPixel` calls of a list of events. -/
def Paint_Replay (p : Paint_t) (evs : List GlyphEv) : Paint_t :=
  Paint_SetPixelCalls p (evs.filterMap GlyphEv.call?)

/-- The function `EPD_ShowChar` acting on the framebuffer. -/
def EPD_ShowChar (F : Fonts) (p : Paint_t) (x y chr size1 color : Nat) : Paint_t :=
  Paint_Replay p (EPD_ShowChar_events F x y chr size1 color)

/-- The events of `EPD_ShowString` (lines 800-806); `s` is the list of the bytes
before the terminating NUL. -/
def EPD_ShowString_events (F : Fonts) (y size1 color : Nat) : List Nat → Nat → List GlyphEv
  | [], _ => []
  | c :: s, x =>
    EPD_ShowChar_events F x y c size1 color ++
      EPD_ShowString_events F y size1 color s (u16 ((x : Int) + ((size1 / 2 : Nat) : Int)))

/-- The function `EPD_ShowString` acting on the framebuffer. -/
def EPD_ShowString (F : Fonts) (p : Paint_t) (x y : Nat) (s : List Nat) (size1 color : Nat) :
    Paint_t :=
  Paint_Replay p (EPD_ShowString_events F y size1 color s x)

/-- The events of a list of `EPD_ShowChar` calls made one after the other. -/
def CharCalls_events (F : Fonts) : List CharCall → List GlyphEv
  | [] => []
  | c :: L => EPD_ShowChar_events F c.x c.y c.chr c.size1 c.color ++ CharCalls_events F L

/-- The function `EPD_ShowNum` acting on the framebuffer. -/
def EPD_ShowNum (F : Fonts) (fuel : Nat) (p : Paint_t) (x y num len size1 color : Nat) :
    Option Paint_t :=
  (EPD_ShowNum_calls fuel x y num len size1 color).map
    (fun L => Paint_Replay p (CharCalls_events F L))

/-- The function `EPD_ShowFloatNum1` acting on the framebuffer. -/
def EPD_ShowFloatNum1 (F : Fonts) (fuel : Nat) (p : Paint_t)
    (x y numN numD len pre sizey color : Nat) : Option Paint_t :=
  (EPD_ShowFloatNum1_calls fuel x y numN numD len pre sizey color).map
    (fun L => Paint_Replay p (CharCalls_events F L))

/-- The glyph byte loaded in round `i` (0 where the size is unsupported and
nothing is loaded). -/
def EPD_ShowChar_byte (F : Fonts) (size1 chr1 i : Nat) : Nat :=
  (EPD_ShowChar_temp F size1 chr1 i).getD 0

/-- The bit stored for bit `m` of the glyph byte `temp`: the bit of `color` (0 for
BLACK, 1 otherwise) where the glyph bit is 1, its inverse where it is 0. -/
def glyphBit (color temp m : Nat) : Bool :=
  if temp.testBit m then decide (color ≠ BLACK) else decide (color = BLACK)

/-- Glyph tables with a fixed pattern, used for concrete instances. -/
def demoFonts : Fonts :=
  { ascii_0806 := fun _ _ => 0x81
    ascii_1206 := fun _ _ => 0x81
    ascii_1608 := fun _ _ => 0x81
    ascii_2412 := fun _ _ => 0x81 }

/-! ## The classic line algorithm -/

/-- One round of the classic all-octant Bresenham line after the pixel is
plotted: the doubled error `e2` is sampled once and compared against both
axes; `none` is the exit. -/
def classicBresenham_body (x1 y1 : Nat) (dx dy sx sy : Int) (s : LineState) :
    Option LineState :=
  let e2 := 2 * s.Esp
  let afterX : Option LineState :=
    if e2 ≥ dy then
      if s.Xpoint = x1 then none
      else some { s with Esp := s.Esp + dy, Xpoint := u16 (s.Xpoint + sx) }
    else some s
  match afterX with
  | none => none
  | some s1 =>
    if e2 ≤ dx then
      if s1.Ypoint = y1 then none
      else some { s1 with Esp := s1.Esp + dx, Ypoint := u16 (s1.Ypoint + sy) }
    else some s1

/-- The loop of the classic algorithm, with fuel. -/
def classicBresenham_loop (x1 y1 : Nat) (dx dy sx sy : Int) :
    Nat → LineState → Option (List (Nat × Nat))
  | 0, _ => none
  | fuel + 1, s =>
    match classicBresenham_body x1 y1 dx dy sx sy s with
    | none => some [(s.Xpoint, s.Ypoint)]
    | some s1 =>
      (classicBresenham_loop x1 y1 dx dy sx sy fuel s1).map
        (fun l => (s.Xpoint, s.Ypoint) :: l)

/-- The pixels of the classic all-octant Bresenham line from `(x0, y0)` to
`(x1, y1)`, in order: `err = dx - |dy|`, steps `sx`, `sy` towards the end
point. -/
def classicBresenham (fuel x0 y0 x1 y1 : Nat) : Option (List (Nat × Nat)) :=
  let dx : Int := if x0 ≤ x1 then (x1 : Int) - x0 else (x0 : Int) - x1
  let ady : Int := if y0 ≤ y1 then (y1 : Int) - y0 else (y0 : Int) - y1
  let sx : Int := if x0 < x1 then 1 else -1
  let sy : Int := if y0 < y1 then 1 else -1
  classicBresenham_loop x1 y1 dx (-ady) sx sy fuel
    { Xpoint := x0, Ypoint := y0, Esp := dx - ady }

/-! ## Transport -/

/-- The panel variant chosen at build time (`CONFIG_CROWPANEL_EPAPER_4_2_INCH` or
`CONFIG_CROWPANEL_EPAPER_2_13_INCH`). -/
inductive Panel where
  | inch_4_2
  | inch_2_13
deriving DecidableEq, Repr

/-- The macro `EPD_W` of `epaper_driver.h`. -/
def EPD_W : Panel → Nat
  | Panel.inch_4_2 => 400
  | Panel.inch_2_13 => 250

/-- The macro `EPD_H` of `epaper_driver.h`. -/
def EPD_H : Panel → Nat
  | Panel.inch_4_2 => 300
  | Panel.inch_2_13 => 122

/-- What the driver does on its pins and on the bus: `gpio_set_level` on the
data/command, chip-select and reset lines, one `spi_device_transmit` with its
bytes, `delay(ms)`, and the polling loop `EPD_ReadBusy` (which ends when the
panel releases the busy line). -/
inductive Ev where
  | dc (level : Nat)
  | cs (level : Nat)
  | rst (level : Nat)
  | transmit (bytes : List Nat)
  | delay (ms : Nat)
  | readBusy
deriving DecidableEq, Repr

/-- The function `EPD_WriteByte` (lines 51-58); `spi` says that `spi_handle` is not
`NULL`. -/
def EPD_WriteByte (spi : Bool) (data : Nat) : List Ev :=
  if spi = false then [] else [Ev.transmit [data]]

/-- The function `EPD_WriteBytes` (lines 60-68): one transaction with the first
`len` bytes behind `data`. -/
def EPD_WriteBytes (spi : Bool) (data : Nat → Nat) (len : Nat) : List Ev :=
  if spi = false ∨ len = 0 then []
  else [Ev.transmit ((List.range len).map (fun i => data i % 256))]

/-- The function `EPD_WR_REG` (lines 70-75). -/
def EPD_WR_REG (spi : Bool) (reg : Nat) : List Ev :=
  [Ev.dc 0, Ev.cs 0] ++ (EPD_WriteByte spi reg ++ [Ev.cs 1])

/-- The function `EPD_WR_DATA8` (lines 77-82). -/
def EPD_WR_DATA8 (spi : Bool) (data : Nat) : List Ev :=
  [Ev.dc 1, Ev.cs 0] ++ (EPD_WriteByte spi data ++ [Ev.cs 1])

/-- The function `EPD_WR_DATA_BUFFER` (lines 84-90). -/
def EPD_WR_DATA_BUFFER (spi : Bool) (data : Nat → Nat) (len : Nat) : List Ev :=
  if len = 0 then []
  else [Ev.dc 1, Ev.cs 0] ++ (EPD_WriteBytes spi data len ++ [Ev.cs 1])

/-- The loop `while (remaining > 0)` of `EPD_WR_DATA_REPEAT`; the 128-byte buffer
holds `data` in every byte. `none` when the fuel runs out. -/
def EPD_WR_DATA_REPEAT_loop (data : Nat) : Nat → Nat → Option (List Ev)
  | 0, _ => none
  | fuel + 1, remaining =>
    if remaining > 0 then
      let current := if remaining > 128 then 128 else remaining
      (EPD_WR_DATA_REPEAT_loop data fuel (remaining - current)).map
        (fun l => Ev.transmit (List.replicate current data) :: l)
    else some []

/-- The function `EPD_WR_DATA_REPEAT` (lines 92-115). -/
def EPD_WR_DATA_REPEAT (fuel : Nat) (spi : Bool) (data count : Nat) : Option (List Ev) :=
  if count = 0 ∨ spi = false then some []
  else
    (EPD_WR_DATA_REPEAT_loop data fuel count).map
      (fun l => [Ev.dc 1, Ev.cs 0] ++ (l ++ [Ev.cs 1]))

/-- The function `EPD_ReadBusy` (lines 117-126). -/
def EPD_ReadBusy : List Ev := [Ev.readBusy]

/-- The function `EPD_RESET` (lines 128-135). -/
def EPD_RESET : List Ev :=
  [Ev.rst 1, Ev.delay 100, Ev.rst 0, Ev.delay 10, Ev.rst 1, Ev.delay 10]

/-! ## Controller driver -/

/-- The function `EPD_Address_Set` (lines 207-217); the arguments are `uint16_t`. -/
def EPD_Address_Set (spi : Bool) (xs ys xe ye : Nat) : List Ev :=
  EPD_WR_REG spi 0x44 ++ (EPD_WR_DATA8 spi ((xs >>> 3) &&& 0xFF) ++
  (EPD_WR_DATA8 spi ((xe >>> 3) &&& 0xFF) ++
  (EPD_WR_REG spi 0x45 ++ (EPD_WR_DATA8 spi (ys &&& 0xFF) ++
  (EPD_WR_DATA8 spi ((ys >>> 8) &&& 0xFF) ++ (EPD_WR_DATA8 spi (ye &&& 0xFF) ++
  EPD_WR_DATA8 spi ((ye >>> 8) &&& 0xFF)))))))

/-- The function `EPD_SetCursor` (lines 219-226). -/
def EPD_SetCursor (spi : Bool) (xs ys : Nat) : List Ev :=
  EPD_WR_REG spi 0x4E ++ (EPD_WR_DATA8 spi ((xs >>> 3) &&& 0xFF) ++
  (EPD_WR_REG spi 0x4F ++ (EPD_WR_DATA8 spi (ys &&& 0xFF) ++
  EPD_WR_DATA8 spi ((ys >>> 8) &&& 0xFF))))

/-- The function `EPD_Update` (lines 228-239). -/
def EPD_Update (spi : Bool) (v : Panel) : List Ev :=
  EPD_WR_REG spi 0x22 ++
  (EPD_WR_DATA8 spi (match v with | Panel.inch_4_2 => 0xF7 | Panel.inch_2_13 => 0xF4) ++
  (EPD_WR_REG spi 0x20 ++ EPD_ReadBusy))

/-- The function `EPD_Update_Fast` (lines 241-246). -/
def EPD_Update_Fast (spi : Bool) : List Ev :=
  EPD_WR_REG spi 0x22 ++ (EPD_WR_DATA8 spi 0xC7 ++ (EPD_WR_REG spi 0x20 ++ EPD_ReadBusy))

/-- The function `EPD_Update_Part` (lines 248-259). -/
def EPD_Update_Part (spi : Bool) (v : Panel) : List Ev :=
  EPD_WR_REG spi 0x22 ++
  (EPD_WR_DATA8 spi (match v with | Panel.inch_4_2 => 0xFF | Panel.inch_2_13 => 0xFC) ++
  (EPD_WR_REG spi 0x20 ++ EPD_ReadBusy))

/-- The function `EPD_Init`: lines 267-282 for the 4.2 inch panel, lines 318-361
for the 2.13 inch panel. -/
def EPD_Init (spi : Bool) : Panel → List Ev
  | Panel.inch_4_2 =>
    EPD_RESET ++ (EPD_ReadBusy ++ (EPD_WR_REG spi 0x12 ++ (EPD_ReadBusy ++
    (EPD_WR_REG spi 0x21 ++ (EPD_WR_DATA8 spi 0x40 ++ (EPD_WR_DATA8 spi 0x00 ++
    (EPD_WR_REG spi 0x3C ++ (EPD_WR_DATA8 spi 0x05 ++
    (EPD_WR_REG spi 0x11 ++ (EPD_WR_DATA8 spi 0x03 ++
    (EPD_Address_Set spi 0 0 (EPD_W Panel.inch_4_2 - 1) (EPD_H Panel.inch_4_2 - 1) ++
    (EPD_SetCursor spi 0 0 ++ EPD_ReadBusy))))))))))))
  | Panel.inch_2_13 =>
    EPD_RESET ++ (EPD_ReadBusy ++ (EPD_WR_REG spi 0x12 ++ (EPD_ReadBusy ++
    (EPD_WR_REG spi 0x01 ++ (EPD_WR_DATA8 spi 0xF9 ++ (EPD_WR_DATA8 spi 0x00 ++
    (EPD_WR_DATA8 spi 0x00 ++
    (EPD_WR_REG spi 0x11 ++ (EPD_WR_DATA8 spi 0x03 ++
    (EPD_WR_REG spi 0x44 ++ (EPD_WR_DATA8 spi 0x00 ++ (EPD_WR_DATA8 spi 0x0F ++
    (EPD_WR_REG spi 0x45 ++ (EPD_WR_DATA8 spi 0x00 ++ (EPD_WR_DATA8 spi 0x00 ++
    (EPD_WR_DATA8 spi 0xF9 ++ (EPD_WR_DATA8 spi 0x00 ++
    (EPD_WR_REG spi 0x3C ++ (EPD_WR_DATA8 spi 0x01 ++
    (EPD_ReadBusy ++
    (EPD_WR_REG spi 0x18 ++ (EPD_WR_DATA8 spi 0x80 ++
    (EPD_WR_REG spi 0x4E ++ (EPD_WR_DATA8 spi 0x00 ++
    (EPD_WR_REG spi 0x4F ++ (EPD_WR_DATA8 spi 0x00 ++ (EPD_WR_DATA8 spi 0x00 ++
    EPD_ReadBusy)))))))))))))))))))))))))))

/-- The function `EPD_Init_Fast`: lines 284-312 for the 4.2 inch panel, lines
363-409 for the 2.13 inch panel; `mode` is the `uint8_t` argument. -/
def EPD_Init_Fast (spi : Bool) : Panel → Nat → List Ev
  | Panel.inch_4_2, mode =>
    EPD_RESET ++ (EPD_ReadBusy ++ (EPD_WR_REG spi 0x12 ++ (EPD_ReadBusy ++
    (EPD_WR_REG spi 0x21 ++ (EPD_WR_DATA8 spi 0x40 ++ (EPD_WR_DATA8 spi 0x00 ++
    (EPD_WR_REG spi 0x3C ++ (EPD_WR_DATA8 spi 0x05 ++
    ((if mode = 1 then EPD_WR_REG spi 0x1A ++ EPD_WR_DATA8 spi 0x6E
      else if mode = 2 then EPD_WR_REG spi 0x1A ++ EPD_WR_DATA8 spi 0x5A
      else []) ++
    (EPD_WR_REG spi 0x22 ++ (EPD_WR_DATA8 spi 0x91 ++ (EPD_WR_REG spi 0x20 ++
    (EPD_ReadBusy ++
    (EPD_WR_REG spi 0x11 ++ (EPD_WR_DATA8 spi 0x03 ++
    (EPD_Address_Set spi 0 0 (EPD_W Panel.inch_4_2 - 1) (EPD_H Panel.inch_4_2 - 1) ++
    (EPD_SetCursor spi 0 0 ++ EPD_ReadBusy)))))))))))))))))
  | Panel.inch_2_13, _ =>
    EPD_RESET ++ (EPD_WR_REG spi 0x12 ++ (EPD_ReadBusy ++
    (EPD_WR_REG spi 0x18 ++ (EPD_WR_DATA8 spi 0x80 ++
    (EPD_WR_REG spi 0x22 ++ (EPD_WR_DATA8 spi 0xB1 ++ (EPD_WR_REG spi 0x20 ++
    (EPD_ReadBusy ++
    (EPD_WR_REG spi 0x1A ++ (EPD_WR_DATA8 spi 0x64 ++ (EPD_WR_DATA8 spi 0x00 ++
    (EPD_WR_REG spi 0x22 ++ (EPD_WR_DATA8 spi 0x91 ++ (EPD_WR_REG spi 0x20 ++
    (EPD_ReadBusy ++
    (EPD_WR_REG spi 0x11 ++ (EPD_WR_DATA8 spi 0x03 ++
    (EPD_WR_REG spi 0x44 ++ (EPD_WR_DATA8 spi 0x00 ++ (EPD_WR_DATA8 spi 0x0F ++
    (EPD_WR_REG spi 0x45 ++ (EPD_WR_DATA8 spi 0x00 ++ (EPD_WR_DATA8 spi 0x00 ++
    (EPD_WR_DATA8 spi 0xF9 ++ (EPD_WR_DATA8 spi 0x00 ++
    (EPD_WR_REG spi 0x4E ++ (EPD_WR_DATA8 spi 0x00 ++
    (EPD_WR_REG spi 0x4F ++ (EPD_WR_DATA8 spi 0x00 ++ (EPD_WR_DATA8 spi 0x00 ++
    EPD_ReadBusy))))))))))))))))))))))))))))))

/-- The byte count `Width * Height` of a full frame, `Width` being
`EPD_W / 8` rounded up (lines 414-415, 431-432, 451-452). -/
def EPD_frameBytes (v : Panel) : Nat :=
  (if EPD_W v % 8 = 0 then EPD_W v / 8 else EPD_W v / 8 + 1) * EPD_H v

/-- The function `EPD_Clear` (lines 412-427). -/
def EPD_Clear (fuel : Nat) (spi : Bool) (v : Panel) : Option (List Ev) :=
  match EPD_WR_DATA_REPEAT fuel spi 0xFF (EPD_frameBytes v),
        EPD_WR_DATA_REPEAT fuel spi 0xFF (EPD_frameBytes v) with
  | some fillNew, some fillOld =>
    some (EPD_Init spi v ++ (EPD_WR_REG spi 0x24 ++ (fillNew ++
      (EPD_WR_REG spi 0x26 ++ (fillOld ++ EPD_Update spi v)))))
  | _, _ => none

/-- The loop `for (i = 0; i < Width * Height; i++) EPD_WR_DATA8(~Image[i]);` of the
2.13 inch panel, started at `i` with `n` rounds left; `~` is taken on the
promoted `int` and the argument is converted to `uint8_t`. -/
def EPD_invert_loop (spi : Bool) (Image : Nat → Nat) : Nat → Nat → List Ev
  | _, 0 => []
  | i, n + 1 =>
    EPD_WR_DATA8 spi (u8 (-((Image i % 256 : Nat) : Int) - 1)) ++
      EPD_invert_loop spi Image (i + 1) n

/-- The image data as the panel variant streams it: byte by byte inverted on
the 2.13 inch panel, one buffer write on the 4.2 inch panel. -/
def EPD_stream (spi : Bool) (v : Panel) (Image : Nat → Nat) (n : Nat) : List Ev :=
  match v with
  | Panel.inch_2_13 => EPD_invert_loop spi Image 0 n
  | Panel.inch_4_2 => EPD_WR_DATA_BUFFER spi Image n

/-- The function `EPD_Display` (lines 429-447). -/
def EPD_Display (spi : Bool) (v : Panel) (Image : Nat → Nat) : List Ev :=
  EPD_WR_REG spi 0x24 ++ (EPD_stream spi v Image (EPD_frameBytes v) ++ EPD_Update spi v)

/-- The function `EPD_Display_Fast` (lines 449-467). -/
def EPD_Display_Fast (spi : Bool) (v : Panel) (Image : Nat → Nat) : List Ev :=
  EPD_WR_REG spi 0x24 ++ (EPD_stream spi v Image (EPD_frameBytes v) ++ EPD_Update_Fast spi)

/-- The function `EPD_Display_Part` (lines 469-513); `x`, `y`, `sizex`, `sizey` are
the `uint16_t` arguments. -/
def EPD_Display_Part (spi : Bool) (v : Panel) (x y sizex sizey : Nat) (Image : Nat → Nat) :
    List Ev :=
  let Width := if sizex % 8 = 0 then sizex / 8 else sizex / 8 + 1
  let Height := sizey
  EPD_WR_REG spi 0x3C ++ (EPD_WR_DATA8 spi 0x80 ++
  (EPD_WR_REG spi 0x21 ++ (EPD_WR_DATA8 spi 0x00 ++ (EPD_WR_DATA8 spi 0x00 ++
  (EPD_WR_REG spi 0x3C ++ (EPD_WR_DATA8 spi 0x80 ++
  (EPD_WR_REG spi 0x11 ++ (EPD_WR_DATA8 spi 0x03 ++
  (EPD_Address_Set spi x y (u16 ((x : Int) + sizex - 1)) (u16 ((y : Int) + sizey - 1)) ++
  (EPD_SetCursor spi x y ++
  (EPD_WR_REG spi 0x24 ++
  (EPD_stream spi v Image (Width * Height) ++
  (EPD_Update_Part spi v ++
  (match v with
   | Panel.inch_2_13 => EPD_WR_REG spi 0x3C ++ EPD_WR_DATA8 spi 0x01
   | Panel.inch_4_2 => []))))))))))))))

/-! ## The bus as the controller sees it -/

/-- What the panel controller receives: a byte sent while the data/command line
is low is a command, a byte sent while it is high is data; waits, resets and
delays are kept in place. -/
inductive Msg where
  | cmd (b : Nat)
  | data (b : Nat)
  | busy
  | reset (level : Nat)
  | pause (ms : Nat)
deriving DecidableEq, Repr

/-- The controller's view of a transport trace, `d` being the level of the
data/command line before the trace. -/
def decode : Nat → List Ev → List Msg
  | _, [] => []
  | _, Ev.dc l :: r => decode l r
  | d, Ev.cs _ :: r => decode d r
  | d, Ev.rst l :: r => Msg.reset l :: decode d r
  | d, Ev.transmit bs :: r => bs.map (fun b => if d = 0 then Msg.cmd b else Msg.data b) ++ decode d r
  | d, Ev.delay ms :: r => Msg.pause ms :: decode d r
  | d, Ev.readBusy :: r => Msg.busy :: decode d r

/-- The data bytes at the head of a message list. -/
def dataRun : List Msg → List Nat
  | Msg.data b :: r => b :: dataRun r
  | _ => []

/-- The data bytes that follow the first command `c`, up to the next message
that is not data. -/
def dataAfter (c : Nat) : List Msg → List Nat
  | [] => []
  | Msg.cmd b :: r => if b = c then dataRun r else dataAfter c r
  | _ :: r => dataAfter c r

/-- The byte that a panel variant is to receive for the image byte `b`: the
bitwise complement within a byte on the 2.13 inch panel, `b` itself on the
4.2 inch panel. -/
def Panel.sent (v : Panel) (b : Nat) : Nat :=
  match v with
  | Panel.inch_2_13 => 255 - b
  | Panel.inch_4_2 => b

/-! ## Observations on the controller's RAM window -/

/-- The byte capacity of a RAM window given by the data bytes of the commands
0x44 (X start, X end, in bytes) and 0x45 (Y start and Y end, low byte first):
columns times rows; 0 when a command has not its two or four data bytes. -/
def ramWindowBytes (xdata ydata : List Nat) : Nat :=
  match xdata, ydata with
  | [xs, xe], [ysl, ysh, yel, yeh] =>
    (xe + 1 - xs) * (yel + 256 * yeh + 1 - (ysl + 256 * ysh))
  | _, _ => 0

/-- The reset prefix: the reset line high, low, high with the delays of
`EPD_RESET`, the wait for the busy line, the command 0x12 and a second wait. -/
def resetSequence : List Msg :=
  [Msg.reset 1, Msg.pause 100, Msg.reset 0, Msg.pause 10, Msg.reset 1, Msg.pause 10,
    Msg.busy, Msg.cmd 0x12, Msg.busy]

/-- Glyph tables in which every byte is 0x01 (only bit 0 set), used for
concrete instances. -/
def lsbFonts : Fonts :=
  { ascii_0806 := fun _ _ => 0x01
    ascii_1206 := fun _ _ => 0x01
    ascii_1608 := fun _ _ => 0x01
    ascii_2412 := fun _ _ => 0x01 }

/-! ## `EPD_ShowPicture` -/

/-- The loop variables `x`, `y` and `j` of `EPD_ShowPicture`. -/
structure PictureState where
  x : Nat
  y : Nat
  j : Nat
deriving DecidableEq, Repr

/-- The loop `for (t = 0; t < 8; t++)` of `EPD_ShowPicture` with `n` rounds left: bit 7 of
`temp` selects the inverse colour or `Color` for the call at `(x - 1, y - 1)`, then
`x++; temp <<= 1`. The result is the calls and the final `x`. -/
def EPD_ShowPicture_bits (y Color : Nat) : Nat → Nat → Nat → List (Nat × Nat × Nat) × Nat
  | 0, _, x => ([], x)
  | n + 1, temp, x =>
    let r := EPD_ShowPicture_bits y Color n (u16 (((temp <<< 1 : Nat) : Int))) (u16 ((x : Int) + 1))
    ((u16 ((x : Int) - 1), u16 ((y : Int) - 1),
        if temp &&& 0x80 ≠ 0 then (if Color = WHITE then BLACK else WHITE) else Color) :: r.1,
      r.2)

/-- The loop `for (i = 0; i < sizex; i++)` of `EPD_ShowPicture` with `n` rounds left: one
byte of `BMP` is drawn, then `x` and `y` go to the next row when `x - x0 == width`,
and `j++`. -/
def EPD_ShowPicture_row (BMP : Nat → Nat) (x0 width Color : Nat) :
    Nat → PictureState → List (Nat × Nat × Nat) × PictureState
  | 0, s => ([], s)
  | n + 1, s =>
    let r := EPD_ShowPicture_bits s.y Color 8 (BMP s.j % 256) s.x
    let s1 : PictureState :=
      if (r.2 : Int) - (x0 : Int) = (width : Int) then
        { x := x0, y := u16 ((s.y : Int) + 1), j := u16 ((s.j : Int) + 1) }
      else
        { x := r.2, y := s.y, j := u16 ((s.j : Int) + 1) }
    let rest := EPD_ShowPicture_row BMP x0 width Color n s1
    (r.1 ++ rest.1, rest.2)

/-- The loop `for (n = 0; n < sizey; n++)` of `EPD_ShowPicture` with `n` rounds left;
`sizexB` is the value of `sizex` after line 598. -/
def EPD_ShowPicture_rows (BMP : Nat → Nat) (x0 width Color sizexB : Nat) :
    Nat → PictureState → List (Nat × Nat × Nat)
  | 0, _ => []
  | n + 1, s =>
    let r := EPD_ShowPicture_row BMP x0 width Color sizexB s
    r.1 ++ EPD_ShowPicture_rows BMP x0 width Color sizexB n r.2

/-- The `Paint_SetPixel` calls `(x, y, color)` of `EPD_ShowPicture` (lines 592-618), in
order. -/
def EPD_ShowPicture_calls (x y sizex sizey : Nat) (BMP : Nat → Nat) (Color : Nat) :
    List (Nat × Nat × Nat) :=
  let x1 := u16 ((x : Int) + 1)
  let y1 := u16 ((y : Int) + 1)
  let sizexB := u16 (((sizex / 8 + (if sizex % 8 ≠ 0 then 1 else 0) : Nat) : Int))
  EPD_ShowPicture_rows BMP x1 sizex Color sizexB sizey { x := x1, y := y1, j := 0 }

/-- The function `EPD_ShowPicture` acting on the framebuffer. -/
def EPD_ShowPicture (p : Paint_t) (x y sizex sizey : Nat) (BMP : Nat → Nat) (Color : Nat) :
    Paint_t :=
  Paint_SetPixelCalls p (EPD_ShowPicture_calls x y sizex sizey BMP Color)

/-! ## Further observations used in the statements -/

/-- Glyph tables in which the glyph of `'A'` (index 33) is solid, every byte 0xFF, and every
other glyph is empty, used for concrete instances. -/
def solidA : Fonts :=
  { ascii_0806 := fun c _ => if c = 33 then 0xFF else 0x00
    ascii_1206 := fun c _ => if c = 33 then 0xFF else 0x00
    ascii_1608 := fun c _ => if c = 33 then 0xFF else 0x00
    ascii_2412 := fun c _ => if c = 33 then 0xFF else 0x00 }

/-- The bytes of one transport event: those of a transaction, none for a pin or a wait. -/
def Ev.bytes : Ev → List Nat
  | Ev.transmit bs => bs
  | _ => []

/-- The transactions that carry `count` bytes `b` in chunks of 128: `count / 128` full
chunks and, when `count` is not a multiple of 128, one last chunk of `count % 128`
bytes. -/
def repeatChunks (b count : Nat) : List Ev :=
  List.replicate (count / 128) (Ev.transmit (List.replicate 128 b)) ++
    (if count % 128 = 0 then [] else [Ev.transmit (List.replicate (count % 128) b)])

/-! ## Bit-level lemmas -/

theorem mask_eq (k : Nat) (hk : k < 8) : 0x80 >>> k = 2 ^ (7 - k) := by
  interval_cases k <;> rfl

theorem testBit_mask (k b : Nat) (hk : k < 8) :
    (0x80 >>> k).testBit b = decide (7 - k = b) := by
  rw [mask_eq k hk, Nat.testBit_two_pow]

theorem testBit_not32_mask (k b : Nat) (hk : k < 8) :
    (not32 (0x80 >>> k)).testBit b = (decide (b < 32) && !decide (7 - k = b)) := by
  have h : not32 (0x80 >>> k) = 2 ^ 32 - (0x80 >>> k + 1) := by
    unfold not32; omega
  have hlt : 0x80 >>> k < 2 ^ 32 := by
    rw [mask_eq k hk]
    exact Nat.pow_lt_pow_right (by norm_num) (by omega)
  rw [h, Nat.testBit_two_pow_sub_succ hlt, testBit_mask k b hk]

/-- Bits of the byte written by the BLACK branch. -/
theorem testBit_clear (r k b : Nat) (hk : k < 8) :
    (((r % 256) &&& not32 (0x80 >>> k)) % 256).testBit b =
      ((r % 256).testBit b && !decide (7 - k = b)) := by
  have h256 : (256 : Nat) = 2 ^ 8 := by norm_num
  rw [h256, Nat.testBit_mod_two_pow, Nat.testBit_and, testBit_not32_mask k b hk,
    Nat.testBit_mod_two_pow]
  by_cases h8 : b < 8
  · have : b < 32 := by omega
    simp [h8, this]
  · simp [h8]

/-- Bits of the byte written by the non-BLACK branch. -/
theorem testBit_set (r k b : Nat) (hk : k < 8) :
    (((r % 256) ||| (0x80 >>> k)) % 256).testBit b =
      ((r % 256).testBit b || decide (7 - k = b)) := by
  have h256 : (256 : Nat) = 2 ^ 8 := by norm_num
  rw [h256, Nat.testBit_mod_two_pow, Nat.testBit_or, testBit_mask k b hk,
    Nat.testBit_mod_two_pow]
  by_cases h8 : b < 8
  · simp [h8]
  · have : ¬ (7 - k = b) := by omega
    simp [h8, this]

/-! ## `Paint_SetPixel` -/

theorem Paint_SetPixel_of_XY_none (p : Paint_t) (x y c : Nat)
    (h : Paint_SetPixel_XY p x y = none) : Paint_SetPixel p x y c = p := by
  unfold Paint_SetPixel; rw [h]

theorem Paint_SetPixel_of_XY_out (p : Paint_t) (x y c X Y : Nat)
    (h : Paint_SetPixel_XY p x y = some (X, Y))
    (hout : p.WidthMemory ≤ X ∨ p.HeightMemory ≤ Y) : Paint_SetPixel p x y c = p := by
  unfold Paint_SetPixel; rw [h]
  simp only [ge_iff_le]
  rw [if_pos hout]

/-- The result of `Paint_SetPixel` when the switch yields an in-range `(X, Y)`. -/
theorem Paint_SetPixel_of_XY_in (p : Paint_t) (x y c X Y : Nat)
    (h : Paint_SetPixel_XY p x y = some (X, Y))
    (hX : X < p.WidthMemory) (hY : Y < p.HeightMemory) :
    Paint_SetPixel p x y c =
      if c = BLACK then
        { p with Image := (store p.Image ((X / 8 + Y * p.WidthByte) % 2 ^ 32)
            ((p.Image ((X / 8 + Y * p.WidthByte) % 2 ^ 32) % 256 &&&
              not32 (0x80 >>> (X % 8))) % 256)) }
      else
        { p with Image := (store p.Image ((X / 8 + Y * p.WidthByte) % 2 ^ 32)
            ((p.Image ((X / 8 + Y * p.WidthByte) % 2 ^ 32) % 256 |||
              (0x80 >>> (X % 8))) % 256)) } := by
  unfold Paint_SetPixel; rw [h]
  have hn : ¬ (X ≥ p.WidthMemory ∨ Y ≥ p.HeightMemory) := by omega
  simp only [if_neg hn]

theorem addr_no_wrap (X Y WB : Nat) (hX : X < 65536) (hY : Y < 65536) (hW : WB < 65536) :
    (X / 8 + Y * WB) % 2 ^ 32 = X / 8 + Y * WB := by
  apply Nat.mod_eq_of_lt
  have h1 : Y * WB ≤ 65535 * 65535 := Nat.mul_le_mul (by omega) (by omega)
  have h2 : X / 8 ≤ 8191 := by omega
  norm_num
  omega

/-- C1: with rotation 0 and `x < WidthMemory`, `y < HeightMemory`, the call
`Paint_SetPixel(x, y, color)` changes at most bit `7 - x % 8` of the byte at
offset `x / 8 + y * WidthByte`: every other byte and every other bit of that
byte is as before, no other member of the descriptor changes, and the addressed
bit is 0 when `color == BLACK` and 1 for every other colour. -/
theorem Paint_SetPixel_rot0_bit (p : Paint_t) (x y c : Nat) (h16 : p.is16)
    (hrot : p.Rotate = 0) (hx : x < p.WidthMemory) (hy : y < p.HeightMemory) :
    (∀ a, a ≠ x / 8 + y * p.WidthByte → (Paint_SetPixel p x y c).Image a = p.Image a) ∧
    (∀ b, b ≠ 7 - x % 8 →
      ((Paint_SetPixel p x y c).byte (x / 8 + y * p.WidthByte)).testBit b =
        (p.byte (x / 8 + y * p.WidthByte)).testBit b) ∧
    (c = BLACK →
      ((Paint_SetPixel p x y c).byte (x / 8 + y * p.WidthByte)).testBit (7 - x % 8) = false) ∧
    (c ≠ BLACK →
      ((Paint_SetPixel p x y c).byte (x / 8 + y * p.WidthByte)).testBit (7 - x % 8) = true) ∧
    Paint_SetPixel p x y c = { p with Image := (Paint_SetPixel p x y c).Image } := by
  obtain ⟨_, _, hW, hH, _, _, hWB, _⟩ := h16
  have hXY : Paint_SetPixel_XY p x y = some (x, y) := by
    unfold Paint_SetPixel_XY; rw [if_pos hrot]
  have hk : x % 8 < 8 := Nat.mod_lt _ (by norm_num)
  have haddr := addr_no_wrap x y p.WidthByte (by omega) (by omega) hWB
  have hval := Paint_SetPixel_of_XY_in p x y c x y hXY hx hy
  rw [haddr] at hval
  by_cases hc : c = BLACK
  · rw [if_pos hc] at hval
    rw [hval]
    refine ⟨?_, ?_, ?_, ?_, rfl⟩
    · intro a ha; simp [store, ha]
    · intro b hb
      have hb2 : ¬ (7 - x % 8 = b) := fun h => hb h.symm
      simp only [Paint_t.byte, store, if_true]
      rw [Nat.mod_mod, testBit_clear _ _ _ hk]
      simp [hb2]
    · intro _
      simp only [Paint_t.byte, store, if_true]
      rw [Nat.mod_mod, testBit_clear _ _ _ hk]
      simp
    · intro h; exact absurd hc h
  · rw [if_neg hc] at hval
    rw [hval]
    refine ⟨?_, ?_, ?_, ?_, rfl⟩
    · intro a ha; simp [store, ha]
    · intro b hb
      have hb2 : ¬ (7 - x % 8 = b) := fun h => hb h.symm
      simp only [Paint_t.byte, store, if_true]
      rw [Nat.mod_mod, testBit_set _ _ _ hk]
      simp [hb2]
    · intro h; exact absurd h hc
    · intro _
      simp only [Paint_t.byte, store, if_true]
      rw [Nat.mod_mod, testBit_set _ _ _ hk]
      simp

/-- Instance of C1: clearing pixel (13, 2) of a 400 x 300 white buffer clears bit 2 of
byte 101. -/
theorem Paint_SetPixel_rot0_bit_witness :
    ((demoPaint 0).is16 ∧ (demoPaint 0).Rotate = 0 ∧ 13 < (demoPaint 0).WidthMemory ∧
      2 < (demoPaint 0).HeightMemory) ∧
    ((Paint_SetPixel (demoPaint 0) 13 2 BLACK).byte 101).testBit 2 = false :=
  ⟨by decide,
   (Paint_SetPixel_rot0_bit (demoPaint 0) 13 2 BLACK (by decide) rfl (by decide)
      (by decide)).2.2.1 rfl⟩

/-- C2: `Paint_SetPixel` returns the descriptor and buffer unchanged whenever the
physical coordinate of the rotation table, computed in the integers, is outside
`[0, WidthMemory) x [0, HeightMemory)`. This holds for each of the four
rotations and every 16-bit `(x, y)`, the cases where `WidthMemory - y - 1` or
`HeightMemory - x - 1` is negative and wraps to a 16-bit value included; it
also holds whenever the rotation is none of 0, 90, 180, 270. -/
theorem Paint_SetPixel_out_of_range (p : Paint_t) (x y c : Nat) (h16 : p.is16)
    (hx : x < 65536) (hy : y < 65536) :
    (p.Rotate = 0 → ¬ inFrame p.WidthMemory p.HeightMemory ((x : Int), (y : Int)) →
      Paint_SetPixel p x y c = p) ∧
    (p.Rotate = 90 →
      ¬ inFrame p.WidthMemory p.HeightMemory ((p.WidthMemory : Int) - y - 1, (x : Int)) →
      Paint_SetPixel p x y c = p) ∧
    (p.Rotate = 180 →
      ¬ inFrame p.WidthMemory p.HeightMemory
          ((p.WidthMemory : Int) - x - 1, (p.HeightMemory : Int) - y - 1) →
      Paint_SetPixel p x y c = p) ∧
    (p.Rotate = 270 →
      ¬ inFrame p.WidthMemory p.HeightMemory ((y : Int), (p.HeightMemory : Int) - x - 1) →
      Paint_SetPixel p x y c = p) ∧
    (p.Rotate ≠ 0 → p.Rotate ≠ 90 → p.Rotate ≠ 180 → p.Rotate ≠ 270 →
      Paint_SetPixel p x y c = p) := by
  obtain ⟨_, _, hW, hH, _, _, _, _⟩ := h16
  refine ⟨?_, ?_, ?_, ?_, ?_⟩
  · intro hrot hout
    apply Paint_SetPixel_of_XY_out p x y c x y
    · unfold Paint_SetPixel_XY; rw [if_pos hrot]
    · simp only [inFrame] at hout; omega
  · intro hrot hout
    apply Paint_SetPixel_of_XY_out p x y c (u16 ((p.WidthMemory : Int) - y - 1)) x
    · unfold Paint_SetPixel_XY; simp [hrot]
    · simp only [inFrame] at hout; unfold u16; omega
  · intro hrot hout
    apply Paint_SetPixel_of_XY_out p x y c (u16 ((p.WidthMemory : Int) - x - 1))
      (u16 ((p.HeightMemory : Int) - y - 1))
    · unfold Paint_SetPixel_XY; simp [hrot]
    · simp only [inFrame] at hout; unfold u16; omega
  · intro hrot hout
    apply Paint_SetPixel_of_XY_out p x y c y (u16 ((p.HeightMemory : Int) - x - 1))
    · unfold Paint_SetPixel_XY; simp [hrot]
    · simp only [inFrame] at hout; unfold u16; omega
  · intro h0 h90 h180 h270
    apply Paint_SetPixel_of_XY_none
    unfold Paint_SetPixel_XY
    simp [h0, h90, h180, h270]

/-- Instance of C2: with rotation 90 on a 400 x 300 buffer the call at (0, 400) has
`WidthMemory - y - 1 = -1`, which wraps to 65535, and nothing is written. -/
theorem Paint_SetPixel_out_of_range_witness :
    ((demoPaint 90).is16 ∧ 0 < 65536 ∧ 400 < 65536) ∧
    Paint_SetPixel (demoPaint 90) 0 400 BLACK = demoPaint 90 :=
  ⟨by decide,
   (Paint_SetPixel_out_of_range (demoPaint 90) 0 400 BLACK (by decide) (by decide)
      (by decide)).2.1 rfl (by decide)⟩

/-- C3: for rotations 90, 180 and 270 and every logical `(x, y)` whose image under
the rotation table is in range, `Paint_SetPixel(x, y, c)` is the rotation-0
pixel-set at the physical coordinate of the table: `(WidthMemory - y - 1, x)`
for 90, `(WidthMemory - 1 - x, HeightMemory - 1 - y)` for 180 and
`(y, HeightMemory - x - 1)` for 270. -/
theorem Paint_SetPixel_rotated (p : Paint_t) (x y c : Nat) (h16 : p.is16)
    (hx : x < 65536) (hy : y < 65536) :
    (p.Rotate = 90 →
      inFrame p.WidthMemory p.HeightMemory ((p.WidthMemory : Int) - y - 1, (x : Int)) →
      Paint_SetPixel p x y c =
        { Paint_SetPixel { p with Rotate := 0 } (p.WidthMemory - y - 1) x c with
          Rotate := 90 }) ∧
    (p.Rotate = 180 →
      inFrame p.WidthMemory p.HeightMemory
          ((p.WidthMemory : Int) - 1 - x, (p.HeightMemory : Int) - 1 - y) →
      Paint_SetPixel p x y c =
        { Paint_SetPixel { p with Rotate := 0 } (p.WidthMemory - 1 - x)
            (p.HeightMemory - 1 - y) c with Rotate := 180 }) ∧
    (p.Rotate = 270 →
      inFrame p.WidthMemory p.HeightMemory ((y : Int), (p.HeightMemory : Int) - x - 1) →
      Paint_SetPixel p x y c =
        { Paint_SetPixel { p with Rotate := 0 } y (p.HeightMemory - x - 1) c with
          Rotate := 270 }) := by
  obtain ⟨_, _, hW, hH, _, _, _, _⟩ := h16
  refine ⟨?_, ?_, ?_⟩
  · intro hrot hin
    simp only [inFrame] at hin
    have hX : u16 ((p.WidthMemory : Int) - y - 1) = p.WidthMemory - y - 1 := by
      unfold u16; omega
    have h1 : Paint_SetPixel_XY p x y = some (p.WidthMemory - y - 1, x) := by
      unfold Paint_SetPixel_XY; simp [hrot, hX]
    have h2 : Paint_SetPixel_XY { p with Rotate := 0 } (p.WidthMemory - y - 1) x =
        some (p.WidthMemory - y - 1, x) := by
      unfold Paint_SetPixel_XY; simp
    rw [Paint_SetPixel_of_XY_in p x y c _ _ h1 (by omega) (by omega),
      Paint_SetPixel_of_XY_in { p with Rotate := 0 } _ _ c _ _ h2
        (by show p.WidthMemory - y - 1 < p.WidthMemory; omega)
        (by show x < p.HeightMemory; omega)]
    split <;> simp [hrot]
  · intro hrot hin
    simp only [inFrame] at hin
    have hX : u16 ((p.WidthMemory : Int) - x - 1) = p.WidthMemory - 1 - x := by
      unfold u16; omega
    have hY : u16 ((p.HeightMemory : Int) - y - 1) = p.HeightMemory - 1 - y := by
      unfold u16; omega
    have h1 : Paint_SetPixel_XY p x y = some (p.WidthMemory - 1 - x, p.HeightMemory - 1 - y) := by
      unfold Paint_SetPixel_XY; simp [hrot, hX, hY]
    have h2 : Paint_SetPixel_XY { p with Rotate := 0 } (p.WidthMemory - 1 - x)
        (p.HeightMemory - 1 - y) = some (p.WidthMemory - 1 - x, p.HeightMemory - 1 - y) := by
      unfold Paint_SetPixel_XY; simp
    rw [Paint_SetPixel_of_XY_in p x y c _ _ h1 (by omega) (by omega),
      Paint_SetPixel_of_XY_in { p with Rotate := 0 } _ _ c _ _ h2
        (by show p.WidthMemory - 1 - x < p.WidthMemory; omega)
        (by show p.HeightMemory - 1 - y < p.HeightMemory; omega)]
    split <;> simp [hrot]
  · intro hrot hin
    simp only [inFrame] at hin
    have hY : u16 ((p.HeightMemory : Int) - x - 1) = p.HeightMemory - x - 1 := by
      unfold u16; omega
    have h1 : Paint_SetPixel_XY p x y = some (y, p.HeightMemory - x - 1) := by
      unfold Paint_SetPixel_XY; simp [hrot, hY]
    have h2 : Paint_SetPixel_XY { p with Rotate := 0 } y (p.HeightMemory - x - 1) =
        some (y, p.HeightMemory - x - 1) := by
      unfold Paint_SetPixel_XY; simp
    rw [Paint_SetPixel_of_XY_in p x y c _ _ h1 (by omega) (by omega),
      Paint_SetPixel_of_XY_in { p with Rotate := 0 } _ _ c _ _ h2
        (by show y < p.WidthMemory; omega)
        (by show p.HeightMemory - x - 1 < p.HeightMemory; omega)]
    split <;> simp [hrot]

/-- Instance of C3: with rotation 180 on a 400 x 300 buffer, the logical pixel (0, 0)
is the physical pixel (399, 299): bit 0 of byte 49 + 299 * 50. -/
theorem Paint_SetPixel_rotated_witness :
    ((demoPaint 180).is16 ∧ 0 < 65536) ∧
    Paint_SetPixel (demoPaint 180) 0 0 BLACK =
      { Paint_SetPixel { demoPaint 180 with Rotate := 0 } 399 299 BLACK with Rotate := 180 } :=
  ⟨by decide,
   (Paint_SetPixel_rotated (demoPaint 180) 0 0 BLACK (by decide) (by decide)
      (by decide)).2.1 rfl (by decide)⟩

/-! ## Axis-parallel lines -/

theorem EPD_DrawLine_body_h_end (xe y : Nat) (d XA YA : Int) (hd : 0 ≤ d) :
    EPD_DrawLine_body xe y d 0 XA YA ⟨xe, y, d⟩ = none := by
  unfold EPD_DrawLine_body
  have h : 2 * d ≥ 0 := by omega
  simp [h]

theorem EPD_DrawLine_body_right (xe x y : Nat) (d YA : Int) (hne : x ≠ xe) (hd : 0 < d)
    (hx : x + 1 < 65536) :
    EPD_DrawLine_body xe y d 0 1 YA ⟨x, y, d⟩ = some ⟨x + 1, y, d⟩ := by
  unfold EPD_DrawLine_body
  have h : 2 * d ≥ 0 := by omega
  have h2 : ¬ (2 * d ≤ d) := by omega
  have h3 : u16 ((x : Int) + 1) = x + 1 := by unfold u16; omega
  simp [h, h2, hne, h3]

theorem EPD_DrawLine_body_left (xe x y : Nat) (d YA : Int) (hne : x ≠ xe) (hd : 0 < d)
    (hx0 : 1 ≤ x) (hx : x < 65536) :
    EPD_DrawLine_body xe y d 0 (-1) YA ⟨x, y, d⟩ = some ⟨x - 1, y, d⟩ := by
  unfold EPD_DrawLine_body
  have h : 2 * d ≥ 0 := by omega
  have h2 : ¬ (2 * d ≤ d) := by omega
  have h3 : u16 ((x : Int) + -1) = x - 1 := by unfold u16; omega
  simp [h, h2, hne, h3]

theorem EPD_DrawLine_body_v_end (x ye : Nat) (m XA YA : Int) (_hm : 0 ≤ m) :
    EPD_DrawLine_body x ye 0 (-m) XA YA ⟨x, ye, -m⟩ = none := by
  by_cases h : 2 * -m ≥ -m
  · dsimp only [EPD_DrawLine_body]
    rw [if_pos h, if_pos rfl]
  · have h2 : 2 * -m ≤ 0 := by omega
    dsimp only [EPD_DrawLine_body]
    rw [if_neg h]
    dsimp only
    rw [if_pos h2, if_pos rfl]

theorem EPD_DrawLine_body_down (x ye y : Nat) (m XA : Int) (hne : y ≠ ye) (hm : 0 < m)
    (hy : y + 1 < 65536) :
    EPD_DrawLine_body x ye 0 (-m) XA 1 ⟨x, y, -m⟩ = some ⟨x, y + 1, -m⟩ := by
  have h : ¬ (2 * -m ≥ -m) := by omega
  have h2 : 2 * -m ≤ 0 := by omega
  have h3 : u16 ((y : Int) + 1) = y + 1 := by unfold u16; omega
  dsimp only [EPD_DrawLine_body]
  rw [if_neg h]
  dsimp only
  rw [if_pos h2, if_neg hne, h3, Int.add_zero]

theorem EPD_DrawLine_body_up (x ye y : Nat) (m XA : Int) (hne : y ≠ ye) (hm : 0 < m)
    (hy0 : 1 ≤ y) (hy : y < 65536) :
    EPD_DrawLine_body x ye 0 (-m) XA (-1) ⟨x, y, -m⟩ = some ⟨x, y - 1, -m⟩ := by
  have h : ¬ (2 * -m ≥ -m) := by omega
  have h2 : 2 * -m ≤ 0 := by omega
  have h3 : u16 ((y : Int) + -1) = y - 1 := by unfold u16; omega
  dsimp only [EPD_DrawLine_body]
  rw [if_neg h]
  dsimp only
  rw [if_pos h2, if_neg hne, h3, Int.add_zero]

theorem range_succ_map_shift {α : Type} (n : Nat) (f : Nat → α) :
    (List.range (n + 1)).map f = f 0 :: (List.range n).map (fun i => f (i + 1)) := by
  rw [List.range_succ_eq_map, List.map_cons, List.map_map]
  rfl

theorem EPD_DrawLine_loop_right (xe y : Nat) (d YA : Int) (hxe : xe < 65536) :
    ∀ (n fuel x : Nat), x + n = xe → (n : Int) ≤ d → n < fuel →
      EPD_DrawLine_loop xe y d 0 1 YA fuel ⟨x, y, d⟩ =
        some ((List.range (n + 1)).map (fun i => (x + i, y))) := by
  intro n
  induction n with
  | zero =>
    intro fuel x hx hd hf
    obtain ⟨f, rfl⟩ : ∃ f, fuel = f + 1 := ⟨fuel - 1, by omega⟩
    have hx2 : x = xe := by omega
    subst hx2
    simp [EPD_DrawLine_loop, EPD_DrawLine_body_h_end x y d 1 YA (by omega), List.range_succ]
  | succ n ih =>
    intro fuel x hx hd hf
    obtain ⟨f, rfl⟩ : ∃ f, fuel = f + 1 := ⟨fuel - 1, by omega⟩
    rw [range_succ_map_shift]
    simp only [EPD_DrawLine_loop]
    rw [EPD_DrawLine_body_right xe x y d YA (by omega) (by omega) (by omega)]
    simp only
    rw [ih f (x + 1) (by omega) (by omega) (by omega)]
    simp only [Option.map_some', Nat.add_zero]
    congr 2
    apply List.map_congr_left
    intro i _
    simp only [Prod.mk.injEq, and_true]
    omega

theorem EPD_DrawLine_loop_left (xe y : Nat) (d YA : Int) :
    ∀ (n fuel x : Nat), x = xe + n → x < 65536 → (n : Int) ≤ d → n < fuel →
      EPD_DrawLine_loop xe y d 0 (-1) YA fuel ⟨x, y, d⟩ =
        some ((List.range (n + 1)).map (fun i => (x - i, y))) := by
  intro n
  induction n with
  | zero =>
    intro fuel x hx _ hd hf
    obtain ⟨f, rfl⟩ : ∃ f, fuel = f + 1 := ⟨fuel - 1, by omega⟩
    have hx2 : x = xe := by omega
    subst hx2
    simp [EPD_DrawLine_loop, EPD_DrawLine_body_h_end x y d (-1) YA (by omega), List.range_succ]
  | succ n ih =>
    intro fuel x hx hx16 hd hf
    obtain ⟨f, rfl⟩ : ∃ f, fuel = f + 1 := ⟨fuel - 1, by omega⟩
    rw [range_succ_map_shift]
    simp only [EPD_DrawLine_loop]
    rw [EPD_DrawLine_body_left xe x y d YA (by omega) (by omega) (by omega) hx16]
    simp only
    rw [ih f (x - 1) (by omega) (by omega) (by omega) (by omega)]
    simp only [Option.map_some', Nat.sub_zero]
    congr 2
    apply List.map_congr_left
    intro i _
    simp only [Prod.mk.injEq, and_true]
    omega

theorem EPD_DrawLine_loop_down (x ye : Nat) (m XA : Int) (hye : ye < 65536) :
    ∀ (n fuel y : Nat), y + n = ye → (n : Int) ≤ m → n < fuel →
      EPD_DrawLine_loop x ye 0 (-m) XA 1 fuel ⟨x, y, -m⟩ =
        some ((List.range (n + 1)).map (fun i => (x, y + i))) := by
  intro n
  induction n with
  | zero =>
    intro fuel y hy hd hf
    obtain ⟨f, rfl⟩ : ∃ f, fuel = f + 1 := ⟨fuel - 1, by omega⟩
    have hy2 : y = ye := by omega
    subst hy2
    simp [EPD_DrawLine_loop, EPD_DrawLine_body_v_end x y m XA 1 (by omega), List.range_succ]
  | succ n ih =>
    intro fuel y hy hd hf
    obtain ⟨f, rfl⟩ : ∃ f, fuel = f + 1 := ⟨fuel - 1, by omega⟩
    rw [range_succ_map_shift]
    simp only [EPD_DrawLine_loop]
    rw [EPD_DrawLine_body_down x ye y m XA (by omega) (by omega) (by omega)]
    simp only
    rw [ih f (y + 1) (by omega) (by omega) (by omega)]
    simp only [Option.map_some', Nat.add_zero]
    congr 2
    apply List.map_congr_left
    intro i _
    simp only [Prod.mk.injEq, true_and]
    omega

theorem EPD_DrawLine_loop_up (x ye : Nat) (m XA : Int) :
    ∀ (n fuel y : Nat), y = ye + n → y < 65536 → (n : Int) ≤ m → n < fuel →
      EPD_DrawLine_loop x ye 0 (-m) XA (-1) fuel ⟨x, y, -m⟩ =
        some ((List.range (n + 1)).map (fun i => (x, y - i))) := by
  intro n
  induction n with
  | zero =>
    intro fuel y hy _ hd hf
    obtain ⟨f, rfl⟩ : ∃ f, fuel = f + 1 := ⟨fuel - 1, by omega⟩
    have hy2 : y = ye := by omega
    subst hy2
    simp [EPD_DrawLine_loop, EPD_DrawLine_body_v_end x y m XA (-1) (by omega), List.range_succ]
  | succ n ih =>
    intro fuel y hy hy16 hd hf
    obtain ⟨f, rfl⟩ : ∃ f, fuel = f + 1 := ⟨fuel - 1, by omega⟩
    rw [range_succ_map_shift]
    simp only [EPD_DrawLine_loop]
    rw [EPD_DrawLine_body_up x ye y m XA (by omega) (by omega) (by omega) hy16]
    simp only
    rw [ih f (y - 1) (by omega) (by omega) (by omega) (by omega)]
    simp only [Option.map_some', Nat.sub_zero]
    congr 2
    apply List.map_congr_left
    intro i _
    simp only [Prod.mk.injEq, true_and]
    omega

/-- The pixel calls of a horizontal line, in order. -/
theorem EPD_DrawLine_calls_horizontal (fuel x0 x1 y : Nat) (h0 : x0 < 65536) (h1 : x1 < 65536)
    (hf : max x0 x1 - min x0 x1 < fuel) :
    EPD_DrawLine_calls fuel x0 y x1 y = some (hline x0 x1 y) := by
  unfold EPD_DrawLine_calls hline
  have hdy : (if (y : Int) - y ≤ 0 then (y : Int) - y else (y : Int) - y) = 0 := by simp
  simp only [hdy, Int.add_zero]
  by_cases hle : x0 ≤ x1
  · have hdx : (if (x1 : Int) - x0 ≥ 0 then (x1 : Int) - x0 else (x0 : Int) - x1)
        = ((x1 - x0 : Nat) : Int) := by
      rw [if_pos (by omega)]; omega
    have hm : max x0 x1 - min x0 x1 = x1 - x0 := by omega
    rw [hdx, hm]
    by_cases hlt : x0 < x1
    · rw [if_pos hlt]
      rw [EPD_DrawLine_loop_right x1 y _ _ h1 (x1 - x0) fuel x0 (by omega) (by omega) (by omega)]
      simp [hle]
    · have : x0 = x1 := by omega
      subst this
      rw [if_neg hlt]
      rw [EPD_DrawLine_loop_left x0 y _ _ 0 fuel x0 (by omega) h0 (by simp) (by omega)]
      simp
  · have hdx : (if (x1 : Int) - x0 ≥ 0 then (x1 : Int) - x0 else (x0 : Int) - x1)
        = ((x0 - x1 : Nat) : Int) := by
      rw [if_neg (by omega)]; omega
    have hm : max x0 x1 - min x0 x1 = x0 - x1 := by omega
    rw [hdx, hm, if_neg (show ¬ x0 < x1 by omega)]
    rw [EPD_DrawLine_loop_left x1 y _ _ (x0 - x1) fuel x0 (by omega) h0 (by omega) (by omega)]
    simp [hle]

/-- The pixel calls of a vertical line, in order. -/
theorem EPD_DrawLine_calls_vertical (fuel x y0 y1 : Nat) (h0 : y0 < 65536) (h1 : y1 < 65536)
    (hf : max y0 y1 - min y0 y1 < fuel) :
    EPD_DrawLine_calls fuel x y0 x y1 = some (vline x y0 y1) := by
  unfold EPD_DrawLine_calls vline
  have hdx : (if (x : Int) - x ≥ 0 then (x : Int) - x else (x : Int) - x) = 0 := by simp
  simp only [hdx, Int.zero_add]
  by_cases hle : y0 ≤ y1
  · have hdy : (if (y1 : Int) - y0 ≤ 0 then (y1 : Int) - y0 else (y0 : Int) - y1)
        = -((y1 - y0 : Nat) : Int) := by
      by_cases h : (y1 : Int) - y0 ≤ 0
      · rw [if_pos h]; omega
      · rw [if_neg h]; omega
    have hm : max y0 y1 - min y0 y1 = y1 - y0 := by omega
    rw [hdy, hm]
    by_cases hlt : y0 < y1
    · rw [if_pos hlt]
      rw [EPD_DrawLine_loop_down x y1 _ _ h1 (y1 - y0) fuel y0 (by omega) (by omega) (by omega)]
      simp [hle]
    · have : y0 = y1 := by omega
      subst this
      rw [if_neg hlt]
      rw [EPD_DrawLine_loop_up x y0 _ _ 0 fuel y0 (by omega) h0 (by simp) (by omega)]
      simp
  · have hdy : (if (y1 : Int) - y0 ≤ 0 then (y1 : Int) - y0 else (y0 : Int) - y1)
        = -((y0 - y1 : Nat) : Int) := by
      rw [if_pos (by omega)]; omega
    have hm : max y0 y1 - min y0 y1 = y0 - y1 := by omega
    rw [hdy, hm, if_neg (show ¬ y0 < y1 by omega)]
    rw [EPD_DrawLine_loop_up x y1 _ _ (y0 - y1) fuel y0 (by omega) h0 (by omega) (by omega)]
    simp [hle]

/-- A round of `EPD_DrawLine` that does not `break` moves the point at least one
unit step towards the end point and keeps it between start and end. -/
theorem EPD_DrawLine_body_progress (xs ys xe ye : Nat) (dx dy : Int) (hxe : xe < 65536)
    (hye : ye < 65536) (hdx : 0 ≤ dx) (hdy : dy ≤ 0) (s s1 : LineState)
    (hinv : LineInv xs ys xe ye s)
    (h : EPD_DrawLine_body xe ye dx dy (if xs < xe then 1 else -1)
      (if ys < ye then 1 else -1) s = some s1) :
    LineInv xs ys xe ye s1 ∧ LineDist xe ye s1 < LineDist xe ye s := by
  obtain ⟨X, Y, E⟩ := s
  simp only [LineInv] at hinv
  obtain ⟨i1, i2, i3, i4⟩ := hinv
  have hX : X ≠ xe →
      (xs < xe → u16 ((X : Int) + (if xs < xe then 1 else -1)) = X + 1) ∧
      (¬ xs < xe → u16 ((X : Int) + (if xs < xe then 1 else -1)) = X - 1) := by
    intro hne
    constructor
    · intro hlt
      have := i1 hlt
      simp only [if_pos hlt]; unfold u16; omega
    · intro hlt
      have := i2 hlt
      simp only [if_neg hlt]; unfold u16; omega
  have hY : Y ≠ ye →
      (ys < ye → u16 ((Y : Int) + (if ys < ye then 1 else -1)) = Y + 1) ∧
      (¬ ys < ye → u16 ((Y : Int) + (if ys < ye then 1 else -1)) = Y - 1) := by
    intro hne
    constructor
    · intro hlt
      have := i3 hlt
      simp only [if_pos hlt]; unfold u16; omega
    · intro hlt
      have := i4 hlt
      simp only [if_neg hlt]; unfold u16; omega
  simp only [EPD_DrawLine_body] at h
  by_cases c1 : 2 * E ≥ dy
  · rw [if_pos c1] at h
    by_cases c2 : X = xe
    · rw [if_pos c2] at h
      simp at h
    · rw [if_neg c2] at h
      simp only at h
      obtain ⟨hxa, hxb⟩ := hX c2
      generalize u16 ((X : Int) + (if xs < xe then 1 else -1)) = x1 at hxa hxb h
      by_cases c3 : 2 * (E + dy) ≤ dx
      · rw [if_pos c3] at h
        by_cases c4 : Y = ye
        · rw [if_pos c4] at h
          simp at h
        · rw [if_neg c4] at h
          obtain ⟨hya, hyb⟩ := hY c4
          generalize u16 ((Y : Int) + (if ys < ye then 1 else -1)) = y1 at hya hyb h
          simp only [Option.some.injEq] at h
          subst h
          simp only [LineInv, LineDist]
          clear hX hY c1
          refine ⟨⟨fun h1 => ?_, fun h1 => ?_, fun h1 => ?_, fun h1 => ?_⟩, ?_⟩ <;>
            by_cases hlt : xs < xe <;> by_cases hlt2 : ys < ye <;>
            simp only [hlt, hlt2, true_implies, false_implies, not_true_eq_false,
              not_false_eq_true] at * <;> omega
      · rw [if_neg c3] at h
        simp only [Option.some.injEq] at h
        subst h
        simp only [LineInv, LineDist]
        clear hX hY c1
        refine ⟨⟨fun h1 => ?_, fun h1 => ?_, fun h1 => ?_, fun h1 => ?_⟩, ?_⟩ <;>
          by_cases hlt : xs < xe <;> by_cases hlt2 : ys < ye <;>
          simp only [hlt, hlt2, true_implies, false_implies, not_true_eq_false,
            not_false_eq_true] at * <;> omega
  · rw [if_neg c1] at h
    simp only at h
    have c3 : 2 * E ≤ dx := by omega
    rw [if_pos c3] at h
    by_cases c4 : Y = ye
    · rw [if_pos c4] at h
      simp at h
    · rw [if_neg c4] at h
      obtain ⟨hya, hyb⟩ := hY c4
      generalize u16 ((Y : Int) + (if ys < ye then 1 else -1)) = y1 at hya hyb h
      simp only [Option.some.injEq] at h
      subst h
      simp only [LineInv, LineDist]
      clear hX hY c1
      refine ⟨⟨fun h1 => ?_, fun h1 => ?_, fun h1 => ?_, fun h1 => ?_⟩, ?_⟩ <;>
        by_cases hlt : xs < xe <;> by_cases hlt2 : ys < ye <;>
        simp only [hlt, hlt2, true_implies, false_implies, not_true_eq_false,
          not_false_eq_true] at * <;> omega

/-- The loop of `EPD_DrawLine` exits: with more fuel than unit steps to the end
point it returns a list of calls that starts with the current point. -/
theorem EPD_DrawLine_loop_terminates (xs ys xe ye : Nat) (dx dy : Int) (hxe : xe < 65536)
    (hye : ye < 65536) (hdx : 0 ≤ dx) (hdy : dy ≤ 0) :
    ∀ (fuel : Nat) (s : LineState), LineInv xs ys xe ye s → LineDist xe ye s < fuel →
      ∃ L, EPD_DrawLine_loop xe ye dx dy (if xs < xe then 1 else -1)
          (if ys < ye then 1 else -1) fuel s = some L ∧
        L.head? = some (s.Xpoint, s.Ypoint) ∧ L.length ≤ LineDist xe ye s + 1 := by
  intro fuel
  induction fuel with
  | zero => intro s _ hf; omega
  | succ f ih =>
    intro s hinv hf
    simp only [EPD_DrawLine_loop]
    cases hb : EPD_DrawLine_body xe ye dx dy (if xs < xe then 1 else -1)
        (if ys < ye then 1 else -1) s with
    | none => exact ⟨_, rfl, rfl, by simp⟩
    | some s1 =>
      obtain ⟨hinv1, hlt⟩ :=
        EPD_DrawLine_body_progress xs ys xe ye dx dy hxe hye hdx hdy s s1 hinv hb
      obtain ⟨L, hL, -, hlen⟩ := ih s1 hinv1 (by omega)
      refine ⟨(s.Xpoint, s.Ypoint) :: L, ?_, rfl, ?_⟩
      · simp only [hL, Option.map_some']
      · simp only [List.length_cons]; omega

/-- The function `EPD_DrawLine` terminates for every pair of 16-bit end points,
and its first pixel call is at the start point. -/
theorem EPD_DrawLine_calls_terminates (fuel xs ys xe ye : Nat) (hxs : xs < 65536)
    (hys : ys < 65536) (hxe : xe < 65536) (hye : ye < 65536)
    (hf : max xs xe - min xs xe + (max ys ye - min ys ye) < fuel) :
    ∃ L, EPD_DrawLine_calls fuel xs ys xe ye = some L ∧ L.head? = some (xs, ys) ∧
      L.length ≤ max xs xe - min xs xe + (max ys ye - min ys ye) + 1 := by
  unfold EPD_DrawLine_calls
  have hdx : (0 : Int) ≤ (if (xe : Int) - xs ≥ 0 then (xe : Int) - xs else (xs : Int) - xe) := by
    split <;> omega
  have hdy : (if (ye : Int) - ys ≤ 0 then (ye : Int) - ys else (ys : Int) - ye) ≤ (0 : Int) := by
    split <;> omega
  have hinv : LineInv xs ys xe ye ⟨xs, ys,
      (if (xe : Int) - xs ≥ 0 then (xe : Int) - xs else (xs : Int) - xe) +
        (if (ye : Int) - ys ≤ 0 then (ye : Int) - ys else (ys : Int) - ye)⟩ := by
    simp only [LineInv]; omega
  have hdist : LineDist xe ye ⟨xs, ys,
      (if (xe : Int) - xs ≥ 0 then (xe : Int) - xs else (xs : Int) - xe) +
        (if (ye : Int) - ys ≤ 0 then (ye : Int) - ys else (ys : Int) - ye)⟩
      = max xs xe - min xs xe + (max ys ye - min ys ye) := by
    simp only [LineDist]; omega
  obtain ⟨L, hL, hhead, hlen⟩ :=
    EPD_DrawLine_loop_terminates xs ys xe ye _ _ hxe hye hdx hdy fuel _ hinv (by omega)
  exact ⟨L, hL, hhead, by omega⟩

theorem mem_hline_iff (x0 x1 y px py : Nat) :
    (px, py) ∈ hline x0 x1 y ↔ py = y ∧ min x0 x1 ≤ px ∧ px ≤ max x0 x1 := by
  simp only [hline, List.mem_map, List.mem_range, Prod.mk.injEq]
  constructor
  · rintro ⟨i, hi, h1, h2⟩
    by_cases hle : x0 ≤ x1
    · rw [if_pos hle] at h1; omega
    · rw [if_neg hle] at h1; omega
  · rintro ⟨h1, h2, h3⟩
    by_cases hle : x0 ≤ x1
    · refine ⟨px - x0, by omega, ?_, h1.symm⟩
      rw [if_pos hle]; omega
    · refine ⟨x0 - px, by omega, ?_, h1.symm⟩
      rw [if_neg hle]; omega

theorem mem_vline_iff (x y0 y1 px py : Nat) :
    (px, py) ∈ vline x y0 y1 ↔ px = x ∧ min y0 y1 ≤ py ∧ py ≤ max y0 y1 := by
  simp only [vline, List.mem_map, List.mem_range, Prod.mk.injEq]
  constructor
  · rintro ⟨i, hi, h1, h2⟩
    by_cases hle : y0 ≤ y1
    · rw [if_pos hle] at h2; omega
    · rw [if_neg hle] at h2; omega
  · rintro ⟨h1, h2, h3⟩
    by_cases hle : y0 ≤ y1
    · refine ⟨py - y0, by omega, h1.symm, ?_⟩
      rw [if_pos hle]; omega
    · refine ⟨y0 - py, by omega, h1.symm, ?_⟩
      rw [if_neg hle]; omega

theorem nodup_hline (x0 x1 y : Nat) : (hline x0 x1 y).Nodup := by
  unfold hline
  apply List.Nodup.map_on _ (List.nodup_range _)
  intro i hi j hj hij
  simp only [List.mem_range] at hi hj
  simp only [Prod.mk.injEq, and_true] at hij
  by_cases hle : x0 ≤ x1
  · simp only [if_pos hle] at hij; omega
  · simp only [if_neg hle] at hij; omega

/-- C4 (failing input): the line from (0, 0) to (2, 1) makes two pixel calls,
(0, 0) and (1, 1), and then leaves the loop through the `Ypoint == Yend` test
after `Xpoint` has been advanced to 2; the end point (2, 1) is not plotted. -/
theorem EPD_DrawLine_misses_endpoint (fuel : Nat) :
    ∃ L, EPD_DrawLine_calls (fuel + 2) 0 0 2 1 = some L ∧ L = [(0, 0), (1, 1)] ∧
      L.getLast? ≠ some (2, 1) ∧ (2, 1) ∉ L := by
  refine ⟨[(0, 0), (1, 1)], rfl, rfl, ?_, ?_⟩
  · decide
  · decide

/-- C5: for 16-bit `x0`, `x1` and any `y`, `EPD_DrawLine(x0, y, x1, y)` makes exactly
`|x1 - x0| + 1` pixel calls; the `i`-th call is at `(x0 + i, y)` when `x0 <= x1`
and at `(x0 - i, y)` otherwise, so the calls start at `x0`, are strictly
monotonic in X, hit no point twice and cover exactly the points `(x, y)` with
`min x0 x1 <= x <= max x0 x1`. A zero-length line makes the single call
`(x0, y)`. -/
theorem EPD_DrawLine_horizontal (fuel x0 x1 y : Nat) (h0 : x0 < 65536) (h1 : x1 < 65536)
    (hf : max x0 x1 - min x0 x1 < fuel) :
    (∃ L, EPD_DrawLine_calls fuel x0 y x1 y = some L ∧
      L.length = max x0 x1 - min x0 x1 + 1 ∧
      (∀ i, i < max x0 x1 - min x0 x1 + 1 →
        L[i]? = some (if x0 ≤ x1 then x0 + i else x0 - i, y)) ∧
      L.Nodup ∧
      (∀ px py, (px, py) ∈ L ↔ py = y ∧ min x0 x1 ≤ px ∧ px ≤ max x0 x1)) ∧
    EPD_DrawLine_calls fuel x0 y x0 y = some [(x0, y)] := by
  constructor
  · refine ⟨hline x0 x1 y, EPD_DrawLine_calls_horizontal fuel x0 x1 y h0 h1 hf, ?_, ?_, ?_, ?_⟩
    · simp [hline]
    · intro i hi
      simp [hline, List.getElem?_map, List.getElem?_range hi]
    · exact nodup_hline x0 x1 y
    · intro px py
      exact mem_hline_iff x0 x1 y px py
  · rw [EPD_DrawLine_calls_horizontal fuel x0 x0 y h0 h0 (by omega)]
    simp [hline, List.range_succ]

/-- Instance of C5: the line (10, 10)-(20, 10) makes exactly 11 pixel calls. -/
theorem EPD_DrawLine_horizontal_witness :
    (10 < 65536 ∧ 20 < 65536 ∧ max 10 20 - min 10 20 < 11) ∧
    ∃ L, EPD_DrawLine_calls 11 10 10 20 10 = some L ∧ L.length = 11 :=
  ⟨by decide,
   (EPD_DrawLine_horizontal 11 10 20 10 (by decide) (by decide) (by decide)).1.elim
     (fun L h => ⟨L, h.1, h.2.1⟩)⟩

/-! ## Rectangles -/

theorem EPD_DrawRectangle_fill_spec (fuel xs xe : Nat) (hxs : xs < 65536) (hxe : xe < 65536)
    (hf : max xs xe - min xs xe < fuel) :
    ∀ (n i : Nat), ∃ L, EPD_DrawRectangle_fill fuel xs xe i n = some L ∧
      ∀ px py, (px, py) ∈ L ↔ (i ≤ py ∧ py < i + n) ∧ min xs xe ≤ px ∧ px ≤ max xs xe := by
  intro n
  induction n with
  | zero =>
    intro i
    refine ⟨[], rfl, ?_⟩
    intro px py
    simp only [List.not_mem_nil, false_iff]
    omega
  | succ n ih =>
    intro i
    obtain ⟨L, hL, hmem⟩ := ih (i + 1)
    refine ⟨hline xs xe i ++ L, ?_, ?_⟩
    · simp only [EPD_DrawRectangle_fill]
      rw [EPD_DrawLine_calls_horizontal fuel xs xe i hxs hxe hf]
      simp only
      rw [hL]
      rfl
    · intro px py
      rw [List.mem_append, mem_hline_iff, hmem]
      omega

theorem EPD_DrawRectangle_calls_fill (fuel xs ys xe ye mode : Nat) (hxs : xs < 65536)
    (hxe : xe < 65536) (hmode : mode ≠ 0) (hf : max xs xe - min xs xe < fuel) :
    ∃ L, EPD_DrawRectangle_calls fuel xs ys xe ye mode = some L ∧
      ∀ px py, (px, py) ∈ L ↔
        ys ≤ py ∧ py < ye ∧ min xs xe ≤ px ∧ px ≤ max xs xe := by
  obtain ⟨L, hL, hmem⟩ := EPD_DrawRectangle_fill_spec fuel xs xe hxs hxe hf (ye - ys) ys
  refine ⟨L, ?_, ?_⟩
  · unfold EPD_DrawRectangle_calls
    rw [if_pos hmode, hL]
  · intro px py
    rw [hmem]; omega

theorem EPD_DrawRectangle_calls_outline (fuel xs ys xe ye : Nat) :
    EPD_DrawRectangle_calls fuel xs ys xe ye 0 = EPD_DrawRectangle_outline fuel xs ys xe ye := by
  unfold EPD_DrawRectangle_calls
  rw [if_neg (by simp)]

theorem EPD_DrawRectangle_outline_spec (fuel xs ys xe ye : Nat) (hxs : xs < 65536)
    (hys : ys < 65536) (hxe : xe < 65536) (hye : ye < 65536)
    (hfx : max xs xe - min xs xe < fuel) (hfy : max ys ye - min ys ye < fuel) :
    ∃ L, EPD_DrawRectangle_outline fuel xs ys xe ye = some L ∧
      ∀ px py, (px, py) ∈ L ↔
        ((py = ys ∨ py = ye) ∧ min xs xe ≤ px ∧ px ≤ max xs xe) ∨
        ((px = xs ∨ px = xe) ∧ min ys ye ≤ py ∧ py ≤ max ys ye) := by
  refine ⟨hline xs xe ys ++ vline xs ys ye ++ vline xe ye ys ++ hline xe xs ye, ?_, ?_⟩
  · unfold EPD_DrawRectangle_outline
    rw [EPD_DrawLine_calls_horizontal fuel xs xe ys hxs hxe hfx,
      EPD_DrawLine_calls_vertical fuel xs ys ye hys hye hfy,
      EPD_DrawLine_calls_vertical fuel xe ye ys hye hys (by omega),
      EPD_DrawLine_calls_horizontal fuel xe xs ye hxe hxs (by omega)]
  · intro px py
    rw [List.mem_append, List.mem_append, List.mem_append, mem_hline_iff, mem_vline_iff,
      mem_vline_iff, mem_hline_iff]
    omega

/-- C7 (counterexample): for the rectangle (0, 0)-(10, 10) outline mode makes a
pixel call at (0, 10) and filled mode makes none there, so the filled pixel
set is not the outline united with the interior, and a boundary pixel of the
outline is missing from the filled rectangle. -/
theorem EPD_DrawRectangle_filled_ne_outline :
    ∃ Lf Lo, EPD_DrawRectangle_calls 11 0 0 10 10 1 = some Lf ∧
      EPD_DrawRectangle_calls 11 0 0 10 10 0 = some Lo ∧
      (0, 10) ∈ Lo ∧ (0, 10) ∉ Lf := by
  obtain ⟨Lf, hLf, hmf⟩ :=
    EPD_DrawRectangle_calls_fill 11 0 0 10 10 1 (by decide) (by decide) (by decide) (by decide)
  obtain ⟨Lo, hLo, hmo⟩ :=
    EPD_DrawRectangle_outline_spec 11 0 0 10 10 (by decide) (by decide) (by decide)
      (by decide) (by decide) (by decide)
  refine ⟨Lf, Lo, hLf, ?_, ?_, ?_⟩
  · rw [EPD_DrawRectangle_calls_outline]
    exact hLo
  · rw [hmo]; decide
  · rw [hmf]; decide

/-- C7 (amended): for `Xstart <= Xend` and `Ystart < Yend`, the pixel set of filled
mode is the pixel set of outline mode united with the interior scanlines,
without the bottom row `y = Yend`; every outline pixel above row `Yend` is also
a filled-mode pixel. -/
theorem EPD_DrawRectangle_filled_vs_outline (fuel xs ys xe ye mode : Nat)
    (hxe : xe < 65536) (hye : ye < 65536) (hx : xs ≤ xe) (hy : ys < ye) (hmode : mode ≠ 0)
    (hfx : xe - xs < fuel) (hfy : ye - ys < fuel) :
    ∃ Lf Lo, EPD_DrawRectangle_calls fuel xs ys xe ye mode = some Lf ∧
      EPD_DrawRectangle_calls fuel xs ys xe ye 0 = some Lo ∧
      (∀ px py, (px, py) ∈ Lf ↔
        ((px, py) ∈ Lo ∨ (ys < py ∧ py < ye ∧ xs ≤ px ∧ px ≤ xe)) ∧ py < ye) ∧
      (∀ px py, (px, py) ∈ Lo → py < ye → (px, py) ∈ Lf) := by
  obtain ⟨Lf, hLf, hmf⟩ :=
    EPD_DrawRectangle_calls_fill fuel xs ys xe ye mode (by omega) hxe hmode (by omega)
  obtain ⟨Lo, hLo, hmo⟩ :=
    EPD_DrawRectangle_outline_spec fuel xs ys xe ye (by omega) (by omega) hxe hye
      (by omega) (by omega)
  refine ⟨Lf, Lo, hLf, ?_, ?_, ?_⟩
  · rw [EPD_DrawRectangle_calls_outline]
    exact hLo
  · intro px py
    rw [hmf, hmo]; omega
  · intro px py
    rw [hmf, hmo]; omega

/-- Instance of C7 (amended) for the rectangle (0, 0)-(10, 10): the outline pixel
(10, 5) is a filled-mode pixel. -/
theorem EPD_DrawRectangle_filled_vs_outline_witness :
    (10 < 65536 ∧ 0 ≤ 10 ∧ 0 < 10 ∧ 1 ≠ 0 ∧ 10 - 0 < 11) ∧
    ∃ Lf Lo, EPD_DrawRectangle_calls 11 0 0 10 10 1 = some Lf ∧
      EPD_DrawRectangle_calls 11 0 0 10 10 0 = some Lo ∧
      ((10, 5) ∈ Lo → (10, 5) ∈ Lf) :=
  ⟨by decide,
   (EPD_DrawRectangle_filled_vs_outline 11 0 0 10 10 1 (by decide) (by decide) (by decide)
      (by decide) (by decide) (by decide) (by decide)).elim
     (fun Lf h => h.elim (fun Lo h2 =>
       ⟨Lf, Lo, h2.1, h2.2.1, fun hmem => h2.2.2.2 10 5 hmem (by decide)⟩))⟩

/-! ## Circles -/

theorem SymBox_nil (cx cy R : Nat) : SymBox cx cy R [] := by
  intro pt h; simp at h

theorem SymBox_append (cx cy R : Nat) (L1 L2 : List (Nat × Nat))
    (h1 : SymBox cx cy R L1) (h2 : SymBox cx cy R L2) : SymBox cx cy R (L1 ++ L2) := by
  intro pt h
  rcases List.mem_append.mp h with h | h
  · obtain ⟨hb, hx, hy⟩ := h1 pt h
    exact ⟨hb, List.mem_append.mpr (Or.inl hx), List.mem_append.mpr (Or.inl hy)⟩
  · obtain ⟨hb, hx, hy⟩ := h2 pt h
    exact ⟨hb, List.mem_append.mpr (Or.inr hx), List.mem_append.mpr (Or.inr hy)⟩

/-- Without wrap-around the eight calls of a round are the eight mirror images
of `(a, b)`. -/
theorem EPD_DrawCircle_points_eq (cx cy a b : Nat) (ha : a ≤ cx) (hb : b ≤ cx)
    (ha2 : a ≤ cy) (hb2 : b ≤ cy) (hax : cx + a < 65536) (hbx : cx + b < 65536)
    (hay : cy + a < 65536) (hby : cy + b < 65536) :
    EPD_DrawCircle_points cx cy a b =
      [ (cx + a, cy + b), (cx - a, cy + b), (cx - b, cy + a), (cx - b, cy - a),
        (cx - a, cy - b), (cx + a, cy - b), (cx + b, cy - a), (cx + b, cy + a) ] := by
  have e1 : u16 ((cx : Int) + a) = cx + a := by unfold u16; omega
  have e2 : u16 ((cx : Int) - a) = cx - a := by unfold u16; omega
  have e3 : u16 ((cx : Int) + b) = cx + b := by unfold u16; omega
  have e4 : u16 ((cx : Int) - b) = cx - b := by unfold u16; omega
  have e5 : u16 ((cy : Int) + a) = cy + a := by unfold u16; omega
  have e6 : u16 ((cy : Int) - a) = cy - a := by unfold u16; omega
  have e7 : u16 ((cy : Int) + b) = cy + b := by unfold u16; omega
  have e8 : u16 ((cy : Int) - b) = cy - b := by unfold u16; omega
  unfold EPD_DrawCircle_points
  rw [e1, e2, e3, e4, e5, e6, e7, e8]

theorem mem_mirror_images (cx cy a b : Nat) (pt : Nat × Nat) :
    pt ∈ [ (cx + a, cy + b), (cx - a, cy + b), (cx - b, cy + a), (cx - b, cy - a),
        (cx - a, cy - b), (cx + a, cy - b), (cx + b, cy - a), (cx + b, cy + a) ] ↔
      ((pt.1 = cx + a ∨ pt.1 = cx - a) ∧ (pt.2 = cy + b ∨ pt.2 = cy - b)) ∨
      ((pt.1 = cx + b ∨ pt.1 = cx - b) ∧ (pt.2 = cy + a ∨ pt.2 = cy - a)) := by
  obtain ⟨px, py⟩ := pt
  simp only [List.mem_cons, Prod.mk.injEq, List.mem_singleton, List.not_mem_nil, or_false]
  constructor
  · rintro (⟨h1, h2⟩ | ⟨h1, h2⟩ | ⟨h1, h2⟩ | ⟨h1, h2⟩ | ⟨h1, h2⟩ | ⟨h1, h2⟩ | ⟨h1, h2⟩ |
      ⟨h1, h2⟩) <;> simp [h1, h2]
  · rintro (⟨h1 | h1, h2 | h2⟩ | ⟨h1 | h1, h2 | h2⟩) <;> simp [h1, h2]

theorem SymBox_points (cx cy R a b : Nat) (hR : R ≤ cx) (hR2 : R ≤ cy)
    (hx : cx + R < 65536) (hy : cy + R < 65536) (ha : a ≤ R) (hb : b ≤ R) :
    SymBox cx cy R (EPD_DrawCircle_points cx cy a b) := by
  rw [EPD_DrawCircle_points_eq cx cy a b (by omega) (by omega) (by omega) (by omega)
    (by omega) (by omega) (by omega) (by omega)]
  rintro ⟨px, py⟩ h
  rw [mem_mirror_images] at h ⊢
  rw [mem_mirror_images]
  simp only at h ⊢
  rcases h with ⟨h1 | h1, h2 | h2⟩ | ⟨h1 | h1, h2 | h2⟩ <;>
  refine ⟨by omega, ?_, ?_⟩ <;>
  first
  | (refine Or.inl ⟨Or.inl ?_, Or.inl ?_⟩ <;> omega)
  | (refine Or.inl ⟨Or.inl ?_, Or.inr ?_⟩ <;> omega)
  | (refine Or.inl ⟨Or.inr ?_, Or.inl ?_⟩ <;> omega)
  | (refine Or.inl ⟨Or.inr ?_, Or.inr ?_⟩ <;> omega)
  | (refine Or.inr ⟨Or.inl ?_, Or.inl ?_⟩ <;> omega)
  | (refine Or.inr ⟨Or.inl ?_, Or.inr ?_⟩ <;> omega)
  | (refine Or.inr ⟨Or.inr ?_, Or.inl ?_⟩ <;> omega)
  | (refine Or.inr ⟨Or.inr ?_, Or.inr ?_⟩ <;> omega)

theorem SymBox_span (cx cy R a : Nat) (hR : R ≤ cx) (hR2 : R ≤ cy)
    (hx : cx + R < 65536) (hy : cy + R < 65536) (ha : a ≤ R) :
    ∀ (n s : Nat), s + n ≤ R + 1 → SymBox cx cy R (EPD_DrawCircle_span cx cy a s n) := by
  intro n
  induction n with
  | zero => intro s _; exact SymBox_nil cx cy R
  | succ n ih =>
    intro s hs
    simp only [EPD_DrawCircle_span]
    exact SymBox_append cx cy R _ _
      (SymBox_points cx cy R a s hR hR2 hx hy ha (by omega)) (ih (s + 1) (by omega))

theorem SymBox_round (cx cy R mode : Nat) (s : CircleState) (hR : R ≤ cx) (hR2 : R ≤ cy)
    (hx : cx + R < 65536) (hy : cy + R < 65536) (hXY : s.XCurrent ≤ s.YCurrent)
    (hY : s.YCurrent ≤ R) :
    SymBox cx cy R (EPD_DrawCircle_round cx cy mode s) := by
  unfold EPD_DrawCircle_round
  split
  · exact SymBox_span cx cy R s.XCurrent hR hR2 hx hy (by omega) _ _ (by omega)
  · exact SymBox_points cx cy R _ _ hR hR2 hx hy (by omega) hY

theorem EPD_DrawCircle_next_spec (s : CircleState) (hXY : s.XCurrent ≤ s.YCurrent)
    (hY1 : 1 ≤ s.YCurrent) (hY : s.YCurrent < 65535) :
    (EPD_DrawCircle_next s).XCurrent = s.XCurrent + 1 ∧
    ((EPD_DrawCircle_next s).YCurrent = s.YCurrent ∨
      (EPD_DrawCircle_next s).YCurrent = s.YCurrent - 1) := by
  unfold EPD_DrawCircle_next
  have e1 : u16 ((s.XCurrent : Int) + 1) = s.XCurrent + 1 := by unfold u16; omega
  have e2 : u16 ((s.YCurrent : Int) - 1) = s.YCurrent - 1 := by unfold u16; omega
  split
  · exact ⟨e1, Or.inl rfl⟩
  · exact ⟨e1, Or.inr e2⟩

theorem EPD_DrawCircle_loop_spec (cx cy R mode : Nat) (hR : R ≤ cx) (hR2 : R ≤ cy)
    (hx : cx + R < 65536) (hy : cy + R < 65536) :
    ∀ (fuel : Nat) (s : CircleState), s.YCurrent ≤ R →
      (s.XCurrent ≤ s.YCurrent → 1 ≤ s.YCurrent) →
      s.YCurrent + 1 - s.XCurrent < fuel →
      ∃ L, EPD_DrawCircle_loop cx cy mode fuel s = some L ∧ SymBox cx cy R L := by
  intro fuel
  induction fuel with
  | zero => intro s _ _ hf; omega
  | succ f ih =>
    intro s hY h1 hf
    by_cases hXY : s.XCurrent ≤ s.YCurrent
    · obtain ⟨hnx, hny⟩ := EPD_DrawCircle_next_spec s hXY (h1 hXY) (by omega)
      obtain ⟨L, hL, hS⟩ := ih (EPD_DrawCircle_next s) (by omega) (by omega) (by omega)
      refine ⟨EPD_DrawCircle_round cx cy mode s ++ L, ?_, ?_⟩
      · simp only [EPD_DrawCircle_loop]
        rw [if_pos hXY, hL]
        rfl
      · exact SymBox_append cx cy R _ _
          (SymBox_round cx cy R mode s hR hR2 hx hy hXY hY) hS
    · refine ⟨[], ?_, SymBox_nil cx cy R⟩
      simp only [EPD_DrawCircle_loop]
      rw [if_neg hXY]

theorem EPD_DrawCircle_calls_spec (fuel cx cy R mode : Nat) (hR1 : 1 ≤ R) (hR : R ≤ cx)
    (hR2 : R ≤ cy) (hx : cx + R < 65536) (hy : cy + R < 65536) (hf : R + 1 < fuel) :
    ∃ L, EPD_DrawCircle_calls fuel cx cy R mode = some L ∧ SymBox cx cy R L := by
  unfold EPD_DrawCircle_calls
  exact EPD_DrawCircle_loop_spec cx cy R mode hR hR2 hx hy fuel _ (Nat.le_refl R)
    (fun _ => hR1) (by simp only; omega)

theorem plotted_of_SymBox (cx cy R : Nat) (L : List (Nat × Nat)) (hR : R ≤ cx)
    (hR2 : R ≤ cy) (hS : SymBox cx cy R L) (dx dy : Int)
    (h : plotted L ((cx : Int) + dx) ((cy : Int) + dy)) :
    plotted L ((cx : Int) - dx) ((cy : Int) + dy) ∧
    plotted L ((cx : Int) + dx) ((cy : Int) - dy) := by
  obtain ⟨pt, hpt, h1, h2⟩ := h
  obtain ⟨hb, hmx, hmy⟩ := hS pt hpt
  constructor
  · exact ⟨_, hmx, by simp only; omega, by simp only; omega⟩
  · exact ⟨_, hmy, by simp only; omega, by simp only; omega⟩

/-- C8: for a radius `R >= 1` and a centre such that the disc fits in the
framebuffer (rotation 0), `EPD_DrawCircle` terminates in filled and in hollow
mode, every pixel call is inside the framebuffer, and the set of plotted
pixels is symmetric in the vertical and in the horizontal axis through the
centre: `(cx + dx, cy + dy)` is plotted iff `(cx - dx, cy + dy)` is plotted iff
`(cx + dx, cy - dy)` is plotted. -/
theorem EPD_DrawCircle_symmetric (fuel : Nat) (p : Paint_t) (cx cy R mode : Nat)
    (h16 : p.is16) (hrot : p.Rotate = 0) (hR1 : 1 ≤ R) (hR : R ≤ cx) (hR2 : R ≤ cy)
    (hx : cx + R < p.WidthMemory) (hy : cy + R < p.HeightMemory) (hf : R + 1 < fuel) :
    ∃ L, EPD_DrawCircle_calls fuel cx cy R mode = some L ∧
      (∀ pt ∈ L, Paint_SetPixel_XY p pt.1 pt.2 = some pt ∧
        pt.1 < p.WidthMemory ∧ pt.2 < p.HeightMemory) ∧
      (∀ dx dy : Int,
        (plotted L ((cx : Int) + dx) ((cy : Int) + dy) ↔
          plotted L ((cx : Int) - dx) ((cy : Int) + dy)) ∧
        (plotted L ((cx : Int) + dx) ((cy : Int) + dy) ↔
          plotted L ((cx : Int) + dx) ((cy : Int) - dy))) := by
  obtain ⟨_, _, hW, hH, _, _, _, _⟩ := h16
  obtain ⟨L, hL, hS⟩ :=
    EPD_DrawCircle_calls_spec fuel cx cy R mode hR1 hR hR2 (by omega) (by omega) hf
  refine ⟨L, hL, ?_, ?_⟩
  · intro pt hpt
    obtain ⟨hb, -, -⟩ := hS pt hpt
    refine ⟨?_, by omega, by omega⟩
    unfold Paint_SetPixel_XY
    rw [if_pos hrot]
  · intro dx dy
    constructor
    · constructor
      · intro h
        exact (plotted_of_SymBox cx cy R L hR hR2 hS dx dy h).1
      · intro h
        have h2 : plotted L ((cx : Int) + -dx) ((cy : Int) + dy) := by
          rw [show (cx : Int) + -dx = (cx : Int) - dx by omega]; exact h
        have h3 := (plotted_of_SymBox cx cy R L hR hR2 hS (-dx) dy h2).1
        rw [show (cx : Int) - -dx = (cx : Int) + dx by omega] at h3
        exact h3
    · constructor
      · intro h
        exact (plotted_of_SymBox cx cy R L hR hR2 hS dx dy h).2
      · intro h
        have h2 : plotted L ((cx : Int) + dx) ((cy : Int) + -dy) := by
          rw [show (cy : Int) + -dy = (cy : Int) - dy by omega]; exact h
        have h3 := (plotted_of_SymBox cx cy R L hR hR2 hS dx (-dy) h2).2
        rw [show (cy : Int) - -dy = (cy : Int) + dy by omega] at h3
        exact h3

/-- Instance of C8: the filled circle of centre (50, 50) and radius 10 on a
400 x 300 framebuffer. -/
theorem EPD_DrawCircle_symmetric_witness :
    ((demoPaint 0).is16 ∧ (demoPaint 0).Rotate = 0 ∧ 1 ≤ 10 ∧ 10 ≤ 50 ∧
      50 + 10 < (demoPaint 0).WidthMemory ∧ 50 + 10 < (demoPaint 0).HeightMemory ∧
      10 + 1 < 12) ∧
    ∃ L, EPD_DrawCircle_calls 12 50 50 10 1 = some L ∧
      (plotted L (50 + 3) (50 + 4) ↔ plotted L (50 - 3) (50 + 4)) ∧
      (plotted L (50 + 3) (50 + 4) ↔ plotted L (50 + 3) (50 - 4)) :=
  ⟨by decide,
   (EPD_DrawCircle_symmetric 12 (demoPaint 0) 50 50 10 1 (by decide) rfl (by decide)
      (by decide) (by decide) (by decide) (by decide) (by decide)).elim
     (fun L h => ⟨L, h.1, h.2.2 3 4⟩)⟩

/-! ## `EPD_Pow` and `EPD_ShowNum` -/

theorem EPD_Pow_loop_eq (m : Nat) :
    ∀ (n r : Nat), r < 2 ^ 32 → EPD_Pow_loop m n r = (r * m ^ n) % 2 ^ 32 := by
  intro n
  induction n with
  | zero =>
    intro r hr
    simp only [EPD_Pow_loop, pow_zero, Nat.mul_one]
    exact (Nat.mod_eq_of_lt hr).symm
  | succ n ih =>
    intro r _
    simp only [EPD_Pow_loop]
    rw [ih _ (Nat.mod_lt _ (by norm_num)), Nat.mod_mul_mod, pow_succ]
    congr 1
    ring

/-- The function `EPD_Pow` returns the power reduced modulo `2 ^ 32`. -/
theorem EPD_Pow_eq (m n : Nat) : EPD_Pow m n = m ^ n % 2 ^ 32 := by
  unfold EPD_Pow
  rw [EPD_Pow_loop_eq m n 1 (by norm_num), Nat.one_mul]

theorem EPD_Pow_ten (n : Nat) (hn : n ≤ 9) : EPD_Pow 10 n = 10 ^ n := by
  rw [EPD_Pow_eq]
  apply Nat.mod_eq_of_lt
  calc 10 ^ n ≤ 10 ^ 9 := Nat.pow_le_pow_right (by norm_num) hn
    _ < 2 ^ 32 := by norm_num

theorem EPD_ShowNum_loop_spec (x y num len size1 color m : Nat) (hlen : len ≤ 10) :
    ∀ (k fuel t : Nat), t + k = len → k < fuel →
      EPD_ShowNum_loop x y num len size1 color m fuel t =
        some ((List.range k).map (fun j =>
          ({ x := u16 ((x : Int) + (((size1 / 2 + m) * (t + j) : Nat) : Int)), y := y,
             chr := 48 + (num / 10 ^ (len - (t + j) - 1)) % 10,
             size1 := size1, color := color } : CharCall))) := by
  intro k
  induction k with
  | zero =>
    intro fuel t ht hf
    obtain ⟨f, rfl⟩ : ∃ f, fuel = f + 1 := ⟨fuel - 1, by omega⟩
    simp only [EPD_ShowNum_loop]
    rw [if_neg (by omega)]
    rfl
  | succ k ih =>
    intro fuel t ht hf
    obtain ⟨f, rfl⟩ : ∃ f, fuel = f + 1 := ⟨fuel - 1, by omega⟩
    have he : u16 ((len : Int) - t - 1) = len - t - 1 := by unfold u16; omega
    have hpw : EPD_Pow 10 (len - t - 1) = 10 ^ (len - t - 1) := EPD_Pow_ten _ (by omega)
    have hpos : 10 ^ (len - t - 1) ≠ 0 := by positivity
    have hd : (num / 10 ^ (len - t - 1)) % 10 < 10 := Nat.mod_lt _ (by norm_num)
    have htemp : u8 (((num / 10 ^ (len - t - 1)) % 10 : Nat) : Int)
        = (num / 10 ^ (len - t - 1)) % 10 := by unfold u8; omega
    have ht1 : u8 ((t : Int) + 1) = t + 1 := by unfold u8; omega
    rw [range_succ_map_shift]
    simp only [EPD_ShowNum_loop]
    rw [if_pos (by omega), he, hpw]
    simp only [if_neg hpos, htemp, ht1]
    rw [ih f (t + 1) (by omega) (by omega)]
    simp only [Option.map_some', Nat.add_zero, Option.some.injEq, List.cons.injEq,
      CharCall.mk.injEq, true_and, and_true]
    refine ⟨?_, ?_⟩
    · have h48 : ∀ d : Nat, d < 10 → u16 (((if d = 0 then 48 else d + 48 : Nat)) : Int)
          = 48 + d := by
        intro d hd'
        unfold u16
        split <;> omega
      exact h48 _ hd
    · apply List.map_congr_left
      intro j _
      have hj : t + 1 + j = t + (j + 1) := by omega
      rw [hj]

/-- C9 (counterexample): for `num = 4294967295` and `len = 11` the loop terminates
but its first glyph is `'3'` (code 51), because `EPD_Pow(10, 10)` is
`10 ^ 10 mod 2 ^ 32 = 1410065408`; the digit of the zero-padded decimal
representation at that place is `0` (code 48). -/
theorem EPD_ShowNum_wide_field :
    ∃ L, EPD_ShowNum_calls 12 0 0 4294967295 11 16 0 = some L ∧
      (L.head?).map (fun c => c.chr) = some 51 ∧
      48 + (4294967295 / 10 ^ (11 - 0 - 1)) % 10 = 48 := by
  refine ⟨_, rfl, ?_, ?_⟩
  · decide
  · decide

/-- C9 (amended): for every `num` and every field width `len <= 10`, `EPD_ShowNum`
terminates and makes exactly `len` calls of `EPD_ShowChar`; the `t`-th call
(0-based, left to right) draws the character `'0' + (num / 10 ^ (len - t - 1)) % 10`
at `x + (size1 / 2 + m) * t` (`m = 2` for size 8, else 0): the decimal
representation of `num` zero-padded to `len` digits. -/
theorem EPD_ShowNum_digits (fuel x y num len size1 color : Nat) (hlen : len ≤ 10)
    (hf : len < fuel) :
    EPD_ShowNum_calls fuel x y num len size1 color =
      some ((List.range len).map (fun t =>
        ({ x := u16 ((x : Int) +
              (((size1 / 2 + (if size1 = 8 then 2 else 0)) * t : Nat) : Int)),
           y := y,
           chr := 48 + (num / 10 ^ (len - t - 1)) % 10,
           size1 := size1, color := color } : CharCall))) := by
  unfold EPD_ShowNum_calls
  rw [EPD_ShowNum_loop_spec x y num len size1 color _ hlen len fuel 0 (by omega) hf]
  simp only [Nat.zero_add]

/-- Instance of C9 (amended): `num = 7`, `len = 3` draws the glyphs `"007"`. -/
theorem EPD_ShowNum_digits_witness :
    (3 ≤ 10 ∧ 3 < 4) ∧
    (EPD_ShowNum_calls 4 100 250 7 3 16 BLACK).map (fun L => L.map (fun c => c.chr)) =
      some [48, 48, 55] :=
  ⟨by decide, by
    rw [EPD_ShowNum_digits 4 100 250 7 3 16 BLACK (by decide) (by decide)]
    decide⟩

/-! ## The `float` arithmetic -/

/-- The halving loop counts the binary digits: `2 ^ (L - 1) <= n < 2 ^ L`. -/
theorem bitLength_loop_spec : ∀ (fuel n : Nat), n ≤ fuel → 0 < n →
    n < 2 ^ bitLength_loop fuel n ∧ 2 ^ bitLength_loop fuel n ≤ 2 * n := by
  intro fuel
  induction fuel with
  | zero => intro n h1 h2; omega
  | succ f ih =>
    intro n h1 h2
    simp only [bitLength_loop]
    rw [if_neg (by omega)]
    by_cases h : n / 2 = 0
    · have e : bitLength_loop f (n / 2) = 0 := by
        rw [h]
        cases f with
        | zero => rfl
        | succ g => simp [bitLength_loop]
      rw [e]
      norm_num
      omega
    · obtain ⟨i1, i2⟩ := ih (n / 2) (by omega) (by omega)
      rw [Nat.pow_succ]
      omega

theorem bitLength_spec (n : Nat) (h : 0 < n) :
    n < 2 ^ bitLength n ∧ 2 ^ bitLength n ≤ 2 * n :=
  bitLength_loop_spec n n (le_refl n) h

/-- The exponent `e` of `binaryExponent` satisfies `2 ^ e <= N / D < 2 ^ (e + 1)`. -/
theorem binaryExponent_spec (N D : Nat) (hN : 0 < N) (hD : 0 < D) :
    D * 2 ^ (binaryExponent N D).toNat ≤ N * 2 ^ (-binaryExponent N D).toNat ∧
    N * 2 ^ (-binaryExponent N D).toNat < 2 * (D * 2 ^ (binaryExponent N D).toNat) := by
  obtain ⟨n1, n2⟩ := bitLength_spec N hN
  obtain ⟨d1, d2⟩ := bitLength_spec D hD
  unfold binaryExponent
  simp only []
  generalize bitLength N = a at *
  generalize bitLength D = b at *
  by_cases hab : b ≤ a
  · obtain ⟨c, rfl⟩ : ∃ c, a = b + c := ⟨a - b, by omega⟩
    have es : ((b + c : Nat) : Int) - (b : Int) = (c : Int) := by omega
    rw [es]
    have t1 : (c : Int).toNat = c := by omega
    have t2 : (-(c : Int)).toNat = 0 := by omega
    rw [Nat.pow_add] at n1 n2
    split
    · rename_i h
      rw [t1, t2] at h ⊢
      refine ⟨h, ?_⟩
      rw [pow_zero, Nat.mul_one]
      calc N < 2 ^ b * 2 ^ c := n1
        _ ≤ 2 * D * 2 ^ c := Nat.mul_le_mul_right _ d2
        _ = 2 * (D * 2 ^ c) := by ring
    · rename_i h
      rw [t1, t2, pow_zero, Nat.mul_one] at h
      by_cases hc0 : c = 0
      · subst hc0
        have t6 : (((0 : Nat) : Int) - 1).toNat = 0 := by omega
        have t7 : (-(((0 : Nat) : Int) - 1)).toNat = 1 := by omega
        rw [t6, t7]
        simp only [pow_zero, pow_one, Nat.mul_one] at h n2 ⊢
        omega
      · obtain ⟨c', rfl⟩ : ∃ c', c = c' + 1 := ⟨c - 1, by omega⟩
        have t3 : ((c' + 1 : Nat) : Int) - 1 = (c' : Int) := by omega
        rw [t3]
        have t4 : (c' : Int).toNat = c' := by omega
        have t5 : (-(c' : Int)).toNat = 0 := by omega
        rw [t4, t5, pow_zero, Nat.mul_one]
        rw [Nat.pow_succ] at h n1 n2
        have e3 : 2 ^ b * (2 ^ c' * 2) = 2 * (2 ^ b * 2 ^ c') := by ring
        have e4 : D * (2 ^ c' * 2) = 2 * (D * 2 ^ c') := by ring
        have hlt : D * 2 ^ c' < 2 ^ b * 2 ^ c' :=
          Nat.mul_lt_mul_of_pos_right d1 (by positivity)
        rw [e3] at n2
        rw [e4] at h
        omega
  · obtain ⟨c, rfl⟩ : ∃ c, b = a + c + 1 := ⟨b - a - 1, by omega⟩
    have es : ((a : Nat) : Int) - ((a + c + 1 : Nat) : Int) = -((c : Int) + 1) := by omega
    rw [es]
    have t1 : (-((c : Int) + 1)).toNat = 0 := by omega
    have t2 : (- -((c : Int) + 1)).toNat = c + 1 := by omega
    have t3 : (-((c : Int) + 1) - 1).toNat = 0 := by omega
    have t4 : (-(-((c : Int) + 1) - 1)).toNat = c + 2 := by omega
    rw [show a + c + 1 = a + (c + 1) by omega, Nat.pow_add] at d1 d2
    have hp : 0 < 2 ^ (c + 1) := by positivity
    split
    · rename_i h
      rw [t1, t2] at h ⊢
      refine ⟨h, ?_⟩
      rw [pow_zero, Nat.mul_one] at h ⊢
      calc N * 2 ^ (c + 1) < 2 ^ a * 2 ^ (c + 1) := Nat.mul_lt_mul_of_pos_right n1 hp
        _ ≤ 2 * D := d2
    · rename_i h
      rw [t1, t2, pow_zero, Nat.mul_one] at h
      rw [t3, t4, pow_zero, Nat.mul_one]
      rw [show c + 2 = (c + 1) + 1 by omega, Nat.pow_succ]
      constructor
      · have : 2 ^ a * 2 ^ (c + 1) ≤ 2 * N * 2 ^ (c + 1) := Nat.mul_le_mul_right _ n2
        nlinarith
      · nlinarith

/-- The result of `roundHalfEven` is within one half of `num / den`, and even at a
tie. -/
theorem roundHalfEven_spec (num den : Nat) (hden : 0 < den) :
    2 * (roundHalfEven num den * den - num) ≤ den ∧
    2 * (num - roundHalfEven num den * den) ≤ den ∧
    ((2 * (roundHalfEven num den * den - num) = den ∨
      2 * (num - roundHalfEven num den * den) = den) → roundHalfEven num den % 2 = 0) := by
  have hdm := Nat.div_add_mod num den
  have hr := Nat.mod_lt num hden
  unfold roundHalfEven
  simp only []
  generalize num / den = q0 at *
  generalize num % den = r at *
  have e1 : den * q0 = q0 * den := Nat.mul_comm _ _
  split
  · rename_i h
    have e2 : (q0 + 1) * den = q0 * den + den := by ring
    rw [e2]
    refine ⟨by omega, by omega, ?_⟩
    intro ht
    rcases h with h | ⟨h1, h2⟩
    · omega
    · omega
  · rename_i h
    refine ⟨by omega, ?_, ?_⟩
    · by_contra hc
      apply h
      left
      omega
    · intro ht
      by_contra hodd
      apply h
      right
      omega


theorem roundHalfEven_bounds (num den : Nat) :
    num / den ≤ roundHalfEven num den ∧ roundHalfEven num den ≤ num / den + 1 := by
  unfold roundHalfEven
  simp only []
  split <;> omega

theorem two_zpow_split (z : Int) :
    ((2 : ℚ) ^ z.toNat) / (2 : ℚ) ^ (-z).toNat = (2 : ℚ) ^ z := by
  rcases le_total 0 z with h | h
  · obtain ⟨n, rfl⟩ := Int.eq_ofNat_of_zero_le h
    have t2 : (-(n : Int)).toNat = 0 := by omega
    rw [Int.toNat_ofNat, t2, pow_zero, div_one, zpow_natCast]
  · obtain ⟨n, hn⟩ := Int.eq_ofNat_of_zero_le (show 0 ≤ -z by omega)
    have hz : z = -(n : Int) := by omega
    subst hz
    have t1 : (-(n : Int)).toNat = 0 := by omega
    have t2 : (- -(n : Int)).toNat = n := by omega
    rw [t1, t2, pow_zero, zpow_neg, zpow_natCast, one_div]

/-- Comparison of `N / D` with `c * 2 ^ z` in terms of natural numbers. -/
theorem ratio_lt_zpow (N D c : Nat) (z : Int) (hD : 0 < D) :
    N * 2 ^ (-z).toNat < c * (D * 2 ^ z.toNat) ↔ (N : ℚ) / D < c * (2 : ℚ) ^ z := by
  have hDq : (0 : ℚ) < D := by exact_mod_cast hD
  have hM : (0 : ℚ) < (2 : ℚ) ^ (-z).toNat := by positivity
  rw [← two_zpow_split z, div_lt_iff₀ hDq, ← Nat.cast_lt (α := ℚ)]
  push_cast
  rw [show (c : ℚ) * (2 ^ z.toNat / 2 ^ (-z).toNat) * D =
    (c * (D * 2 ^ z.toNat)) / 2 ^ (-z).toNat by ring, lt_div_iff₀ hM]

theorem ratio_ge_zpow (N D c : Nat) (z : Int) (hD : 0 < D) :
    c * (D * 2 ^ z.toNat) ≤ N * 2 ^ (-z).toNat ↔ c * (2 : ℚ) ^ z ≤ (N : ℚ) / D := by
  have h := ratio_lt_zpow N D c z hD
  constructor
  · intro h1
    by_contra h2
    exact absurd (h.mpr (lt_of_not_le h2)) (by omega)
  · intro h1
    by_contra h2
    exact absurd (h.mp (by omega)) (not_lt.mpr h1)

/-- The result of `binary32` for a positive `N / D`: a value `q * 2 ^ k` with
`k = i - j >= -149` and at most 24 significant bits (`q <= 2 ^ 24`, and
`2 ^ 23 <= q` above the subnormal range), finite, within half a unit `2 ^ k` of
`N / D`, and with `q` even when `N / D` is half-way between two such values. -/
theorem binary32_spec (N D a b : Nat) (hN : 0 < N) (hD : 0 < D)
    (h : binary32 N D = some (a, b)) :
    ∃ q i j, a = q * 2 ^ i ∧ b = 2 ^ j ∧ (i = 0 ∨ j = 0) ∧ j ≤ 149 ∧
      q ≤ 2 ^ 24 ∧ (j < 149 → 2 ^ 23 ≤ q) ∧ a < 2 ^ 128 * b ∧
      2 * (a * D - N * b) ≤ D * 2 ^ i ∧ 2 * (N * b - a * D) ≤ D * 2 ^ i ∧
      ((2 * (a * D - N * b) = D * 2 ^ i ∨ 2 * (N * b - a * D) = D * 2 ^ i) → q % 2 = 0) := by
  obtain ⟨he1, he2⟩ := binaryExponent_spec N D hN hD
  unfold binary32 at h
  rw [if_neg (by omega), if_neg (by omega)] at h
  simp only [] at h
  generalize binaryExponent N D = e at *
  generalize hk : max (e - 23) (-149) = k at *
  have hk1 : e - 23 ≤ k := by omega
  have hk2 : -149 ≤ k := by omega
  have hk3 : k = e - 23 ∨ k = -149 := by omega
  have hden : 0 < D * 2 ^ k.toNat := by positivity
  obtain ⟨r1, r2, r3⟩ := roundHalfEven_spec (N * 2 ^ (-k).toNat) (D * 2 ^ k.toNat) hden
  obtain ⟨b1, b2⟩ := roundHalfEven_bounds (N * 2 ^ (-k).toNat) (D * 2 ^ k.toNat)
  generalize roundHalfEven (N * 2 ^ (-k).toNat) (D * 2 ^ k.toNat) = q at *
  split at h
  · rename_i hfin
    simp only [Option.some.injEq, Prod.mk.injEq] at h
    obtain ⟨rfl, rfl⟩ := h
    have hq2 : (N : ℚ) / D < 2 * (2 : ℚ) ^ e := by
      have := (ratio_lt_zpow N D 2 e hD).mp (by omega)
      exact_mod_cast this
    have hq1 : (2 : ℚ) ^ e ≤ (N : ℚ) / D := by
      have := (ratio_ge_zpow N D 1 e hD).mp (by omega)
      simpa using this
    have e1 : q * 2 ^ k.toNat * D = q * (D * 2 ^ k.toNat) := by ring
    refine ⟨q, k.toNat, (-k).toNat, rfl, rfl, by omega, by omega, ?_, ?_, hfin, ?_, ?_, ?_⟩
    · have hlt : N * 2 ^ (-k).toNat < 2 ^ 24 * (D * 2 ^ k.toNat) := by
        rw [ratio_lt_zpow N D (2 ^ 24) k hD]
        have h2 : (2 : ℚ) * 2 ^ e ≤ ((2 ^ 24 : Nat) : ℚ) * 2 ^ k := by
          have h3 : (2 : ℚ) ^ (e - 23) ≤ 2 ^ k := zpow_le_zpow_right₀ (by norm_num) hk1
          have h4 : (2 : ℚ) ^ (e - 23) = 2 ^ e / 2 ^ (23 : Int) := by
            rw [zpow_sub₀ (by norm_num)]
          rw [h4] at h3
          have h5 : (2 : ℚ) ^ (23 : Int) = 8388608 := by norm_num
          rw [h5, div_le_iff₀ (by norm_num)] at h3
          push_cast
          linarith
        exact lt_of_lt_of_le hq2 h2
      have : N * 2 ^ (-k).toNat / (D * 2 ^ k.toNat) < 2 ^ 24 :=
        (Nat.div_lt_iff_lt_mul hden).mpr hlt
      omega
    · intro hj
      have hke : k = e - 23 := by omega
      have hge : 2 ^ 23 * (D * 2 ^ k.toNat) ≤ N * 2 ^ (-k).toNat := by
        rw [ratio_ge_zpow N D (2 ^ 23) k hD, hke, zpow_sub₀ (by norm_num)]
        have h5 : (2 : ℚ) ^ (23 : Int) = 8388608 := by norm_num
        rw [h5]
        push_cast
        linarith
      have : 2 ^ 23 ≤ N * 2 ^ (-k).toNat / (D * 2 ^ k.toNat) :=
        (Nat.le_div_iff_mul_le hden).mpr hge
      omega
    · rw [e1]; exact r1
    · rw [e1]; exact r2
    · rw [e1]; exact r3
  · cases h

/-! ## `EPD_ShowFloatNum1` -/

theorem EPD_ShowFloatNum1_num1_lt (numN numD pre : Nat) :
    EPD_ShowFloatNum1_num1 numN numD pre < 65536 := by
  unfold EPD_ShowFloatNum1_num1
  split
  · exact Nat.mod_lt _ (by norm_num)
  · norm_num

/-- Division by `EPD_Pow(10, e)` for a 16-bit `num1` and `e <= 31`: the divisor is
not 0 and the digit is the decimal digit of weight `10 ^ e`. For `e <= 9` the
power is exact; for `10 <= e <= 31` the wrapped power is still above 65535, so
the digit is 0, as the true one. -/
theorem EPD_Pow_digit (num1 e : Nat) (h : num1 < 65536) (he : e ≤ 31) :
    EPD_Pow 10 e ≠ 0 ∧ num1 / EPD_Pow 10 e % 10 = num1 / 10 ^ e % 10 := by
  by_cases h9 : e ≤ 9
  · rw [EPD_Pow_ten e h9]
    exact ⟨by positivity, rfl⟩
  · have hbig : 65536 ≤ EPD_Pow 10 e := by
      rw [EPD_Pow_eq]
      interval_cases e <;> norm_num
    have h10 : 65536 ≤ 10 ^ e :=
      le_trans (by norm_num) (Nat.pow_le_pow_right (by norm_num) (show 5 ≤ e by omega))
    refine ⟨by omega, ?_⟩
    rw [Nat.div_eq_of_lt (by omega), Nat.div_eq_of_lt (by omega)]

/-- An exact power of ten: for `e <= 9` and any `num1`. -/
theorem EPD_Pow_digit_exact (num1 e : Nat) (he : e ≤ 9) :
    EPD_Pow 10 e ≠ 0 ∧ num1 / EPD_Pow 10 e % 10 = num1 / 10 ^ e % 10 := by
  rw [EPD_Pow_ten e he]
  exact ⟨by positivity, rfl⟩

/-- One round of the loop of `EPD_ShowFloatNum1` that is not the round of the
point. -/
theorem EPD_ShowFloatNum1_loop_digit (x y num1 pre sizey color sizex f t len : Nat)
    (ht : t < len) (hlen : len ≤ 255)
    (hP : EPD_Pow 10 (len - t - 1) ≠ 0 ∧
      num1 / EPD_Pow 10 (len - t - 1) % 10 = num1 / 10 ^ (len - t - 1) % 10)
    (hne : (t : Int) ≠ (len : Int) - pre) :
    EPD_ShowFloatNum1_loop x y num1 pre sizey color sizex (f + 1) t len =
      (EPD_ShowFloatNum1_loop x y num1 pre sizey color sizex f (t + 1) len).map
        (fun l => digitCall x y num1 sizex sizey color t (len - t - 1) :: l) := by
  have he1 : u16 ((len : Int) - t - 1) = len - t - 1 := by unfold u16; omega
  have hd : (num1 / 10 ^ (len - t - 1)) % 10 < 10 := Nat.mod_lt _ (by norm_num)
  have htemp : u8 (((num1 / 10 ^ (len - t - 1)) % 10 : Nat) : Int)
      = (num1 / 10 ^ (len - t - 1)) % 10 := by unfold u8; omega
  have ht1 : u8 ((t : Int) + 1) = t + 1 := by unfold u8; omega
  have hchr : u16 (((num1 / 10 ^ (len - t - 1) % 10 + 48 : Nat)) : Int)
      = num1 / 10 ^ (len - t - 1) % 10 + 48 := by unfold u16; omega
  simp only [EPD_ShowFloatNum1_loop]
  rw [if_pos ht, he1]
  simp only [if_neg hP.1, hP.2, if_neg hne, htemp, ht1, hchr]
  rfl

/-- The round of the point: the point and the digit behind it are drawn, `t`
advances by two and `len` by one. -/
theorem EPD_ShowFloatNum1_loop_dot (x y num1 pre sizey color sizex f t len : Nat)
    (ht : t < len) (hlen : len ≤ 254)
    (hP : EPD_Pow 10 (len - t - 1) ≠ 0 ∧
      num1 / EPD_Pow 10 (len - t - 1) % 10 = num1 / 10 ^ (len - t - 1) % 10)
    (heq : t + pre = len) :
    EPD_ShowFloatNum1_loop x y num1 pre sizey color sizex (f + 1) t len =
      (EPD_ShowFloatNum1_loop x y num1 pre sizey color sizex f (t + 2) (len + 1)).map
        (fun l => dotCall x y sizex sizey color t ::
          digitCall x y num1 sizex sizey color (t + 1) (len - t - 1) :: l) := by
  have he1 : u16 ((len : Int) - t - 1) = len - t - 1 := by unfold u16; omega
  have hd : (num1 / 10 ^ (len - t - 1)) % 10 < 10 := Nat.mod_lt _ (by norm_num)
  have htemp : u8 (((num1 / 10 ^ (len - t - 1)) % 10 : Nat) : Int)
      = (num1 / 10 ^ (len - t - 1)) % 10 := by unfold u8; omega
  have ht1 : u8 ((t : Int) + 1) = t + 1 := by unfold u8; omega
  have ht2 : u8 (((t + 1 : Nat) : Int) + 1) = t + 2 := by unfold u8; omega
  have hl1 : u8 ((len : Int) + 1) = len + 1 := by unfold u8; omega
  have hchr : u16 (((num1 / 10 ^ (len - t - 1) % 10 + 48 : Nat)) : Int)
      = num1 / 10 ^ (len - t - 1) % 10 + 48 := by unfold u16; omega
  have hdot : (t : Int) = (len : Int) - pre := by omega
  have hx : (x : Int) + ((len : Int) - pre) * sizex = (x : Int) + ((t * sizex : Nat) : Int) := by
    rw [← hdot]; push_cast; ring
  simp only [EPD_ShowFloatNum1_loop]
  rw [if_pos ht, he1]
  simp only [if_neg hP.1, hP.2, if_pos hdot, htemp, ht1, ht2, hl1, hchr, hx]
  rfl

/-- The rounds after the point (or all rounds when `pre = 0`). -/
theorem EPD_ShowFloatNum1_loop_tail (x y num1 pre sizey color sizex len : Nat)
    (hlen : len ≤ 255) :
    ∀ (k fuel t : Nat), t + k = len → k < fuel →
      (∀ e, e < k → EPD_Pow 10 e ≠ 0 ∧ num1 / EPD_Pow 10 e % 10 = num1 / 10 ^ e % 10) →
      ((len : Int) - pre < t ∨ pre = 0) →
      EPD_ShowFloatNum1_loop x y num1 pre sizey color sizex fuel t len =
        some ((List.range k).map
          (fun j => digitCall x y num1 sizex sizey color (t + j) (k - 1 - j))) := by
  intro k
  induction k with
  | zero =>
    intro fuel t ht hf _ _
    obtain ⟨f, rfl⟩ : ∃ f, fuel = f + 1 := ⟨fuel - 1, by omega⟩
    simp only [EPD_ShowFloatNum1_loop]
    rw [if_neg (by omega)]
    rfl
  | succ k ih =>
    intro fuel t ht hf hP hpre
    obtain ⟨f, rfl⟩ : ∃ f, fuel = f + 1 := ⟨fuel - 1, by omega⟩
    rw [EPD_ShowFloatNum1_loop_digit x y num1 pre sizey color sizex f t len (by omega)
      (by omega) (hP _ (by omega)) (by omega)]
    rw [ih f (t + 1) (by omega) (by omega) (fun e he => hP e (by omega)) (by omega)]
    rw [range_succ_map_shift]
    simp only [Option.map_some', Nat.add_zero, Nat.sub_zero, Option.some.injEq,
      List.cons.injEq]
    refine ⟨?_, ?_⟩
    · congr 1; omega
    · apply List.map_congr_left
      intro j _
      have h1 : t + 1 + j = t + (j + 1) := by omega
      have h2 : k - 1 - j = k + 1 - 1 - (j + 1) := by omega
      rw [h1, h2]

/-- The rounds up to and including the round of the point, followed by the
rest. -/
theorem EPD_ShowFloatNum1_loop_head (x y num1 pre sizey color sizex len : Nat)
    (hlen : len ≤ 254) (hpre0 : 1 ≤ pre) (hpre : pre ≤ len)
    (hP : ∀ e, e < len →
      EPD_Pow 10 e ≠ 0 ∧ num1 / EPD_Pow 10 e % 10 = num1 / 10 ^ e % 10) :
    ∀ (k fuel t : Nat), t + k + pre = len → len + 1 < fuel + t →
      EPD_ShowFloatNum1_loop x y num1 pre sizey color sizex fuel t len =
        some ((List.range k).map
            (fun j => digitCall x y num1 sizex sizey color (t + j) (len - 1 - (t + j))) ++
          dotCall x y sizex sizey color (len - pre) ::
            (List.range pre).map
              (fun i => digitCall x y num1 sizex sizey color (len - pre + 1 + i)
                (pre - 1 - i))) := by
  intro k
  induction k with
  | zero =>
    intro fuel t ht hf
    obtain ⟨f, rfl⟩ : ∃ f, fuel = f + 1 := ⟨fuel - 1, by omega⟩
    obtain ⟨q, rfl⟩ : ∃ q, pre = q + 1 := ⟨pre - 1, by omega⟩
    rw [EPD_ShowFloatNum1_loop_dot x y num1 (q + 1) sizey color sizex f t len (by omega) hlen
      (hP _ (by omega)) (by omega)]
    rw [EPD_ShowFloatNum1_loop_tail x y num1 (q + 1) sizey color sizex (len + 1) (by omega) q f
      (t + 2) (by omega) (by omega) (fun e he => hP e (by omega)) (Or.inl (by omega))]
    rw [range_succ_map_shift]
    have e1 : len - (q + 1) = t := by omega
    have e2 : len - t - 1 = q := by omega
    simp only [Option.map_some', List.range_zero, List.map_nil, List.nil_append, e1, e2,
      Nat.add_zero, Nat.sub_zero, Nat.add_sub_cancel, Option.some.injEq, List.cons.injEq,
      true_and]
    apply List.map_congr_left
    intro j _
    have h1 : t + 2 + j = t + 1 + (j + 1) := by omega
    have h2 : q - 1 - j = q - (j + 1) := by omega
    rw [h1, h2]
  | succ k ih =>
    intro fuel t ht hf
    obtain ⟨f, rfl⟩ : ∃ f, fuel = f + 1 := ⟨fuel - 1, by omega⟩
    rw [EPD_ShowFloatNum1_loop_digit x y num1 pre sizey color sizex f t len (by omega)
      (by omega) (hP _ (by omega)) (by omega)]
    rw [ih f (t + 1) (by omega) (by omega)]
    rw [range_succ_map_shift]
    simp only [Option.map_some', Nat.add_zero, List.cons_append, Option.some.injEq,
      List.cons.injEq]
    refine ⟨?_, ?_⟩
    · congr 1; omega
    · congr 1
      apply List.map_congr_left
      intro j _
      have h1 : t + 1 + j = t + (j + 1) := by omega
      rw [h1]

/-- The whole loop, when every division by `EPD_Pow(10, e)`, `e < len`, yields the
decimal digit of weight `10 ^ e`. -/
theorem EPD_ShowFloatNum1_loop_fixed (fuel x y num1 len pre sizex sizey color : Nat)
    (hlen : len ≤ 254) (hpre : pre ≤ len) (hf : len + 1 < fuel)
    (hP : ∀ e, e < len →
      EPD_Pow 10 e ≠ 0 ∧ num1 / EPD_Pow 10 e % 10 = num1 / 10 ^ e % 10) :
    EPD_ShowFloatNum1_loop x y num1 pre sizey color sizex fuel 0 len =
      some (fixedPointCalls x y num1 len pre sizex sizey color) := by
  unfold fixedPointCalls
  by_cases h0 : pre = 0
  · subst h0
    rw [EPD_ShowFloatNum1_loop_tail x y num1 0 sizey color sizex len (by omega) len fuel 0
      (by omega) (by omega) hP (Or.inr rfl)]
    simp only [Nat.sub_zero, Nat.zero_add, if_true, List.append_nil]
  · rw [EPD_ShowFloatNum1_loop_head x y num1 pre sizey color sizex len hlen (by omega) hpre hP
      (len - pre) fuel 0 (by omega) (by omega)]
    simp only [Nat.zero_add, if_neg h0]

theorem EPD_ShowFloatNum1_loop_spec (fuel x y num1 len pre sizex sizey color : Nat)
    (hlen : len ≤ 10) (hpre : pre ≤ len) (hf : len + 1 < fuel) :
    EPD_ShowFloatNum1_loop x y num1 pre sizey color sizex fuel 0 len =
      some (fixedPointCalls x y num1 len pre sizex sizey color) :=
  EPD_ShowFloatNum1_loop_fixed fuel x y num1 len pre sizex sizey color (by omega) hpre hf
    (fun e he => EPD_Pow_digit_exact num1 e (by omega))

theorem fixedPointCalls_length (x y num1 len pre sizex sizey color : Nat) (hpre : pre ≤ len) :
    (fixedPointCalls x y num1 len pre sizex sizey color).length =
      len + (if pre = 0 then 0 else 1) := by
  unfold fixedPointCalls
  by_cases h0 : pre = 0
  · simp [h0]
  · simp [h0]; omega

theorem fixedPointCalls_dot (x y num1 len pre sizex sizey color : Nat) (h0 : pre ≠ 0) :
    (fixedPointCalls x y num1 len pre sizex sizey color)[len - pre]? =
      some (dotCall x y sizex sizey color (len - pre)) := by
  unfold fixedPointCalls
  rw [if_neg h0, List.getElem?_append_right (by simp)]
  simp

theorem fixedPointCalls_no_dot (x y num1 len sizex sizey color : Nat) :
    ∀ c ∈ fixedPointCalls x y num1 len 0 sizex sizey color, c.chr ≠ 46 := by
  intro c hc
  unfold fixedPointCalls at hc
  simp only [if_true, List.append_nil, List.mem_map, List.mem_range] at hc
  obtain ⟨j, _, rfl⟩ := hc
  simp only [digitCall]
  omega

/-- Values of `num1`: `0.29f * 100` is 29, `23.4f * 10` is 234, `33.6f * 100` is 3359 (the
product is 3359.99...), `3.14159f * 1000` is 3141. -/
theorem EPD_ShowFloatNum1_num1_values :
    EPD_ShowFloatNum1_num1 29 100 2 = 29 ∧ EPD_ShowFloatNum1_num1 234 10 1 = 234 ∧
    EPD_ShowFloatNum1_num1 336 10 2 = 3359 ∧
    EPD_ShowFloatNum1_num1 314159 100000 3 = 3141 := by
  refine ⟨?_, ?_, ?_, ?_⟩ <;> decide

/-- With `len >= 33` the first round divides by `EPD_Pow(10, len - 1) = 0`: the call has
no defined result, whatever the fuel. -/
theorem EPD_ShowFloatNum1_loop_long (x y num1 pre sizey color sizex fuel len : Nat)
    (h33 : 33 ≤ len) (h255 : len ≤ 255) :
    EPD_ShowFloatNum1_loop x y num1 pre sizey color sizex fuel 0 len = none := by
  cases fuel with
  | zero => rfl
  | succ f =>
    have he1 : u16 ((len : Int) - (0 : Nat) - 1) = len - 1 := by unfold u16; omega
    have hpw : EPD_Pow 10 (len - 1) = 0 := by
      rw [EPD_Pow_eq]
      exact Nat.mod_eq_zero_of_dvd
        (dvd_trans (by norm_num : 2 ^ 32 ∣ 10 ^ 32) (pow_dvd_pow 10 (by omega)))
    simp only [EPD_ShowFloatNum1_loop]
    rw [if_pos (by omega), he1, if_pos hpw]

/-- C10 (counterexample): with `num = 3.14159`, `len = 5`, `pre = 3` the glyph sequence
is `"03.141"` (codes 48 51 46 49 52 49): six glyphs, not the five of `"3.141"`.
The digits are those of the rounded `float` product, which is not
`trunc(num * 10 ^ pre)` in either reading of `num`. With `num = 33.6`, `len = 4`,
`pre = 2` the glyphs are `"33.59"`: the `float` product is 3359.99..., while
`trunc(33.6 * 100) = 3360`. With `num = 0.29`, `len = 3`, `pre = 2` the glyphs are
`"0.29"`: the argument is the `float` 9730785 / 33554432, whose exact product with
100 is 28.99..., but the `float` product is 29. -/
theorem EPD_ShowFloatNum1_pi :
    (EPD_ShowFloatNum1_calls 7 80 270 314159 100000 5 3 16 BLACK).map
        (fun L => L.map (fun c => c.chr)) = some [48, 51, 46, 49, 52, 49] ∧
    ([48, 51, 46, 49, 52, 49] : List Nat) ≠ [51, 46, 49, 52, 49] ∧
    (EPD_ShowFloatNum1_calls 6 80 270 336 10 4 2 16 BLACK).map
        (fun L => L.map (fun c => c.chr)) = some [51, 51, 46, 53, 57] ∧
    EPD_ShowFloatNum1_product 336 10 2 = some (13762559, 4096) ∧
    13762559 / 4096 = 3359 ∧ 336 * 10 ^ 2 / 10 = 3360 ∧
    (EPD_ShowFloatNum1_calls 5 80 270 29 100 3 2 16 BLACK).map
        (fun L => L.map (fun c => c.chr)) = some [48, 46, 50, 57] ∧
    binary32 29 100 = some (9730785, 33554432) ∧
    9730785 * 10 ^ 2 / 33554432 = 28 := by
  refine ⟨?_, ?_, ?_, ?_, ?_, ?_, ?_, ?_, ?_⟩ <;> decide

/-- C10 (amended): let `P` be the `float` product of `num = numN / numD` (rounded to `float`) and
`EPD_Pow(10, pre)`, finite and below 65536, and `num1 = trunc(P)`. For
`pre <= len <= 32`, `EPD_ShowFloatNum1` terminates and draws the `len` low-order
decimal digits of `num1`, zero-padded and most significant first, one glyph
position of width `sizex = sizey / 2` (a `uint8_t`) each; when `pre >= 1` a `'.'`
glyph is inserted as glyph number `len - pre` (0-based), `len + 1` glyphs in all;
when `pre = 0` no `'.'` is drawn. -/
theorem EPD_ShowFloatNum1_glyphs (fuel x y numN numD len pre sizey color : Nat)
    (P : Nat × Nat) (hP : EPD_ShowFloatNum1_product numN numD pre = some P)
    (hnum : P.1 / P.2 < 65536) (hlen : len ≤ 32) (hpre : pre ≤ len) (hf : len + 1 < fuel) :
    ∃ L, EPD_ShowFloatNum1_calls fuel x y numN numD len pre sizey color = some L ∧
      L = fixedPointCalls x y (P.1 / P.2) len pre (sizey / 2 % 256) sizey color ∧
      L.length = len + (if pre = 0 then 0 else 1) ∧
      (pre ≠ 0 →
        L[len - pre]? = some (dotCall x y (sizey / 2 % 256) sizey color (len - pre))) ∧
      (pre = 0 → ∀ c ∈ L, c.chr ≠ 46) := by
  have hnum1 : EPD_ShowFloatNum1_num1 numN numD pre = P.1 / P.2 := by
    unfold EPD_ShowFloatNum1_num1
    rw [hP]
    exact Nat.mod_eq_of_lt hnum
  have hsx : u8 ((sizey / 2 : Nat) : Int) = sizey / 2 % 256 := by unfold u8; omega
  refine ⟨_, ?_, rfl, ?_, ?_, ?_⟩
  · unfold EPD_ShowFloatNum1_calls
    rw [hnum1, hsx]
    exact EPD_ShowFloatNum1_loop_fixed fuel x y _ len pre _ sizey color (by omega) hpre hf
      (fun e he => EPD_Pow_digit _ e hnum (by omega))
  · exact fixedPointCalls_length _ _ _ _ _ _ _ _ hpre
  · intro h0
    exact fixedPointCalls_dot _ _ _ _ _ _ _ _ h0
  · intro h0
    subst h0
    exact fixedPointCalls_no_dot _ _ _ _ _ _ _

/-- Instance of C10 (amended): `num = 3.14159`, `len = 5`, `pre = 3`: the `float` product is
12867953 / 4096 = 3141.58..., `num1 = 3141`, and six glyphs are drawn, the third
of them (index 2) being the point. -/
theorem EPD_ShowFloatNum1_glyphs_witness :
    (EPD_ShowFloatNum1_product 314159 100000 3 = some (12867953, 4096) ∧
      12867953 / 4096 < 65536 ∧ 5 ≤ 32 ∧ 3 ≤ 5 ∧ 5 + 1 < 7) ∧
    ∃ L, EPD_ShowFloatNum1_calls 7 80 270 314159 100000 5 3 16 BLACK = some L ∧
      L = fixedPointCalls 80 270 3141 5 3 8 16 BLACK ∧
      L.length = 6 ∧ L[2]? = some (dotCall 80 270 8 16 BLACK 2) :=
  ⟨by decide,
   (EPD_ShowFloatNum1_glyphs 7 80 270 314159 100000 5 3 16 BLACK (12867953, 4096)
      (by decide) (by decide) (by decide) (by decide) (by decide)).elim
     (fun L h => ⟨L, h.1, h.2.1, h.2.2.1, h.2.2.2.1 (by decide)⟩)⟩

/-! ## Pixels read back after `Paint_SetPixel` -/

/-- The only member that `Paint_SetPixel` changes is `Image`. -/
theorem Paint_SetPixel_geom (p : Paint_t) (x y c : Nat) :
    Paint_SetPixel p x y c = { p with Image := (Paint_SetPixel p x y c).Image } := by
  unfold Paint_SetPixel
  split
  · rfl
  · split
    · rfl
    · simp only []
      split <;> rfl

theorem Paint_SetPixel_XY_geom (p : Paint_t) (img : Nat → Nat) (x y : Nat) :
    Paint_SetPixel_XY { p with Image := img } x y = Paint_SetPixel_XY p x y := by
  unfold Paint_SetPixel_XY
  rfl

theorem Paint_wf_geom (p : Paint_t) (img : Nat → Nat) (h : p.wf) :
    Paint_t.wf { p with Image := img } := by
  unfold Paint_t.wf Paint_t.is16 at *
  exact h

theorem Paint_SetPixel_wf (p : Paint_t) (x y c : Nat) (h : p.wf) :
    (Paint_SetPixel p x y c).wf := by
  rw [Paint_SetPixel_geom]
  exact Paint_wf_geom p _ h

/-- The transform of `Paint_SetPixel` sends distinct 16-bit logical points to
distinct physical points. -/
theorem Paint_SetPixel_XY_inj (p : Paint_t) (x y x1 y1 : Nat) (P : Nat × Nat) (h16 : p.is16)
    (hx : x < 65536) (hy : y < 65536) (hx1 : x1 < 65536) (hy1 : y1 < 65536)
    (h : Paint_SetPixel_XY p x y = some P) (h1 : Paint_SetPixel_XY p x1 y1 = some P) :
    x1 = x ∧ y1 = y := by
  obtain ⟨_, _, hW, hH, _, _, _, _⟩ := h16
  unfold Paint_SetPixel_XY at h h1
  by_cases r0 : p.Rotate = 0
  · rw [if_pos r0] at h h1
    rw [← h] at h1
    simp only [Option.some.injEq, Prod.mk.injEq] at h1
    exact h1
  · rw [if_neg r0] at h h1
    by_cases r90 : p.Rotate = 90
    · rw [if_pos r90] at h h1
      rw [← h] at h1
      simp only [Option.some.injEq, Prod.mk.injEq, u16] at h1
      omega
    · rw [if_neg r90] at h h1
      by_cases r180 : p.Rotate = 180
      · rw [if_pos r180] at h h1
        rw [← h] at h1
        simp only [Option.some.injEq, Prod.mk.injEq, u16] at h1
        omega
      · rw [if_neg r180] at h h1
        by_cases r270 : p.Rotate = 270
        · rw [if_pos r270] at h h1
          rw [← h] at h1
          simp only [Option.some.injEq, Prod.mk.injEq, u16] at h1
          omega
        · rw [if_neg r270] at h
          simp at h

/-- Distinct in-range physical points have distinct bit addresses. -/
theorem bit_address_inj (WB X Y X1 Y1 : Nat) (hX : X / 8 < WB) (hX1 : X1 / 8 < WB)
    (hA : X / 8 + Y * WB = X1 / 8 + Y1 * WB) (hb : X % 8 = X1 % 8) : X = X1 ∧ Y = Y1 := by
  have hY : Y = Y1 := by
    have e1 : (X / 8 + Y * WB) / WB = Y := by
      rw [Nat.add_mul_div_right _ _ (by omega), Nat.div_eq_of_lt hX, Nat.zero_add]
    have e2 : (X1 / 8 + Y1 * WB) / WB = Y1 := by
      rw [Nat.add_mul_div_right _ _ (by omega), Nat.div_eq_of_lt hX1, Nat.zero_add]
    rw [← e1, ← e2, hA]
  subst hY
  have : X / 8 = X1 / 8 := by omega
  exact ⟨by omega, rfl⟩

/-- What one call of `Paint_SetPixel` does, in terms of the physical point. -/
theorem Paint_SetPixel_cases (p : Paint_t) (x y c : Nat) :
    (Paint_SetPixel_Addr p x y = none ∧ Paint_GetPixel p x y = none ∧
      Paint_SetPixel p x y c = p) ∨
    (∃ X Y v, Paint_SetPixel_XY p x y = some (X, Y) ∧ X < p.WidthMemory ∧ Y < p.HeightMemory ∧
      Paint_SetPixel_Addr p x y = some ((X / 8 + Y * p.WidthByte) % 2 ^ 32) ∧
      Paint_SetPixel p x y c =
        { p with Image := store p.Image ((X / 8 + Y * p.WidthByte) % 2 ^ 32) v } ∧
      v < 256 ∧
      ∀ b, v.testBit b =
        if b = 7 - X % 8 then decide (c ≠ BLACK)
        else (p.byte ((X / 8 + Y * p.WidthByte) % 2 ^ 32)).testBit b) := by
  cases hXY : Paint_SetPixel_XY p x y with
  | none =>
    left
    refine ⟨?_, ?_, Paint_SetPixel_of_XY_none p x y c hXY⟩
    · unfold Paint_SetPixel_Addr; rw [hXY]
    · unfold Paint_GetPixel; rw [hXY]
  | some P =>
    obtain ⟨X, Y⟩ := P
    by_cases hout : X ≥ p.WidthMemory ∨ Y ≥ p.HeightMemory
    · left
      refine ⟨?_, ?_, Paint_SetPixel_of_XY_out p x y c X Y hXY (by omega)⟩
      · unfold Paint_SetPixel_Addr; rw [hXY]; simp only [if_pos hout]
      · unfold Paint_GetPixel; rw [hXY]; simp only [if_pos hout]
    · right
      have hk : X % 8 < 8 := Nat.mod_lt _ (by norm_num)
      have hval := Paint_SetPixel_of_XY_in p x y c X Y hXY (by omega) (by omega)
      have hAddr : Paint_SetPixel_Addr p x y = some ((X / 8 + Y * p.WidthByte) % 2 ^ 32) := by
        unfold Paint_SetPixel_Addr; rw [hXY]; simp only [if_neg hout]
      by_cases hc : c = BLACK
      · rw [if_pos hc] at hval
        refine ⟨X, Y, _, rfl, by omega, by omega, hAddr, hval, Nat.mod_lt _ (by norm_num), ?_⟩
        intro b
        rw [testBit_clear _ _ _ hk]
        by_cases hb : b = 7 - X % 8
        · subst hb; simp [hc]
        · have hb2 : ¬ (7 - X % 8 = b) := fun h => hb h.symm
          simp [hb, hb2, Paint_t.byte]
      · rw [if_neg hc] at hval
        refine ⟨X, Y, _, rfl, by omega, by omega, hAddr, hval, Nat.mod_lt _ (by norm_num), ?_⟩
        intro b
        rw [testBit_set _ _ _ hk]
        by_cases hb : b = 7 - X % 8
        · subst hb; simp [hc]
        · have hb2 : ¬ (7 - X % 8 = b) := fun h => hb h.symm
          simp [hb, hb2, Paint_t.byte]

/-- A pixel read back after one call of `Paint_SetPixel`: the pixel of the call,
if it is stored at all, holds the colour of the call; every other pixel is as
before. -/
theorem Paint_GetPixel_SetPixel (p : Paint_t) (x y c x1 y1 : Nat) (hwf : p.wf)
    (hx : x < 65536) (hy : y < 65536) (hx1 : x1 < 65536) (hy1 : y1 < 65536) :
    Paint_GetPixel (Paint_SetPixel p x y c) x1 y1 =
      if x1 = x ∧ y1 = y then (Paint_GetPixel p x y).map (fun _ => decide (c ≠ BLACK))
      else Paint_GetPixel p x1 y1 := by
  obtain ⟨h16, hWB⟩ := hwf
  have h16' := h16
  obtain ⟨_, _, hW, hH, _, _, hWB16, _⟩ := h16'
  rcases Paint_SetPixel_cases p x y c with ⟨-, hget, hsame⟩ | ⟨X, Y, v, hXY, hX, hY, -, hval, hv, hbits⟩
  · rw [hsame]
    by_cases h : x1 = x ∧ y1 = y
    · rw [if_pos h, h.1, h.2, hget]; rfl
    · rw [if_neg h]
  · have hA := addr_no_wrap X Y p.WidthByte (by omega) (by omega) hWB16
    rw [hA] at hval hbits
    have hgetp : Paint_GetPixel p x y =
        some ((p.byte (X / 8 + Y * p.WidthByte)).testBit (7 - X % 8)) := by
      unfold Paint_GetPixel
      rw [hXY]
      simp only [if_neg (show ¬ (X ≥ p.WidthMemory ∨ Y ≥ p.HeightMemory) by omega), hA]
    rw [hval]
    cases hXY1 : Paint_SetPixel_XY p x1 y1 with
    | none =>
      have hne : ¬ (x1 = x ∧ y1 = y) := by
        rintro ⟨rfl, rfl⟩
        rw [hXY] at hXY1
        exact absurd hXY1 (by simp)
      rw [if_neg hne]
      unfold Paint_GetPixel
      rw [Paint_SetPixel_XY_geom, hXY1]
    | some P1 =>
      obtain ⟨X1, Y1⟩ := P1
      by_cases hout : X1 ≥ p.WidthMemory ∨ Y1 ≥ p.HeightMemory
      · have hne : ¬ (x1 = x ∧ y1 = y) := by
          rintro ⟨rfl, rfl⟩
          rw [hXY] at hXY1
          simp only [Option.some.injEq, Prod.mk.injEq] at hXY1
          omega
        rw [if_neg hne]
        unfold Paint_GetPixel
        rw [Paint_SetPixel_XY_geom, hXY1]
        simp only [if_pos hout]
      · have hA1 := addr_no_wrap X1 Y1 p.WidthByte (by omega) (by omega) hWB16
        have hg1 : Paint_GetPixel p x1 y1 =
            some ((p.byte (X1 / 8 + Y1 * p.WidthByte)).testBit (7 - X1 % 8)) := by
          unfold Paint_GetPixel
          rw [hXY1]
          simp only [if_neg hout, hA1]
        have hg2 : Paint_GetPixel
            { p with Image := store p.Image (X / 8 + Y * p.WidthByte) v } x1 y1 =
            some ((Paint_t.byte { p with Image := store p.Image (X / 8 + Y * p.WidthByte) v }
              (X1 / 8 + Y1 * p.WidthByte)).testBit (7 - X1 % 8)) := by
          unfold Paint_GetPixel
          rw [Paint_SetPixel_XY_geom, hXY1]
          simp only [if_neg hout, hA1]
        rw [hg2]
        by_cases h : x1 = x ∧ y1 = y
        · rw [if_pos h]
          obtain ⟨rfl, rfl⟩ := h
          rw [hXY] at hXY1
          simp only [Option.some.injEq, Prod.mk.injEq] at hXY1
          obtain ⟨rfl, rfl⟩ := hXY1
          rw [hgetp]
          simp only [Option.map_some', Option.some.injEq, Paint_t.byte, store, if_true]
          rw [Nat.mod_eq_of_lt hv, hbits, if_pos rfl]
        · rw [if_neg h, hg1]
          simp only [Option.some.injEq, Paint_t.byte, store]
          by_cases hAA : X1 / 8 + Y1 * p.WidthByte = X / 8 + Y * p.WidthByte
          · rw [if_pos hAA, Nat.mod_eq_of_lt hv, hbits, hAA]
            have hbne : ¬ (7 - X1 % 8 = 7 - X % 8) := by
              intro hb
              have hinj := bit_address_inj p.WidthByte X1 Y1 X Y (by omega) (by omega) hAA
                (by omega)
              have e : Paint_SetPixel_XY p x1 y1 = some (X, Y) := by
                rw [hXY1, hinj.1, hinj.2]
              exact h (Paint_SetPixel_XY_inj p x y x1 y1 (X, Y) h16 hx hy hx1 hy1 hXY e)
            rw [if_neg hbne]
            simp only [Paint_t.byte]
          · rw [if_neg hAA]

theorem Paint_SetPixels_cons (p : Paint_t) (pt : Nat × Nat) (pts : List (Nat × Nat)) (c : Nat) :
    Paint_SetPixels p (pt :: pts) c = Paint_SetPixels (Paint_SetPixel p pt.1 pt.2 c) pts c := by
  unfold Paint_SetPixels
  rfl

theorem Paint_SetPixels_wf (c : Nat) :
    ∀ (pts : List (Nat × Nat)) (p : Paint_t), p.wf → (Paint_SetPixels p pts c).wf := by
  intro pts
  induction pts with
  | nil => intro p h; exact h
  | cons pt pts ih =>
    intro p h
    rw [Paint_SetPixels_cons]
    exact ih _ (Paint_SetPixel_wf p pt.1 pt.2 c h)

/-- A pixel read back after a list of calls of one colour: a pixel of the list,
if it is stored at all, holds that colour; every other pixel is as before. -/
theorem Paint_GetPixel_SetPixels (c x y : Nat) (hx : x < 65536) (hy : y < 65536) :
    ∀ (pts : List (Nat × Nat)) (p : Paint_t), p.wf →
      (∀ pt ∈ pts, pt.1 < 65536 ∧ pt.2 < 65536) →
      Paint_GetPixel (Paint_SetPixels p pts c) x y =
        if (x, y) ∈ pts then (Paint_GetPixel p x y).map (fun _ => decide (c ≠ BLACK))
        else Paint_GetPixel p x y := by
  intro pts
  induction pts with
  | nil =>
    intro p _ _
    simp [Paint_SetPixels]
  | cons pt pts ih =>
    intro p hwf h16
    obtain ⟨a, b⟩ := pt
    have hab := h16 (a, b) (List.mem_cons_self _ _)
    rw [Paint_SetPixels_cons, ih _ (Paint_SetPixel_wf p a b c hwf)
      (fun q hq => h16 q (List.mem_cons_of_mem _ hq)),
      Paint_GetPixel_SetPixel p a b c x y hwf hab.1 hab.2 hx hy]
    by_cases h1 : x = a ∧ y = b
    · obtain ⟨rfl, rfl⟩ := h1
      simp only [List.mem_cons, true_or, and_self, if_true]
      split
      · cases Paint_GetPixel p x y <;> rfl
      · rfl
    · have h2 : ¬ ((x, y) = (a, b)) := by
        intro h; apply h1
        simp only [Prod.mk.injEq] at h
        exact h
      simp only [List.mem_cons, h2, false_or, if_neg h1]

/-! ## `EPD_ClearWindows` -/

theorem mem_EPD_ClearWindows_row (i x y : Nat) :
    ∀ (n j : Nat), (x, y) ∈ EPD_ClearWindows_row i j n ↔ y = i ∧ j ≤ x ∧ x < j + n := by
  intro n
  induction n with
  | zero =>
    intro j
    simp only [EPD_ClearWindows_row, List.not_mem_nil, false_iff]
    omega
  | succ n ih =>
    intro j
    simp only [EPD_ClearWindows_row, List.mem_cons, Prod.mk.injEq, ih]
    omega

theorem mem_EPD_ClearWindows_rows (xs xe x y : Nat) :
    ∀ (n i : Nat), (x, y) ∈ EPD_ClearWindows_rows xs xe i n ↔
      (i ≤ y ∧ y < i + n) ∧ xs ≤ x ∧ x < xe := by
  intro n
  induction n with
  | zero =>
    intro i
    simp only [EPD_ClearWindows_rows, List.not_mem_nil, false_iff]
    omega
  | succ n ih =>
    intro i
    simp only [EPD_ClearWindows_rows, List.mem_append, mem_EPD_ClearWindows_row, ih]
    omega

theorem mem_EPD_ClearWindows_calls (xs ys xe ye x y : Nat) :
    (x, y) ∈ EPD_ClearWindows_calls xs ys xe ye ↔ (xs ≤ x ∧ x < xe) ∧ ys ≤ y ∧ y < ye := by
  unfold EPD_ClearWindows_calls
  rw [mem_EPD_ClearWindows_rows]
  omega

/-- C15: on a descriptor as `Paint_NewImage` leaves it and for 16-bit bounds,
`EPD_ClearWindows(xs, ys, xe, ye, color)` makes every stored pixel `(x, y)` with
`xs <= x < xe` and `ys <= y < ye` read back as `color` (bit 0 for BLACK, 1
otherwise), leaves every pixel outside that half-open window as it was, and
returns the framebuffer unchanged when `xs >= xe` or `ys >= ye`. -/
theorem EPD_ClearWindows_window (p : Paint_t) (xs ys xe ye color : Nat) (hwf : p.wf)
    (hxe : xe < 65536) (hye : ye < 65536) :
    (∀ x y, xs ≤ x → x < xe → ys ≤ y → y < ye → Paint_GetPixel p x y ≠ none →
      Paint_GetPixel (EPD_ClearWindows p xs ys xe ye color) x y =
        some (decide (color ≠ BLACK))) ∧
    (∀ x y, x < 65536 → y < 65536 → ¬ ((xs ≤ x ∧ x < xe) ∧ ys ≤ y ∧ y < ye) →
      Paint_GetPixel (EPD_ClearWindows p xs ys xe ye color) x y = Paint_GetPixel p x y) ∧
    (xe ≤ xs ∨ ye ≤ ys → EPD_ClearWindows p xs ys xe ye color = p) := by
  have h16 : ∀ pt ∈ EPD_ClearWindows_calls xs ys xe ye, pt.1 < 65536 ∧ pt.2 < 65536 := by
    rintro ⟨a, b⟩ hab
    rw [mem_EPD_ClearWindows_calls] at hab
    simp only
    omega
  refine ⟨?_, ?_, ?_⟩
  · intro x y h1 h2 h3 h4 hsome
    unfold EPD_ClearWindows
    rw [Paint_GetPixel_SetPixels color x y (by omega) (by omega) _ p hwf h16,
      if_pos ((mem_EPD_ClearWindows_calls xs ys xe ye x y).mpr ⟨⟨h1, h2⟩, h3, h4⟩)]
    cases hg : Paint_GetPixel p x y with
    | none => exact absurd hg hsome
    | some b => rfl
  · intro x y hx hy hout
    unfold EPD_ClearWindows
    rw [Paint_GetPixel_SetPixels color x y hx hy _ p hwf h16,
      if_neg (fun h => hout ((mem_EPD_ClearWindows_calls xs ys xe ye x y).mp h))]
  · intro h
    have hnil : EPD_ClearWindows_calls xs ys xe ye = [] := by
      apply List.eq_nil_iff_forall_not_mem.mpr
      rintro ⟨a, b⟩ hab
      rw [mem_EPD_ClearWindows_calls] at hab
      omega
    unfold EPD_ClearWindows
    rw [hnil]
    rfl

theorem demoPaint_wf (rot : Nat) (h : rot < 65536) : (demoPaint rot).wf := by
  unfold Paint_t.wf Paint_t.is16 demoPaint Paint_NewImage
  simp only [WHITE]
  refine ⟨⟨?_, ?_, by norm_num, by norm_num, by norm_num, h, by norm_num, by norm_num⟩,
    by norm_num⟩
  · split <;> norm_num
  · split <;> norm_num

/-- Instance of C15: clearing the window (350, 10)-(390, 50) of a 400 x 300
framebuffer to BLACK makes pixel (360, 20) read back as 0. -/
theorem EPD_ClearWindows_window_witness :
    ((demoPaint 0).wf ∧ 390 < 65536 ∧ 50 < 65536) ∧
    Paint_GetPixel (EPD_ClearWindows (demoPaint 0) 350 10 390 50 BLACK) 360 20 = some false :=
  ⟨⟨demoPaint_wf 0 (by norm_num), by norm_num, by norm_num⟩,
   (EPD_ClearWindows_window (demoPaint 0) 350 10 390 50 BLACK (demoPaint_wf 0 (by norm_num))
      (by norm_num) (by norm_num)).1 360 20 (by norm_num) (by norm_num) (by norm_num)
      (by norm_num) (by decide)⟩

/-! ## The filled rectangle in the framebuffer -/

/-- C6: `EPD_DrawRectangle` in filled mode (`mode != 0`) makes pixel calls exactly at
the points `(x, y)` with `Ystart <= y < Yend` and
`min Xstart Xend <= x <= max Xstart Xend`. Row `Yend` gets no call, and when
`Ystart >= Yend` no call is made at all and the framebuffer is returned as it
was. On a descriptor as `Paint_NewImage` leaves it, every stored pixel of that
set reads back as `Color` afterwards (bit 0 for BLACK, 1 otherwise) and every
other pixel is as before. -/
theorem EPD_DrawRectangle_filled (fuel xs ys xe ye mode : Nat) (hxs : xs < 65536)
    (hxe : xe < 65536) (hmode : mode ≠ 0) (hf : max xs xe - min xs xe < fuel) :
    ∃ L, EPD_DrawRectangle_calls fuel xs ys xe ye mode = some L ∧
      (∀ px py, (px, py) ∈ L ↔
        ys ≤ py ∧ py < ye ∧ min xs xe ≤ px ∧ px ≤ max xs xe) ∧
      (∀ px, (px, ye) ∉ L) ∧
      (ye ≤ ys → L = [] ∧
        ∀ p c, EPD_DrawRectangle fuel p xs ys xe ye c mode = some p) ∧
      (∀ p c, p.wf → ye < 65536 →
        ∃ q, EPD_DrawRectangle fuel p xs ys xe ye c mode = some q ∧
          (∀ x y, ys ≤ y → y < ye → min xs xe ≤ x → x ≤ max xs xe →
            Paint_GetPixel p x y ≠ none →
            Paint_GetPixel q x y = some (decide (c ≠ BLACK))) ∧
          (∀ x y, x < 65536 → y < 65536 →
            ¬ (ys ≤ y ∧ y < ye ∧ min xs xe ≤ x ∧ x ≤ max xs xe) →
            Paint_GetPixel q x y = Paint_GetPixel p x y)) := by
  obtain ⟨L, hcalls, hmem⟩ := EPD_DrawRectangle_calls_fill fuel xs ys xe ye mode hxs hxe hmode hf
  refine ⟨L, hcalls, hmem, ?_, ?_, ?_⟩
  · intro px h
    rw [hmem] at h; omega
  · intro hle
    have hnil : L = [] := by
      apply List.eq_nil_iff_forall_not_mem.mpr
      rintro ⟨px, py⟩ h
      rw [hmem] at h; omega
    refine ⟨hnil, ?_⟩
    intro p c
    unfold EPD_DrawRectangle
    rw [hcalls, hnil]
    rfl
  · intro p c hwf hye
    have h16 : ∀ pt ∈ L, pt.1 < 65536 ∧ pt.2 < 65536 := by
      rintro ⟨a, b⟩ hab
      rw [hmem] at hab
      simp only
      omega
    refine ⟨Paint_SetPixels p L c, ?_, ?_, ?_⟩
    · unfold EPD_DrawRectangle
      rw [hcalls]
      rfl
    · intro x y h1 h2 h3 h4 hsome
      rw [Paint_GetPixel_SetPixels c x y (by omega) (by omega) L p hwf h16,
        if_pos ((hmem x y).mpr ⟨h1, h2, h3, h4⟩)]
      cases hg : Paint_GetPixel p x y with
      | none => exact absurd hg hsome
      | some b => rfl
    · intro x y hx hy hout
      rw [Paint_GetPixel_SetPixels c x y hx hy L p hwf h16,
        if_neg (fun h => hout ((hmem x y).mp h))]

/-- Instance of C6: the filled BLACK rectangle (0, 0)-(10, 10) on the white 400 x 300
framebuffer makes no call in row 10; the pixel (3, 4) reads back black and the
pixel (3, 10) is still white. -/
theorem EPD_DrawRectangle_filled_witness :
    (0 < 65536 ∧ 10 < 65536 ∧ 1 ≠ 0 ∧ max 0 10 - min 0 10 < 11) ∧
    (∃ L, EPD_DrawRectangle_calls 11 0 0 10 10 1 = some L ∧ ∀ px, (px, 10) ∉ L) ∧
    ∃ q, EPD_DrawRectangle 11 (demoPaint 0) 0 0 10 10 BLACK 1 = some q ∧
      Paint_GetPixel q 3 4 = some false ∧ Paint_GetPixel q 3 10 = some true :=
  ⟨by decide,
   (EPD_DrawRectangle_filled 11 0 0 10 10 1 (by decide) (by decide) (by decide)
      (by decide)).elim (fun L h => ⟨L, h.1, h.2.2.1⟩),
   (EPD_DrawRectangle_filled 11 0 0 10 10 1 (by decide) (by decide) (by decide)
      (by decide)).elim (fun _ h =>
        (h.2.2.2.2 (demoPaint 0) BLACK (demoPaint_wf 0 (by decide)) (by decide)).elim (fun q hq =>
          ⟨q, hq.1,
            hq.2.1 3 4 (by decide) (by decide) (by decide) (by decide) (by decide),
            (hq.2.2 3 10 (by decide) (by decide) (by decide)).trans (by decide)⟩))⟩

/-! ## `EPD_Full` -/

theorem EPD_Full_row_spec (WB Y c a : Nat) :
    ∀ (n X : Nat) (img : Nat → Nat), X + n + Y * WB ≤ 2 ^ 32 →
      EPD_Full_row WB Y c X n img a =
        if X + Y * WB ≤ a ∧ a < X + n + Y * WB then c else img a := by
  intro n
  induction n with
  | zero =>
    intro X img _
    simp only [EPD_Full_row]
    rw [if_neg (by omega)]
  | succ n ih =>
    intro X img h
    simp only [EPD_Full_row]
    rw [ih (X + 1) _ (by omega), Nat.mod_eq_of_lt (by omega)]
    simp only [store]
    by_cases h1 : X + 1 + Y * WB ≤ a ∧ a < X + 1 + n + Y * WB
    · rw [if_pos h1, if_pos (by omega)]
    · rw [if_neg h1]
      by_cases h2 : a = X + Y * WB
      · rw [if_pos h2, if_pos (by omega)]
      · rw [if_neg h2, if_neg (by omega)]

theorem EPD_Full_rows_spec (WB c a : Nat) :
    ∀ (n Y : Nat) (img : Nat → Nat), (Y + n) * WB ≤ 2 ^ 32 →
      EPD_Full_rows WB c Y n img a =
        if Y * WB ≤ a ∧ a < (Y + n) * WB then c else img a := by
  intro n
  induction n with
  | zero =>
    intro Y img _
    simp only [EPD_Full_rows, Nat.add_zero]
    rw [if_neg (by omega)]
  | succ n ih =>
    intro Y img h
    have e1 : (Y + (n + 1)) * WB = Y * WB + WB + n * WB := by ring
    have e2 : (Y + 1 + n) * WB = Y * WB + WB + n * WB := by ring
    have e3 : (Y + 1) * WB = Y * WB + WB := by ring
    simp only [EPD_Full_rows]
    rw [ih (Y + 1) _ (by rw [e2]; rw [e1] at h; exact h),
      EPD_Full_row_spec WB Y c a WB 0 img (by rw [e1] at h; omega)]
    rw [e1, e2, e3]
    by_cases h1 : Y * WB + WB ≤ a ∧ a < Y * WB + WB + n * WB
    · rw [if_pos h1, if_pos (by omega)]
    · rw [if_neg h1]
      by_cases h2 : 0 + Y * WB ≤ a ∧ a < 0 + WB + Y * WB
      · rw [if_pos h2, if_pos (by omega)]
      · rw [if_neg h2, if_neg (by omega)]

theorem Paint_NewImage_wf (img : Nat → Nat) (W H rot bg : Nat) (hW : W < 65536)
    (hH : H < 65536) (hrot : rot < 65536) (hbg : bg < 65536) :
    (Paint_NewImage img W H rot bg).wf := by
  unfold Paint_t.wf Paint_t.is16 Paint_NewImage
  simp only
  refine ⟨⟨?_, ?_, hW, hH, hbg, hrot, ?_, hH⟩, ?_⟩
  · split <;> omega
  · split <;> omega
  · split <;> omega
  · split <;> omega

/-- The byte index of an in-range physical point is below `WidthByte * Height`. -/
theorem addr_lt_size (W H WB X Y : Nat) (hWB : W ≤ 8 * WB) (hX : X < W) (hY : Y < H) :
    X / 8 + Y * WB < WB * H := by
  have h1 : X / 8 < WB := by omega
  have h2 : (Y + 1) * WB ≤ H * WB := Nat.mul_le_mul_right WB (by omega)
  have e : (Y + 1) * WB = Y * WB + WB := by ring
  rw [Nat.mul_comm WB H]
  omega

/-- C14: after `EPD_Full(c)` on a framebuffer created by
`Paint_NewImage(buf, W, H, rot, bg)` (16-bit `W`, `H`) every byte at an index below
`ceil(W/8) * H` equals `c`, every byte at a higher index is as before and no
other member of the descriptor changes; after `EPD_Full(WHITE)` every stored
pixel reads back as 1 and after `EPD_Full(BLACK)` as 0. -/
theorem EPD_Full_fills (buf : Nat → Nat) (W H rot bg c : Nat) (hW : W < 65536)
    (hH : H < 65536) :
    (∀ a, a < (if W % 8 = 0 then W / 8 else W / 8 + 1) * H →
      (EPD_Full (Paint_NewImage buf W H rot bg) c).Image a = c) ∧
    (∀ a, (if W % 8 = 0 then W / 8 else W / 8 + 1) * H ≤ a →
      (EPD_Full (Paint_NewImage buf W H rot bg) c).Image a = buf a) ∧
    EPD_Full (Paint_NewImage buf W H rot bg) c =
      { Paint_NewImage buf W H rot bg with
        Image := (EPD_Full (Paint_NewImage buf W H rot bg) c).Image } ∧
    (c = WHITE → ∀ x y, Paint_GetPixel (EPD_Full (Paint_NewImage buf W H rot bg) c) x y ≠ none →
      Paint_GetPixel (EPD_Full (Paint_NewImage buf W H rot bg) c) x y = some true) ∧
    (c = BLACK → ∀ x y, Paint_GetPixel (EPD_Full (Paint_NewImage buf W H rot bg) c) x y ≠ none →
      Paint_GetPixel (EPD_Full (Paint_NewImage buf W H rot bg) c) x y = some false) := by
  have hWB : (if W % 8 = 0 then W / 8 else W / 8 + 1) ≤ 8192 := by split <;> omega
  have hW8 : W ≤ 8 * (if W % 8 = 0 then W / 8 else W / 8 + 1) := by split <;> omega
  generalize hWBdef : (if W % 8 = 0 then W / 8 else W / 8 + 1) = WB at hWB hW8 ⊢
  have hsize : (0 + H) * WB ≤ 2 ^ 32 := by
    have : H * WB ≤ 65535 * 8192 := Nat.mul_le_mul (by omega) hWB
    rw [Nat.zero_add]
    norm_num
    omega
  have hImg : ∀ a, (EPD_Full (Paint_NewImage buf W H rot bg) c).Image a =
      if a < WB * H then c else buf a := by
    intro a
    have := EPD_Full_rows_spec WB c a H 0 buf hsize
    simp only [EPD_Full, Paint_NewImage, hWBdef]
    rw [this, Nat.zero_mul, Nat.zero_add, Nat.mul_comm H WB]
    by_cases h : a < WB * H
    · rw [if_pos ⟨Nat.zero_le _, h⟩, if_pos h]
    · rw [if_neg (fun h' => h h'.2), if_neg h]
  have hPix : ∀ x y b, Paint_GetPixel (EPD_Full (Paint_NewImage buf W H rot bg) c) x y = some b →
      ∃ k, k < 8 ∧ b = (c % 256).testBit k := by
    intro x y b hb
    unfold Paint_GetPixel at hb
    cases hXY : Paint_SetPixel_XY (EPD_Full (Paint_NewImage buf W H rot bg) c) x y with
    | none => rw [hXY] at hb; simp at hb
    | some P =>
      obtain ⟨X, Y⟩ := P
      rw [hXY] at hb
      simp only at hb
      have hW' : (EPD_Full (Paint_NewImage buf W H rot bg) c).WidthMemory = W := rfl
      have hH' : (EPD_Full (Paint_NewImage buf W H rot bg) c).HeightMemory = H := rfl
      have hB' : (EPD_Full (Paint_NewImage buf W H rot bg) c).WidthByte = WB := by
        rw [← hWBdef]; rfl
      rw [hW', hH', hB'] at hb
      by_cases hout : X ≥ W ∨ Y ≥ H
      · rw [if_pos hout] at hb; simp at hb
      · rw [if_neg hout] at hb
        have hlt := addr_lt_size W H WB X Y hW8 (by omega) (by omega)
        have hmod : (X / 8 + Y * WB) % 2 ^ 32 = X / 8 + Y * WB := by
          apply Nat.mod_eq_of_lt
          have : WB * H ≤ 8192 * 65535 := Nat.mul_le_mul hWB (by omega)
          norm_num
          omega
        rw [hmod] at hb
        simp only [Option.some.injEq, Paint_t.byte] at hb
        rw [hImg, if_pos hlt] at hb
        exact ⟨7 - X % 8, by omega, hb.symm⟩
  refine ⟨?_, ?_, rfl, ?_, ?_⟩
  · intro a ha
    rw [hImg, if_pos ha]
  · intro a ha
    rw [hImg, if_neg (by omega)]
  · intro hc x y hne
    cases hg : Paint_GetPixel (EPD_Full (Paint_NewImage buf W H rot bg) c) x y with
    | none => exact absurd hg hne
    | some b =>
      obtain ⟨k, hk, rfl⟩ := hPix x y b hg
      rw [hc]
      simp only [WHITE, Option.some.injEq]
      interval_cases k <;> rfl
  · intro hc x y hne
    cases hg : Paint_GetPixel (EPD_Full (Paint_NewImage buf W H rot bg) c) x y with
    | none => exact absurd hg hne
    | some b =>
      obtain ⟨k, hk, rfl⟩ := hPix x y b hg
      rw [hc]
      simp [BLACK]

/-- Instance of C14: a 400 x 300 buffer of zeros filled with WHITE holds 0xFF at index
14999 and is untouched at index 15000. -/
theorem EPD_Full_fills_witness :
    (400 < 65536 ∧ 300 < 65536) ∧
    (EPD_Full (Paint_NewImage (fun _ => 0) 400 300 0 WHITE) WHITE).Image 14999 = WHITE ∧
    (EPD_Full (Paint_NewImage (fun _ => 0) 400 300 0 WHITE) WHITE).Image 15000 = 0 :=
  ⟨by decide,
   (EPD_Full_fills (fun _ => 0) 400 300 0 WHITE WHITE (by decide) (by decide)).1 14999
     (by decide),
   (EPD_Full_fills (fun _ => 0) 400 300 0 WHITE WHITE (by decide) (by decide)).2.1 15000
     (by decide)⟩

/-! ## Byte indexes stay inside the buffer -/

/-- A call of `Paint_SetPixel` leaves every byte other than the one at its
index `Addr` as it was. -/
theorem Paint_SetPixel_Addr_frame (p : Paint_t) (x y c a : Nat)
    (h : Paint_SetPixel_Addr p x y ≠ some a) : (Paint_SetPixel p x y c).Image a = p.Image a := by
  rcases Paint_SetPixel_cases p x y c with ⟨-, -, hsame⟩ | ⟨X, Y, v, -, -, -, hA, hval, -, -⟩
  · rw [hsame]
  · rw [hval]
    simp only [store]
    rw [if_neg]
    intro ha
    apply h
    rw [hA, ha]

theorem Paint_SetPixel_Addr_lt (p : Paint_t) (x y a : Nat) (hWB : p.WidthMemory ≤ 8 * p.WidthByte)
    (hsize : p.WidthByte * p.HeightMemory ≤ 2 ^ 32)
    (h : Paint_SetPixel_Addr p x y = some a) : a < p.WidthByte * p.HeightMemory := by
  unfold Paint_SetPixel_Addr at h
  cases hXY : Paint_SetPixel_XY p x y with
  | none => rw [hXY] at h; simp at h
  | some P =>
    obtain ⟨X, Y⟩ := P
    rw [hXY] at h
    simp only at h
    by_cases hout : X ≥ p.WidthMemory ∨ Y ≥ p.HeightMemory
    · rw [if_pos hout] at h; simp at h
    · rw [if_neg hout] at h
      have hlt := addr_lt_size p.WidthMemory p.HeightMemory p.WidthByte X Y hWB (by omega)
        (by omega)
      rw [Nat.mod_eq_of_lt (by omega)] at h
      simp only [Option.some.injEq] at h
      omega

theorem Paint_SetPixels_Addrs_lt (W H WB : Nat) (hWB : W ≤ 8 * WB) (hsize : WB * H ≤ 2 ^ 32) :
    ∀ (L : List (Nat × Nat × Nat)) (p : Paint_t), p.WidthMemory = W → p.HeightMemory = H →
      p.WidthByte = WB → ∀ a ∈ Paint_SetPixels_Addrs p L, a < WB * H := by
  intro L
  induction L with
  | nil => intro p _ _ _ a ha; simp [Paint_SetPixels_Addrs] at ha
  | cons c L ih =>
    intro p h1 h2 h3 a ha
    simp only [Paint_SetPixels_Addrs, List.mem_append, Option.mem_toList, Option.mem_def] at ha
    rcases ha with ha | ha
    · have := Paint_SetPixel_Addr_lt p c.1 c.2.1 a (by rw [h1, h3]; exact hWB)
        (by rw [h2, h3]; exact hsize) ha
      rw [h2, h3] at this
      exact this
    · refine ih (Paint_SetPixel p c.1 c.2.1 c.2.2) ?_ ?_ ?_ a ha
      · rw [Paint_SetPixel_geom]; exact h1
      · rw [Paint_SetPixel_geom]; exact h2
      · rw [Paint_SetPixel_geom]; exact h3

/-- Replaying calls of one colour is replaying the same calls with the colour
attached. -/
theorem Paint_SetPixels_eq_calls (c : Nat) :
    ∀ (pts : List (Nat × Nat)) (p : Paint_t),
      Paint_SetPixels p pts c = Paint_SetPixelCalls p (pts.map (fun pt => (pt.1, pt.2, c))) := by
  intro pts
  induction pts with
  | nil => intro p; rfl
  | cons pt pts ih =>
    intro p
    rw [Paint_SetPixels_cons, ih]
    rfl

/-- C20: for a framebuffer created by `Paint_NewImage(buf, W, H, rot, bg)` (16-bit `W`,
`H`, any rotation) every byte index that `Paint_SetPixel` reads or writes is
below `ceil(W/8) * H`, for every `(x, y)`, and the call changes no byte at any
other index. The same bound holds for every index accessed while any list of
`Paint_SetPixel` calls is replayed, which is how the shape, window-clear and
text operations reach the buffer. -/
theorem Paint_SetPixel_in_bounds (buf : Nat → Nat) (W H rot bg : Nat) (hW : W < 65536)
    (hH : H < 65536) :
    (∀ x y a, Paint_SetPixel_Addr (Paint_NewImage buf W H rot bg) x y = some a →
      a < (if W % 8 = 0 then W / 8 else W / 8 + 1) * H) ∧
    (∀ x y c a, Paint_SetPixel_Addr (Paint_NewImage buf W H rot bg) x y ≠ some a →
      (Paint_SetPixel (Paint_NewImage buf W H rot bg) x y c).Image a = buf a) ∧
    (∀ (L : List (Nat × Nat × Nat)) a,
      a ∈ Paint_SetPixels_Addrs (Paint_NewImage buf W H rot bg) L →
      a < (if W % 8 = 0 then W / 8 else W / 8 + 1) * H) := by
  have hWB : (if W % 8 = 0 then W / 8 else W / 8 + 1) ≤ 8192 := by split <;> omega
  have hW8 : W ≤ 8 * (if W % 8 = 0 then W / 8 else W / 8 + 1) := by split <;> omega
  have hsize : (if W % 8 = 0 then W / 8 else W / 8 + 1) * H ≤ 2 ^ 32 := by
    have : (if W % 8 = 0 then W / 8 else W / 8 + 1) * H ≤ 8192 * 65535 :=
      Nat.mul_le_mul hWB (by omega)
    exact Nat.le_trans this (by norm_num)
  refine ⟨?_, ?_, ?_⟩
  · intro x y a h
    exact Paint_SetPixel_Addr_lt (Paint_NewImage buf W H rot bg) x y a hW8 hsize h
  · intro x y c a h
    exact Paint_SetPixel_Addr_frame (Paint_NewImage buf W H rot bg) x y c a h
  · intro L a ha
    exact Paint_SetPixels_Addrs_lt W H _ hW8 hsize L (Paint_NewImage buf W H rot bg) rfl rfl rfl
      a ha

/-- Instance of C20: on a 400 x 300 framebuffer with rotation 270 the call at (0, 0)
accesses index 0 + 299 * 50, which is below 15000. -/
theorem Paint_SetPixel_in_bounds_witness :
    (400 < 65536 ∧ 300 < 65536) ∧
    Paint_SetPixel_Addr (demoPaint 270) 0 0 = some 14950 ∧ 14950 < 50 * 300 :=
  ⟨by decide, by decide,
   (Paint_SetPixel_in_bounds (fun _ => 0xFF) 400 300 270 WHITE (by decide) (by decide)).1 0 0
     14950 (by decide)⟩

/-! ## Glyph events: general facts -/

theorem Paint_Replay_append (p : Paint_t) (a b : List GlyphEv) :
    Paint_Replay p (a ++ b) = Paint_Replay (Paint_Replay p a) b := by
  unfold Paint_Replay Paint_SetPixelCalls
  rw [List.filterMap_append, List.foldl_append]

theorem Paint_Replay_nil (p : Paint_t) : Paint_Replay p [] = p := rfl

theorem Paint_Replay_read (p : Paint_t) (s c i : Nat) (evs : List GlyphEv) :
    Paint_Replay p (GlyphEv.read s c i :: evs) = Paint_Replay p evs := rfl

theorem Paint_Replay_pixel (p : Paint_t) (x y c : Nat) (evs : List GlyphEv) :
    Paint_Replay p (GlyphEv.pixel x y c :: evs) = Paint_Replay (Paint_SetPixel p x y c) evs := rfl

theorem Paint_Replay_wf :
    ∀ (evs : List GlyphEv) (p : Paint_t), p.wf → (Paint_Replay p evs).wf := by
  intro evs
  induction evs with
  | nil => intro p h; exact h
  | cons e evs ih =>
    intro p h
    cases e with
    | read s c i => rw [Paint_Replay_read]; exact ih p h
    | pixel x y c => rw [Paint_Replay_pixel]; exact ih _ (Paint_SetPixel_wf p x y c h)

/-- The events of `EPD_ShowChar` depend on `x` and `y` only through their 16-bit
values. -/
theorem EPD_ShowChar_events_u16 (F : Fonts) (x y chr size1 color : Nat) :
    EPD_ShowChar_events F (u16 (x : Int)) y chr size1 color =
      EPD_ShowChar_events F x y chr size1 color := by
  have h : u16 (((u16 (x : Int) : Nat) : Int) + 1) = u16 ((x : Int) + 1) := by
    unfold u16; omega
  unfold EPD_ShowChar_events
  rw [h]

theorem EPD_ShowChar_events_congr (F : Fonts) (x x1 y chr size1 color : Nat)
    (h : u16 (x : Int) = u16 (x1 : Int)) :
    EPD_ShowChar_events F x y chr size1 color = EPD_ShowChar_events F x1 y chr size1 color := by
  rw [← EPD_ShowChar_events_u16 F x, ← EPD_ShowChar_events_u16 F x1, h]

/-! ## Unsupported font sizes -/

theorem EPD_ShowChar_temp_unsupported (F : Fonts) (size1 chr1 i : Nat) (h8 : size1 ≠ 8)
    (h12 : size1 ≠ 12) (h16 : size1 ≠ 16) (h24 : size1 ≠ 24) :
    EPD_ShowChar_temp F size1 chr1 i = none := by
  unfold EPD_ShowChar_temp
  rw [if_neg h8, if_neg h12, if_neg h16, if_neg h24]

theorem EPD_ShowChar_events_unsupported (F : Fonts) (x y chr size1 color : Nat) (h8 : size1 ≠ 8)
    (h12 : size1 ≠ 12) (h16 : size1 ≠ 16) (h24 : size1 ≠ 24) :
    EPD_ShowChar_events F x y chr size1 color = [] := by
  unfold EPD_ShowChar_events
  simp only
  generalize (if size1 = 8 then 6
    else u16 (((size1 / 8 + (if size1 % 8 ≠ 0 then 1 else 0)) * (size1 / 2) : Nat) : Int)) = n
  cases n with
  | zero => rfl
  | succ n =>
    simp only [EPD_ShowChar_loop]
    rw [EPD_ShowChar_temp_unsupported F size1 _ 0 h8 h12 h16 h24]

theorem EPD_ShowString_events_unsupported (F : Fonts) (y size1 color : Nat) (h8 : size1 ≠ 8)
    (h12 : size1 ≠ 12) (h16 : size1 ≠ 16) (h24 : size1 ≠ 24) :
    ∀ (s : List Nat) (x : Nat), EPD_ShowString_events F y size1 color s x = [] := by
  intro s
  induction s with
  | nil => intro x; rfl
  | cons c s ih =>
    intro x
    simp only [EPD_ShowString_events]
    rw [EPD_ShowChar_events_unsupported F x y c size1 color h8 h12 h16 h24, ih]
    rfl

theorem CharCalls_events_unsupported (F : Fonts) (size1 : Nat) (h8 : size1 ≠ 8)
    (h12 : size1 ≠ 12) (h16 : size1 ≠ 16) (h24 : size1 ≠ 24) :
    ∀ (L : List CharCall), (∀ c ∈ L, c.size1 = size1) → CharCalls_events F L = [] := by
  intro L
  induction L with
  | nil => intro _; rfl
  | cons c L ih =>
    intro h
    simp only [CharCalls_events]
    have hc := h c (List.mem_cons_self _ _)
    rw [EPD_ShowChar_events_unsupported F c.x c.y c.chr c.size1 c.color (by rw [hc]; exact h8)
      (by rw [hc]; exact h12) (by rw [hc]; exact h16) (by rw [hc]; exact h24),
      ih (fun d hd => h d (List.mem_cons_of_mem _ hd))]
    rfl

theorem EPD_ShowNum_loop_size (x y num len size1 color m : Nat) :
    ∀ (fuel t : Nat) (L : List CharCall),
      EPD_ShowNum_loop x y num len size1 color m fuel t = some L → ∀ c ∈ L, c.size1 = size1 := by
  intro fuel
  induction fuel with
  | zero => intro t L h; simp [EPD_ShowNum_loop] at h
  | succ f ih =>
    intro t L h
    simp only [EPD_ShowNum_loop] at h
    by_cases ht : t < len
    · rw [if_pos ht] at h
      by_cases hp : EPD_Pow 10 (u16 ((len : Int) - t - 1)) = 0
      · simp only [if_pos hp] at h
        simp at h
      · simp only [if_neg hp] at h
        cases hr : EPD_ShowNum_loop x y num len size1 color m f (u8 ((t : Int) + 1)) with
        | none => rw [hr] at h; simp at h
        | some L1 =>
          rw [hr] at h
          simp only [Option.map_some', Option.some.injEq] at h
          subst h
          intro c hc
          rcases List.mem_cons.mp hc with rfl | hc
          · rfl
          · exact ih _ L1 hr c hc
    · rw [if_neg ht] at h
      simp only [Option.some.injEq] at h
      subst h
      intro c hc
      simp at hc

theorem EPD_ShowFloatNum1_loop_size (x y num1 pre sizey color sizex : Nat) :
    ∀ (fuel t len : Nat) (L : List CharCall),
      EPD_ShowFloatNum1_loop x y num1 pre sizey color sizex fuel t len = some L →
      ∀ c ∈ L, c.size1 = sizey := by
  intro fuel
  induction fuel with
  | zero => intro t len L h; simp [EPD_ShowFloatNum1_loop] at h
  | succ f ih =>
    intro t len L h
    simp only [EPD_ShowFloatNum1_loop] at h
    by_cases ht : t < len
    · rw [if_pos ht] at h
      by_cases hp : EPD_Pow 10 (u16 ((len : Int) - t - 1)) = 0
      · simp only [if_pos hp] at h
        simp at h
      · simp only [if_neg hp] at h
        by_cases hd : (t : Int) = (len : Int) - pre
        · rw [if_pos hd] at h
          cases hr : EPD_ShowFloatNum1_loop x y num1 pre sizey color sizex f
              (u8 (((u8 ((t : Int) + 1) : Nat) : Int) + 1)) (u8 ((len : Int) + 1)) with
          | none => rw [hr] at h; simp at h
          | some L1 =>
            rw [hr] at h
            simp only [Option.map_some', Option.some.injEq] at h
            subst h
            intro c hc
            rcases List.mem_cons.mp hc with rfl | hc
            · rfl
            · rcases List.mem_cons.mp hc with rfl | hc
              · rfl
              · exact ih _ _ L1 hr c hc
        · rw [if_neg hd] at h
          cases hr : EPD_ShowFloatNum1_loop x y num1 pre sizey color sizex f
              (u8 ((t : Int) + 1)) len with
          | none => rw [hr] at h; simp at h
          | some L1 =>
            rw [hr] at h
            simp only [Option.map_some', Option.some.injEq] at h
            subst h
            intro c hc
            rcases List.mem_cons.mp hc with rfl | hc
            · rfl
            · exact ih _ _ L1 hr c hc
    · rw [if_neg ht] at h
      simp only [Option.some.injEq] at h
      subst h
      intro c hc
      simp at hc

/-- C18: for a font size other than 8, 12, 16 and 24, `EPD_ShowChar` reads no glyph
table entry and makes no pixel call, for every character, position and colour,
so it returns the framebuffer as it was; the same holds for `EPD_ShowString`,
and `EPD_ShowNum` and `EPD_ShowFloatNum1` return the framebuffer as it was
whenever they return (as they do for `len <= 10`). -/
theorem EPD_ShowChar_unsupported_size (F : Fonts) (p : Paint_t) (size1 : Nat) (h8 : size1 ≠ 8)
    (h12 : size1 ≠ 12) (h16 : size1 ≠ 16) (h24 : size1 ≠ 24) :
    (∀ x y chr color, EPD_ShowChar_events F x y chr size1 color = [] ∧
      EPD_ShowChar F p x y chr size1 color = p) ∧
    (∀ x y s color, EPD_ShowString_events F y size1 color s x = [] ∧
      EPD_ShowString F p x y s size1 color = p) ∧
    (∀ fuel x y num len color,
      (∀ L, EPD_ShowNum_calls fuel x y num len size1 color = some L →
        CharCalls_events F L = []) ∧
      (∀ q, EPD_ShowNum F fuel p x y num len size1 color = some q → q = p) ∧
      (len ≤ 10 → len < fuel → EPD_ShowNum F fuel p x y num len size1 color = some p)) ∧
    (∀ fuel x y numN numD len pre color,
      (∀ L, EPD_ShowFloatNum1_calls fuel x y numN numD len pre size1 color = some L →
        CharCalls_events F L = []) ∧
      (∀ q, EPD_ShowFloatNum1 F fuel p x y numN numD len pre size1 color = some q → q = p) ∧
      (len ≤ 10 → pre ≤ len → len + 1 < fuel →
        EPD_ShowFloatNum1 F fuel p x y numN numD len pre size1 color = some p)) := by
  have hnum : ∀ fuel x y num len color L,
      EPD_ShowNum_calls fuel x y num len size1 color = some L → CharCalls_events F L = [] := by
    intro fuel x y num len color L hL
    exact CharCalls_events_unsupported F size1 h8 h12 h16 h24 L
      (EPD_ShowNum_loop_size x y num len size1 color _ fuel 0 L hL)
  have hflt : ∀ fuel x y numN numD len pre color L,
      EPD_ShowFloatNum1_calls fuel x y numN numD len pre size1 color = some L →
      CharCalls_events F L = [] := by
    intro fuel x y numN numD len pre color L hL
    exact CharCalls_events_unsupported F size1 h8 h12 h16 h24 L
      (EPD_ShowFloatNum1_loop_size x y _ pre size1 color _ fuel 0 len L hL)
  refine ⟨?_, ?_, ?_, ?_⟩
  · intro x y chr color
    have h := EPD_ShowChar_events_unsupported F x y chr size1 color h8 h12 h16 h24
    refine ⟨h, ?_⟩
    unfold EPD_ShowChar
    rw [h]
    rfl
  · intro x y s color
    have h := EPD_ShowString_events_unsupported F y size1 color h8 h12 h16 h24 s x
    refine ⟨h, ?_⟩
    unfold EPD_ShowString
    rw [h]
    rfl
  · intro fuel x y num len color
    refine ⟨hnum fuel x y num len color, ?_, ?_⟩
    · intro q hq
      unfold EPD_ShowNum at hq
      cases hL : EPD_ShowNum_calls fuel x y num len size1 color with
      | none => rw [hL] at hq; simp at hq
      | some L =>
        rw [hL] at hq
        simp only [Option.map_some', Option.some.injEq] at hq
        rw [hnum fuel x y num len color L hL] at hq
        exact hq.symm
    · intro hlen hf
      have hL : ∃ L, EPD_ShowNum_calls fuel x y num len size1 color = some L :=
        ⟨_, EPD_ShowNum_loop_spec x y num len size1 color _ hlen len fuel 0 (by omega) hf⟩
      obtain ⟨L, hL⟩ := hL
      unfold EPD_ShowNum
      rw [hL]
      simp only [Option.map_some', Option.some.injEq]
      rw [hnum fuel x y num len color L hL]
      rfl
  · intro fuel x y numN numD len pre color
    refine ⟨hflt fuel x y numN numD len pre color, ?_, ?_⟩
    · intro q hq
      unfold EPD_ShowFloatNum1 at hq
      cases hL : EPD_ShowFloatNum1_calls fuel x y numN numD len pre size1 color with
      | none => rw [hL] at hq; simp at hq
      | some L =>
        rw [hL] at hq
        simp only [Option.map_some', Option.some.injEq] at hq
        rw [hflt fuel x y numN numD len pre color L hL] at hq
        exact hq.symm
    · intro hlen hpre hf
      have hL : ∃ L, EPD_ShowFloatNum1_calls fuel x y numN numD len pre size1 color = some L :=
        ⟨_, EPD_ShowFloatNum1_loop_spec fuel x y _ len pre _ size1 color hlen hpre hf⟩
      obtain ⟨L, hL⟩ := hL
      unfold EPD_ShowFloatNum1
      rw [hL]
      simp only [Option.map_some', Option.some.injEq]
      rw [hflt fuel x y numN numD len pre color L hL]
      rfl

/-- Instance of C18: size 10 is not a supported size, and `EPD_ShowChar` of `'A'` with
it leaves a 400 x 300 framebuffer as it was. -/
theorem EPD_ShowChar_unsupported_size_witness :
    ((10 : Nat) ≠ 8 ∧ (10 : Nat) ≠ 12 ∧ (10 : Nat) ≠ 16 ∧ (10 : Nat) ≠ 24) ∧
    EPD_ShowChar demoFonts (demoPaint 0) 10 10 65 10 BLACK = demoPaint 0 :=
  ⟨by decide,
   ((EPD_ShowChar_unsupported_size demoFonts (demoPaint 0) 10 (by decide) (by decide)
      (by decide) (by decide)).1 10 10 65 BLACK).2⟩

/-! ## `EPD_ShowString` -/

theorem EPD_ShowString_cons (F : Fonts) (p : Paint_t) (x y c : Nat) (s : List Nat)
    (size1 color : Nat) :
    EPD_ShowString F p x y (c :: s) size1 color =
      EPD_ShowString F (EPD_ShowChar F p x y c size1 color)
        (u16 ((x : Int) + ((size1 / 2 : Nat) : Int))) y s size1 color := by
  unfold EPD_ShowString EPD_ShowChar
  simp only [EPD_ShowString_events]
  rw [Paint_Replay_append]

theorem EPD_ShowString_enumFrom (F : Fonts) (x y size1 color : Nat) :
    ∀ (s : List Nat) (p : Paint_t) (k xcur : Nat),
      u16 (xcur : Int) = u16 (((x + k * (size1 / 2) : Nat)) : Int) →
      EPD_ShowString F p xcur y s size1 color =
        (s.enumFrom k).foldl
          (fun q ic => EPD_ShowChar F q (x + ic.1 * (size1 / 2)) y ic.2 size1 color) p := by
  intro s
  induction s with
  | nil => intro p k xcur _; rfl
  | cons c s ih =>
    intro p k xcur hx
    rw [EPD_ShowString_cons, List.enumFrom_cons, List.foldl_cons]
    have hc : EPD_ShowChar F p xcur y c size1 color =
        EPD_ShowChar F p (x + k * (size1 / 2)) y c size1 color := by
      unfold EPD_ShowChar
      rw [EPD_ShowChar_events_congr F xcur (x + k * (size1 / 2)) y c size1 color hx]
    rw [hc]
    apply ih
    have e : (k + 1) * (size1 / 2) = k * (size1 / 2) + size1 / 2 := by ring
    rw [e]
    generalize k * (size1 / 2) = kh at hx ⊢
    generalize size1 / 2 = h at hx ⊢
    unfold u16 at hx ⊢
    omega

/-- C17: `EPD_ShowString(x, y, s, size, color)` produces the buffer obtained by
calling `EPD_ShowChar` for the `i`-th character of `s` at `(x + i * (size / 2), y)`,
for `i = 0, 1, ...` from left to right (the position being taken as the
`uint16_t` argument of `EPD_ShowChar`); the row `y` never changes, and the empty
string leaves the buffer unchanged. -/
theorem EPD_ShowString_chars (F : Fonts) (p : Paint_t) (x y : Nat) (s : List Nat)
    (size1 color : Nat) :
    EPD_ShowString F p x y s size1 color =
      s.enum.foldl
        (fun q ic => EPD_ShowChar F q (x + ic.1 * (size1 / 2)) y ic.2 size1 color) p ∧
    EPD_ShowString F p x y [] size1 color = p := by
  constructor
  · unfold List.enum
    apply EPD_ShowString_enumFrom
    rw [Nat.zero_mul, Nat.add_zero]
  · rfl


/-! ## The glyph cell of `EPD_ShowChar` -/

theorem and_one_ne_zero_iff (temp : Nat) : temp &&& 0x01 ≠ 0 ↔ temp.testBit 0 = true := by
  rw [Nat.and_one_is_mod, Nat.testBit_zero]
  simp only [decide_eq_true_eq]
  omega

theorem glyphBit_zero (color temp : Nat) :
    decide ((if temp &&& 0x01 ≠ 0 then color else (if color = 0 then 1 else 0)) ≠ BLACK) =
      glyphBit color temp 0 := by
  unfold glyphBit BLACK
  by_cases h : temp &&& 0x01 ≠ 0
  · rw [if_pos h, if_pos ((and_one_ne_zero_iff temp).mp h)]
  · have h2 : ¬ (temp.testBit 0 = true) := fun h' => h ((and_one_ne_zero_iff temp).mpr h')
    rw [if_neg h, if_neg h2]
    by_cases hc : color = 0
    · simp [hc]
    · simp [hc]

theorem glyphBit_shift (color temp k : Nat) :
    glyphBit color (temp >>> 1) k = glyphBit color temp (k + 1) := by
  unfold glyphBit
  rw [Nat.testBit_shiftRight, Nat.add_comm 1 k]

/-- The pixels read back after the eight calls made for one glyph byte: the
column `x`, rows `y .. y + n - 1`, take the bits of `temp` from bit 0 upwards. -/
theorem EPD_ShowChar_bits_get (x color px py : Nat) (hx : x < 65536) (hpx : px < 65536)
    (hpy : py < 65536) :
    ∀ (n temp y : Nat) (p : Paint_t), p.wf → y + n ≤ 65536 →
      Paint_GetPixel (Paint_Replay p (EPD_ShowChar_bits x color n temp y)) px py =
        if px = x ∧ y ≤ py ∧ py < y + n then
          (Paint_GetPixel p px py).map (fun _ => glyphBit color temp (py - y))
        else Paint_GetPixel p px py := by
  intro n
  induction n with
  | zero =>
    intro temp y p _ _
    simp only [EPD_ShowChar_bits, Paint_Replay_nil]
    rw [if_neg (by omega)]
  | succ n ih =>
    intro temp y p hwf hy
    simp only [EPD_ShowChar_bits, Paint_Replay_pixel]
    have hstep := Paint_GetPixel_SetPixel p x y
      (if temp &&& 0x01 ≠ 0 then color else (if color = 0 then 1 else 0)) px py hwf hx
      (by omega) hpx hpy
    rw [glyphBit_zero] at hstep
    cases n with
    | zero =>
      simp only [EPD_ShowChar_bits, Paint_Replay_nil]
      rw [hstep]
      by_cases h : px = x ∧ py = y
      · obtain ⟨rfl, rfl⟩ := h
        rw [if_pos ⟨rfl, rfl⟩, if_pos (by omega), Nat.sub_self]
      · rw [if_neg h, if_neg (by omega)]
    | succ m =>
      have hy1 : u16 ((y : Int) + 1) = y + 1 := by unfold u16; omega
      rw [hy1, ih (temp >>> 1) (y + 1) _ (Paint_SetPixel_wf p x y _ hwf) (by omega), hstep]
      by_cases h : px = x ∧ py = y
      · obtain ⟨rfl, rfl⟩ := h
        rw [if_neg (by omega), if_pos ⟨rfl, rfl⟩, if_pos (by omega), Nat.sub_self]
      · rw [if_neg h]
        by_cases h2 : px = x ∧ y + 1 ≤ py ∧ py < y + 1 + (m + 1)
        · rw [if_pos h2, if_pos (by omega), glyphBit_shift]
          have e : py - (y + 1) + 1 = py - y := by omega
          rw [e]
        · rw [if_neg h2, if_neg (by omega)]

theorem EPD_ShowChar_loop_zero (F : Fonts) (size1 chr1 color x0 i x y0 : Nat) :
    EPD_ShowChar_loop F size1 chr1 color x0 0 i x y0 = [] := rfl

/-- The pixels read back after the rounds `i, i + 1, ...` of the loop of
`EPD_ShowChar`, for a cell of `size2 / w` bands of `w` columns: byte `j` is drawn
in column `j % w` of band `j / w`, bit `m` in row `m` of the band. -/
theorem EPD_ShowChar_loop_get (F : Fonts) (size1 chr1 color x0 y0 w size2 px py : Nat)
    (hw : w = 6 ∨ w = 8 ∨ w = 12)
    (hsw : (size1 = 8 ∧ size2 = w) ∨ (size1 ≠ 8 ∧ size1 / 2 = w))
    (hdiv : size2 % w = 0)
    (htemp : ∀ i, EPD_ShowChar_temp F size1 chr1 i = some (EPD_ShowChar_byte F size1 chr1 i))
    (hx0 : x0 + w < 65536) (hy0 : y0 + 8 * (size2 / w) ≤ 65536)
    (hpx : px < 65536) (hpy : py < 65536) :
    ∀ (n i : Nat) (p : Paint_t), p.wf → i + n = size2 →
      Paint_GetPixel (Paint_Replay p
          (EPD_ShowChar_loop F size1 chr1 color x0 n i (x0 + i % w) (y0 + 8 * (i / w)))) px py =
        if (x0 ≤ px ∧ px < x0 + w) ∧ (y0 ≤ py ∧ py < y0 + 8 * (size2 / w)) ∧
            i ≤ (py - y0) / 8 * w + (px - x0) then
          (Paint_GetPixel p px py).map (fun _ =>
            glyphBit color (EPD_ShowChar_byte F size1 chr1 ((py - y0) / 8 * w + (px - x0)))
              ((py - y0) % 8))
        else Paint_GetPixel p px py := by
  intro n
  induction n with
  | zero =>
    intro i p _ hi
    rw [EPD_ShowChar_loop_zero, Paint_Replay_nil,
      if_neg (by rcases hw with rfl | rfl | rfl <;> omega)]
  | succ n ih =>
    intro i p hwf hi
    simp only [EPD_ShowChar_loop]
    rw [htemp i]
    simp only []
    have hx1 : u16 (((x0 + i % w : Nat) : Int) + 1) = x0 + i % w + 1 := by
      unfold u16; rcases hw with rfl | rfl | rfl <;> omega
    have hrest : ∀ A B : List GlyphEv,
        A = EPD_ShowChar_loop F size1 chr1 color x0 n (i + 1) x0
          (u16 (((y0 + 8 * (i / w) : Nat) : Int) + 8)) →
        B = EPD_ShowChar_loop F size1 chr1 color x0 n (i + 1)
          (u16 (((x0 + i % w : Nat) : Int) + 1)) (y0 + 8 * (i / w)) →
        (if size1 ≠ 8 ∧ ((u16 (((x0 + i % w : Nat) : Int) + 1) : Nat) : Int) - (x0 : Int) =
            ((size1 / 2 : Nat) : Int) then A else B) =
          EPD_ShowChar_loop F size1 chr1 color x0 n (i + 1) (x0 + (i + 1) % w)
            (y0 + 8 * ((i + 1) / w)) := by
      intro A B hA hB
      cases n with
      | zero =>
        rw [hA, hB]
        split <;> rfl
      | succ m =>
        rw [hx1] at hB ⊢
        by_cases hc : size1 ≠ 8 ∧
            ((x0 + i % w + 1 : Nat) : Int) - (x0 : Int) = ((size1 / 2 : Nat) : Int)
        · rw [if_pos hc, hA]
          have hy1 : u16 (((y0 + 8 * (i / w) : Nat) : Int) + 8) = y0 + 8 * ((i + 1) / w) := by
            unfold u16; rcases hw with rfl | rfl | rfl <;> omega
          have hx2 : x0 = x0 + (i + 1) % w := by
            rcases hw with rfl | rfl | rfl <;> omega
          rw [hy1, ← hx2]
        · rw [if_neg hc, hB]
          have hx2 : x0 + i % w + 1 = x0 + (i + 1) % w := by
            rcases hw with rfl | rfl | rfl <;> omega
          have hy2 : y0 + 8 * (i / w) = y0 + 8 * ((i + 1) / w) := by
            rcases hw with rfl | rfl | rfl <;> omega
          rw [hx2, hy2]
    rw [hrest _ _ rfl rfl, Paint_Replay_append,
      ih (i + 1) _ (Paint_Replay_wf _ p hwf) (by omega), Paint_Replay_read,
      EPD_ShowChar_bits_get _ color px py (by rcases hw with rfl | rfl | rfl <;> omega) hpx hpy
        8 _ _ p hwf (by rcases hw with rfl | rfl | rfl <;> omega)]
    by_cases hR : (x0 ≤ px ∧ px < x0 + w) ∧ (y0 ≤ py ∧ py < y0 + 8 * (size2 / w)) ∧
        i + 1 ≤ (py - y0) / 8 * w + (px - x0)
    · rw [if_pos hR, if_neg (by rcases hw with rfl | rfl | rfl <;> omega),
        if_pos (by rcases hw with rfl | rfl | rfl <;> omega)]
    · rw [if_neg hR]
      by_cases hB : px = x0 + i % w ∧ y0 + 8 * (i / w) ≤ py ∧ py < y0 + 8 * (i / w) + 8
      · rw [if_pos hB, if_pos (by rcases hw with rfl | rfl | rfl <;> omega)]
        have e1 : (py - y0) / 8 * w + (px - x0) = i := by
          rcases hw with rfl | rfl | rfl <;> omega
        have e2 : py - (y0 + 8 * (i / w)) = (py - y0) % 8 := by
          rcases hw with rfl | rfl | rfl <;> omega
        rw [e1, e2]
      · rw [if_neg hB, if_neg (by rcases hw with rfl | rfl | rfl <;> omega)]

theorem EPD_ShowChar_temp_supported (F : Fonts) (size1 chr1 i : Nat)
    (hs : size1 = 8 ∨ size1 = 12 ∨ size1 = 16 ∨ size1 = 24) :
    EPD_ShowChar_temp F size1 chr1 i = some (EPD_ShowChar_byte F size1 chr1 i) := by
  unfold EPD_ShowChar_byte
  rcases hs with rfl | rfl | rfl | rfl <;> simp [EPD_ShowChar_temp]

/-- The pixels read back after `EPD_ShowChar` with a supported size: the `w x h`
cell whose corner is `(x + 1, y + 1)` takes the glyph, byte `(r / 8) * w + c` bit
`r % 8` at column `c` and row `r`; every other pixel is as before. -/
theorem EPD_ShowChar_get (F : Fonts) (p : Paint_t) (x y chr size1 color w h px py : Nat)
    (hwf : p.wf)
    (hsz : (size1 = 8 ∧ w = 6 ∧ h = 8) ∨ (size1 = 12 ∧ w = 6 ∧ h = 16) ∨
      (size1 = 16 ∧ w = 8 ∧ h = 16) ∨ (size1 = 24 ∧ w = 12 ∧ h = 24))
    (hx : x + 1 + w < 65536) (hy : y + 1 + h ≤ 65536) (hpx : px < 65536) (hpy : py < 65536) :
    Paint_GetPixel (EPD_ShowChar F p x y chr size1 color) px py =
      if (x + 1 ≤ px ∧ px < x + 1 + w) ∧ (y + 1 ≤ py ∧ py < y + 1 + h) then
        (Paint_GetPixel p px py).map (fun _ =>
          glyphBit color
            (EPD_ShowChar_byte F size1 (u16 ((chr : Int) - 32))
              ((py - (y + 1)) / 8 * w + (px - (x + 1))))
            ((py - (y + 1)) % 8))
      else Paint_GetPixel p px py := by
  have hx0 : u16 ((x : Int) + 1) = x + 1 := by
    unfold u16; rcases hsz with ⟨-, rfl, -⟩ | ⟨-, rfl, -⟩ | ⟨-, rfl, -⟩ | ⟨-, rfl, -⟩ <;> omega
  have hy0 : u16 ((y : Int) + 1) = y + 1 := by
    unfold u16; rcases hsz with ⟨-, -, rfl⟩ | ⟨-, -, rfl⟩ | ⟨-, -, rfl⟩ | ⟨-, -, rfl⟩ <;> omega
  have hs : size1 = 8 ∨ size1 = 12 ∨ size1 = 16 ∨ size1 = 24 := by
    rcases hsz with ⟨h1, -, -⟩ | ⟨h1, -, -⟩ | ⟨h1, -, -⟩ | ⟨h1, -, -⟩ <;> simp [h1]
  have hsize2 : ∃ size2, (if size1 = 8 then 6
      else u16 (((size1 / 8 + (if size1 % 8 ≠ 0 then 1 else 0)) * (size1 / 2) : Nat) : Int))
        = size2 ∧ size2 % w = 0 ∧ 8 * (size2 / w) = h ∧
        ((size1 = 8 ∧ size2 = w) ∨ (size1 ≠ 8 ∧ size1 / 2 = w)) := by
    rcases hsz with ⟨rfl, rfl, rfl⟩ | ⟨rfl, rfl, rfl⟩ | ⟨rfl, rfl, rfl⟩ | ⟨rfl, rfl, rfl⟩
    · exact ⟨6, by decide, by decide, by decide, by decide⟩
    · exact ⟨12, by decide, by decide, by decide, by decide⟩
    · exact ⟨16, by decide, by decide, by decide, by decide⟩
    · exact ⟨36, by decide, by decide, by decide, by decide⟩
  obtain ⟨size2, hsize2, hdiv, hh, hsw⟩ := hsize2
  have hw : w = 6 ∨ w = 8 ∨ w = 12 := by
    rcases hsz with ⟨-, h1, -⟩ | ⟨-, h1, -⟩ | ⟨-, h1, -⟩ | ⟨-, h1, -⟩ <;> simp [h1]
  have hloop := EPD_ShowChar_loop_get F size1 (u16 ((chr : Int) - 32)) color (x + 1) (y + 1) w
    size2 px py hw hsw hdiv
    (fun i => EPD_ShowChar_temp_supported F size1 _ i hs) hx (by rw [hh]; exact hy) hpx hpy
    size2 0 p hwf (by omega)
  rw [Nat.zero_mod, Nat.zero_div, Nat.mul_zero, Nat.add_zero, Nat.add_zero, hh] at hloop
  unfold EPD_ShowChar EPD_ShowChar_events
  simp only []
  rw [hx0, hy0, hsize2, hloop]
  by_cases hc : (x + 1 ≤ px ∧ px < x + 1 + w) ∧ (y + 1 ≤ py ∧ py < y + 1 + h)
  · rw [if_pos hc, if_pos ⟨hc.1, hc.2, Nat.zero_le _⟩]
  · rw [if_neg hc, if_neg (fun h' => hc ⟨h'.1, h'.2.1⟩)]

/-- C16: with a supported size (cell `w x h` = 6 x 8, 6 x 16, 8 x 16, 12 x 24 for sizes 8,
12, 16, 24) and a cell that does not leave the 16-bit coordinate range,
`EPD_ShowChar` renders opaquely: every stored pixel of the cell is written,
whatever it held before. A pixel whose glyph bit is 1 reads back as the
requested colour (0 for BLACK, 1 otherwise) and a pixel whose glyph bit is 0
reads back as the inverse (1 for BLACK, 0 for any other colour). -/
theorem EPD_ShowChar_opaque (F : Fonts) (p : Paint_t) (x y chr size1 color w h : Nat)
    (hwf : p.wf)
    (hsz : (size1 = 8 ∧ w = 6 ∧ h = 8) ∨ (size1 = 12 ∧ w = 6 ∧ h = 16) ∨
      (size1 = 16 ∧ w = 8 ∧ h = 16) ∨ (size1 = 24 ∧ w = 12 ∧ h = 24))
    (hx : x + 1 + w < 65536) (hy : y + 1 + h ≤ 65536) :
    ∀ c r, c < w → r < h → Paint_GetPixel p (x + 1 + c) (y + 1 + r) ≠ none →
      Paint_GetPixel (EPD_ShowChar F p x y chr size1 color) (x + 1 + c) (y + 1 + r) =
        some (if (EPD_ShowChar_byte F size1 (u16 ((chr : Int) - 32)) (r / 8 * w + c)).testBit
                (r % 8)
              then decide (color ≠ BLACK) else decide (color = BLACK)) := by
  intro c r hc hr hne
  rw [EPD_ShowChar_get F p x y chr size1 color w h (x + 1 + c) (y + 1 + r) hwf hsz hx hy
    (by omega) (by omega), if_pos (by omega)]
  have e1 : y + 1 + r - (y + 1) = r := by omega
  have e2 : x + 1 + c - (x + 1) = c := by omega
  rw [e1, e2]
  cases hg : Paint_GetPixel p (x + 1 + c) (y + 1 + r) with
  | none => exact absurd hg hne
  | some b => rfl

/-- Instance of C16: `'A'` in size 16 and colour BLACK at (10, 10) on a white 400 x 300
framebuffer, every glyph byte being 0x81: the pixel (11, 11) (bit 0 of byte 0,
set) reads back as 0 and the pixel (11, 12) (bit 1, clear) as 1. -/
theorem EPD_ShowChar_opaque_witness :
    ((demoPaint 0).wf ∧ 10 + 1 + 8 < 65536 ∧ 10 + 1 + 16 ≤ 65536) ∧
    Paint_GetPixel (EPD_ShowChar demoFonts (demoPaint 0) 10 10 65 16 BLACK) 11 11 = some false ∧
    Paint_GetPixel (EPD_ShowChar demoFonts (demoPaint 0) 10 10 65 16 BLACK) 11 12 = some true :=
  ⟨⟨demoPaint_wf 0 (by norm_num), by norm_num, by norm_num⟩,
   EPD_ShowChar_opaque demoFonts (demoPaint 0) 10 10 65 16 BLACK 8 16
     (demoPaint_wf 0 (by norm_num)) (Or.inr (Or.inr (Or.inl ⟨rfl, rfl, rfl⟩))) (by norm_num)
     (by norm_num) 0 0 (by norm_num) (by norm_num) (by decide),
   EPD_ShowChar_opaque demoFonts (demoPaint 0) 10 10 65 16 BLACK 8 16
     (demoPaint_wf 0 (by norm_num)) (Or.inr (Or.inr (Or.inl ⟨rfl, rfl, rfl⟩))) (by norm_num)
     (by norm_num) 0 1 (by norm_num) (by norm_num) (by decide)⟩

/-- C19 (failing input): on the line from (0, 0) to (2, 1) the code plots (0, 0)
and (1, 1) and stops, while the classic algorithm, which samples the doubled
error once per step, plots (0, 0), (1, 1) and (2, 1): the two pixel sequences
differ, already in length. The code tests the updated `Esp` a second time
after the X step has changed it. -/
theorem EPD_DrawLine_not_classic (fuel : Nat) :
    ∃ L C, EPD_DrawLine_calls (fuel + 3) 0 0 2 1 = some L ∧
      classicBresenham (fuel + 3) 0 0 2 1 = some C ∧
      L = [(0, 0), (1, 1)] ∧ C = [(0, 0), (1, 1), (2, 1)] ∧ L ≠ C ∧ L.length < C.length := by
  refine ⟨[(0, 0), (1, 1)], [(0, 0), (1, 1), (2, 1)], rfl, rfl, rfl, rfl, ?_, ?_⟩
  · decide
  · decide

/-! ## The controller's view of the transport helpers -/

theorem decode_WR_REG (d reg : Nat) (rest : List Ev) :
    decode d (EPD_WR_REG true reg ++ rest) = Msg.cmd reg :: decode 0 rest := by
  simp [EPD_WR_REG, EPD_WriteByte, decode]

theorem decode_WR_DATA8 (d b : Nat) (rest : List Ev) :
    decode d (EPD_WR_DATA8 true b ++ rest) = Msg.data b :: decode 1 rest := by
  simp [EPD_WR_DATA8, EPD_WriteByte, decode]

theorem decode_ReadBusy (d : Nat) (rest : List Ev) :
    decode d (EPD_ReadBusy ++ rest) = Msg.busy :: decode d rest := by
  simp [EPD_ReadBusy, decode]

theorem decode_RESET (d : Nat) (rest : List Ev) :
    decode d (EPD_RESET ++ rest) =
      Msg.reset 1 :: Msg.pause 100 :: Msg.reset 0 :: Msg.pause 10 :: Msg.reset 1 ::
        Msg.pause 10 :: decode d rest := by
  simp [EPD_RESET, decode]

theorem decode_WR_REG_nil (d reg : Nat) :
    decode d (EPD_WR_REG true reg) = [Msg.cmd reg] := by
  simp [EPD_WR_REG, EPD_WriteByte, decode]

theorem decode_WR_DATA8_nil (d b : Nat) :
    decode d (EPD_WR_DATA8 true b) = [Msg.data b] := by
  simp [EPD_WR_DATA8, EPD_WriteByte, decode]

theorem decode_ReadBusy_nil (d : Nat) : decode d EPD_ReadBusy = [Msg.busy] := by
  simp [EPD_ReadBusy, decode]

theorem u8_complement (b : Nat) (hb : b < 256) : u8 (-((b : Nat) : Int) - 1) = 255 - b := by
  unfold u8
  omega

theorem decode_invert_loop (Image : Nat → Nat) (rest : List Ev) :
    ∀ n i d, decode d (EPD_invert_loop true Image i n ++ rest) =
      (List.range n).map (fun k => Msg.data (255 - Image (i + k) % 256)) ++
        decode (if n = 0 then d else 1) rest := by
  intro n
  induction n with
  | zero => intro i d; simp [EPD_invert_loop]
  | succ n ih =>
    intro i d
    rw [EPD_invert_loop, List.append_assoc, decode_WR_DATA8, ih,
      u8_complement _ (Nat.mod_lt _ (by norm_num)), List.range_succ_eq_map]
    simp only [List.map_cons, List.map_map, List.cons_append, Nat.add_zero]
    have e : (if n = 0 then 1 else 1) = 1 := by split <;> rfl
    rw [e, if_neg (Nat.succ_ne_zero n)]
    congr 2
    apply List.map_congr_left
    intro k _
    simp only [Function.comp, Nat.succ_eq_add_one]
    rw [show i + 1 + k = i + (k + 1) by omega]

theorem decode_WR_DATA_BUFFER (Image : Nat → Nat) (n d : Nat) (rest : List Ev) :
    decode d (EPD_WR_DATA_BUFFER true Image n ++ rest) =
      (List.range n).map (fun k => Msg.data (Image k % 256)) ++
        decode (if n = 0 then d else 1) rest := by
  by_cases hn : n = 0
  · subst hn; simp [EPD_WR_DATA_BUFFER]
  · simp [EPD_WR_DATA_BUFFER, EPD_WriteBytes, hn, decode, Function.comp]

theorem decode_stream (v : Panel) (Image : Nat → Nat) (n d : Nat) (rest : List Ev) :
    decode d (EPD_stream true v Image n ++ rest) =
      ((List.range n).map (fun i => Panel.sent v (Image i % 256))).map Msg.data ++
        decode (if n = 0 then d else 1) rest := by
  rw [List.map_map]
  cases v
  · exact decode_WR_DATA_BUFFER Image n d rest
  · have h := decode_invert_loop Image rest n 0 d
    simp only [Nat.zero_add] at h
    exact h

theorem dataRun_map_data (bs : List Nat) (c : Nat) (rest : List Msg) :
    dataRun (bs.map Msg.data ++ Msg.cmd c :: rest) = bs := by
  induction bs with
  | nil => simp [dataRun]
  | cons b bs ih => simp [dataRun, ih]

theorem dataAfter_cmd_eq (c : Nat) (r : List Msg) :
    dataAfter c (Msg.cmd c :: r) = dataRun r := by
  rw [dataAfter, if_pos rfl]

theorem dataAfter_cmd_ne (c b : Nat) (r : List Msg) (h : b ≠ c) :
    dataAfter c (Msg.cmd b :: r) = dataAfter c r := by
  rw [dataAfter, if_neg h]

theorem dataAfter_data (c b : Nat) (r : List Msg) :
    dataAfter c (Msg.data b :: r) = dataAfter c r := by
  rw [dataAfter]
  intro b1 h
  cases h

theorem dataRun_stream (v : Panel) (Image : Nat → Nat) (n d reg : Nat) (rest : List Ev) :
    dataRun (decode d (EPD_stream true v Image n ++ (EPD_WR_REG true reg ++ rest))) =
      (List.range n).map (fun i => Panel.sent v (Image i % 256)) := by
  rw [decode_stream, decode_WR_REG, dataRun_map_data]

theorem decode_EPD_Update (v : Panel) (d : Nat) :
    decode d (EPD_Update true v) =
      [Msg.cmd 0x22, Msg.data (match v with | Panel.inch_4_2 => 0xF7 | Panel.inch_2_13 => 0xF4),
        Msg.cmd 0x20, Msg.busy] := by
  unfold EPD_Update
  rw [decode_WR_REG, decode_WR_DATA8, decode_WR_REG, decode_ReadBusy_nil]

theorem decode_EPD_Update_Fast (d : Nat) :
    decode d (EPD_Update_Fast true) =
      [Msg.cmd 0x22, Msg.data 0xC7, Msg.cmd 0x20, Msg.busy] := by
  unfold EPD_Update_Fast
  rw [decode_WR_REG, decode_WR_DATA8, decode_WR_REG, decode_ReadBusy_nil]

/-- C11: with the SPI device attached, the data bytes that the controller receives
after the RAM-write command 0x24 are, for `EPD_Display`, `EPD_Display_Fast` and
`EPD_Display_Part`, the bytes `Image[0]`, `Image[1]`, ... in index order, each
complemented (`255 - b`) on the 2.13 inch panel and unchanged on the 4.2 inch
panel; there are `ceil(EPD_W / 8) * EPD_H` of them for the full-frame functions
and `ceil(sizex / 8) * sizey` for the partial one. The full-frame traces are
the command 0x24, these bytes, and the update trigger of the function. The
functions only read `Image`: their effect is the transport trace. -/
theorem EPD_Display_polarity (v : Panel) (Image : Nat → Nat) (d x y sizex sizey : Nat) :
    (dataAfter 0x24 (decode d (EPD_Display true v Image)) =
        (List.range (EPD_frameBytes v)).map (fun i => Panel.sent v (Image i % 256))) ∧
    (dataAfter 0x24 (decode d (EPD_Display_Fast true v Image)) =
        (List.range (EPD_frameBytes v)).map (fun i => Panel.sent v (Image i % 256))) ∧
    (dataAfter 0x24 (decode d (EPD_Display_Part true v x y sizex sizey Image)) =
        (List.range ((if sizex % 8 = 0 then sizex / 8 else sizex / 8 + 1) * sizey)).map
          (fun i => Panel.sent v (Image i % 256))) ∧
    (decode d (EPD_Display true v Image) =
        Msg.cmd 0x24 :: (((List.range (EPD_frameBytes v)).map
          (fun i => Panel.sent v (Image i % 256))).map Msg.data ++
          [Msg.cmd 0x22, Msg.data (match v with | Panel.inch_4_2 => 0xF7 | Panel.inch_2_13 => 0xF4),
            Msg.cmd 0x20, Msg.busy])) ∧
    (decode d (EPD_Display_Fast true v Image) =
        Msg.cmd 0x24 :: (((List.range (EPD_frameBytes v)).map
          (fun i => Panel.sent v (Image i % 256))).map Msg.data ++
          [Msg.cmd 0x22, Msg.data 0xC7, Msg.cmd 0x20, Msg.busy])) ∧
    (∀ b, Panel.sent Panel.inch_2_13 (b % 256) + b % 256 = 255 ∧
      Panel.sent Panel.inch_4_2 (b % 256) = b % 256) := by
  refine ⟨?_, ?_, ?_, ?_, ?_, ?_⟩
  · unfold EPD_Display EPD_Update
    rw [decode_WR_REG, dataAfter_cmd_eq, dataRun_stream]
  · unfold EPD_Display_Fast EPD_Update_Fast
    rw [decode_WR_REG, dataAfter_cmd_eq, dataRun_stream]
  · unfold EPD_Display_Part EPD_Address_Set EPD_SetCursor EPD_Update_Part
    simp only [List.append_assoc, decode_WR_REG, decode_WR_DATA8]
    simp only [dataAfter_data, dataAfter_cmd_ne 0x24 0x3C _ (by decide),
      dataAfter_cmd_ne 0x24 0x21 _ (by decide), dataAfter_cmd_ne 0x24 0x11 _ (by decide),
      dataAfter_cmd_ne 0x24 0x44 _ (by decide), dataAfter_cmd_ne 0x24 0x45 _ (by decide),
      dataAfter_cmd_ne 0x24 0x4E _ (by decide), dataAfter_cmd_ne 0x24 0x4F _ (by decide),
      dataAfter_cmd_eq, dataRun_stream]
  · unfold EPD_Display
    rw [decode_WR_REG, decode_stream]
    congr 2
  · unfold EPD_Display_Fast
    rw [decode_WR_REG, decode_stream]
    congr 2
  · intro b
    refine ⟨?_, rfl⟩
    show 255 - b % 256 + b % 256 = 255
    omega

/-! ## The full clear -/

theorem decode_append_WR_REG (reg : Nat) (rest : List Ev) :
    ∀ (a : List Ev) (d : Nat), decode d (a ++ (EPD_WR_REG true reg ++ rest)) =
      decode d a ++ Msg.cmd reg :: decode 0 rest := by
  intro a
  induction a with
  | nil => intro d; rw [List.nil_append, decode_WR_REG]; rfl
  | cons e a ih =>
    intro d
    cases e <;> simp [decode, ih]

theorem EPD_WR_DATA_REPEAT_loop_spec (data : Nat) :
    ∀ fuel remaining, (remaining + 127) / 128 < fuel →
      ∃ l, EPD_WR_DATA_REPEAT_loop data fuel remaining = some l ∧
        ∀ rest, decode 1 (l ++ rest) =
          List.replicate remaining (Msg.data data) ++ decode 1 rest := by
  intro fuel
  induction fuel with
  | zero => intro remaining h; omega
  | succ fuel ih =>
    intro remaining h
    rw [EPD_WR_DATA_REPEAT_loop]
    by_cases hr : remaining > 0
    · rw [if_pos hr]
      by_cases hc : remaining > 128
      · obtain ⟨l, hl, hd⟩ := ih (remaining - 128) (by omega)
        refine ⟨Ev.transmit (List.replicate 128 data) :: l, ?_, ?_⟩
        · simp only [if_pos hc, hl, Option.map_some']
        · intro rest
          rw [List.cons_append, decode, hd, List.map_replicate, if_neg (by decide),
            ← List.append_assoc, ← List.replicate_add,
            show 128 + (remaining - 128) = remaining by omega]
      · obtain ⟨l, hl, hd⟩ := ih (remaining - remaining) (by omega)
        refine ⟨Ev.transmit (List.replicate remaining data) :: l, ?_, ?_⟩
        · simp only [if_neg hc, hl, Option.map_some']
        · intro rest
          rw [List.cons_append, decode, hd, List.map_replicate, if_neg (by decide),
            ← List.append_assoc, ← List.replicate_add,
            show remaining + (remaining - remaining) = remaining by omega]
    · rw [if_neg hr]
      have h0 : remaining = 0 := by omega
      subst h0
      exact ⟨[], rfl, fun rest => rfl⟩

theorem EPD_WR_DATA_REPEAT_spec (fuel data count : Nat) (hf : (count + 127) / 128 < fuel) :
    ∃ l, EPD_WR_DATA_REPEAT fuel true data count = some l ∧
      ∀ d reg rest, decode d (l ++ (EPD_WR_REG true reg ++ rest)) =
        List.replicate count (Msg.data data) ++ Msg.cmd reg :: decode 0 rest := by
  unfold EPD_WR_DATA_REPEAT
  by_cases hc : count = 0
  · subst hc
    refine ⟨[], by simp, ?_⟩
    intro d reg rest
    rw [List.nil_append, decode_WR_REG]
    rfl
  · obtain ⟨l, hl, hd⟩ := EPD_WR_DATA_REPEAT_loop_spec data fuel count hf
    refine ⟨[Ev.dc 1, Ev.cs 0] ++ (l ++ [Ev.cs 1]), by simp [hc, hl], ?_⟩
    intro d reg rest
    have e : decode d (([Ev.dc 1, Ev.cs 0] ++ (l ++ [Ev.cs 1])) ++ (EPD_WR_REG true reg ++ rest)) =
        decode 1 (l ++ (Ev.cs 1 :: (EPD_WR_REG true reg ++ rest))) := by
      simp [decode]
    rw [e, hd, decode, decode_WR_REG]

theorem decode_EPD_Init (d : Nat) :
    decode d (EPD_Init true Panel.inch_4_2) =
      [Msg.reset 1, Msg.pause 100, Msg.reset 0, Msg.pause 10, Msg.reset 1, Msg.pause 10,
        Msg.busy, Msg.cmd 0x12, Msg.busy,
        Msg.cmd 0x21, Msg.data 0x40, Msg.data 0x00, Msg.cmd 0x3C, Msg.data 0x05,
        Msg.cmd 0x11, Msg.data 0x03,
        Msg.cmd 0x44, Msg.data 0, Msg.data 49,
        Msg.cmd 0x45, Msg.data 0, Msg.data 0, Msg.data 43, Msg.data 1,
        Msg.cmd 0x4E, Msg.data 0, Msg.cmd 0x4F, Msg.data 0, Msg.data 0, Msg.busy] ∧
    decode d (EPD_Init true Panel.inch_2_13) =
      [Msg.reset 1, Msg.pause 100, Msg.reset 0, Msg.pause 10, Msg.reset 1, Msg.pause 10,
        Msg.busy, Msg.cmd 0x12, Msg.busy,
        Msg.cmd 0x01, Msg.data 0xF9, Msg.data 0x00, Msg.data 0x00,
        Msg.cmd 0x11, Msg.data 0x03,
        Msg.cmd 0x44, Msg.data 0x00, Msg.data 0x0F,
        Msg.cmd 0x45, Msg.data 0x00, Msg.data 0x00, Msg.data 0xF9, Msg.data 0x00,
        Msg.cmd 0x3C, Msg.data 0x01, Msg.busy,
        Msg.cmd 0x18, Msg.data 0x80,
        Msg.cmd 0x4E, Msg.data 0x00, Msg.cmd 0x4F, Msg.data 0x00, Msg.data 0x00, Msg.busy] :=
  ⟨rfl, rfl⟩

theorem EPD_Init_no_activation (d : Nat) (v : Panel) :
    Msg.cmd 0x20 ∉ decode d (EPD_Init true v) ∧
      Msg.cmd 0x44 ∈ decode d (EPD_Init true v) ∧ Msg.cmd 0x45 ∈ decode d (EPD_Init true v) := by
  cases v
  · rw [(decode_EPD_Init d).1]; decide
  · rw [(decode_EPD_Init d).2]; decide

/-- C12: with the SPI device attached and fuel for the chunk loop, `EPD_Clear` returns
on either panel variant, and the controller receives: the `EPD_Init` sequence
(which holds the window commands 0x44 and 0x45), the command 0x24 and `N`
data bytes 0xFF, the command 0x26 and again `N` data bytes 0xFF, then the
trace of `EPD_Update`: 0x22, the control byte of the full update (0xF7 on the
4.2 inch panel, 0xF4 on the 2.13 inch panel), 0x20 and the wait for the busy
line, where `N = ceil(EPD_W / 8) * EPD_H` (15000 and 3904). The command 0x20
does not occur in the part of the trace before the update trigger. -/
theorem EPD_Clear_trace (v : Panel) (fuel d : Nat)
    (hf : (EPD_frameBytes v + 127) / 128 < fuel) :
    ∃ tr, EPD_Clear fuel true v = some tr ∧
      decode d tr =
        (decode d (EPD_Init true v) ++
          ((Msg.cmd 0x24 :: List.replicate (EPD_frameBytes v) (Msg.data 0xFF)) ++
            (Msg.cmd 0x26 :: List.replicate (EPD_frameBytes v) (Msg.data 0xFF)))) ++
          decode 0 (EPD_Update true v) ∧
      Msg.cmd 0x20 ∉
        decode d (EPD_Init true v) ++
          ((Msg.cmd 0x24 :: List.replicate (EPD_frameBytes v) (Msg.data 0xFF)) ++
            (Msg.cmd 0x26 :: List.replicate (EPD_frameBytes v) (Msg.data 0xFF))) ∧
      Msg.cmd 0x44 ∈ decode d (EPD_Init true v) ∧ Msg.cmd 0x45 ∈ decode d (EPD_Init true v) ∧
      decode 0 (EPD_Update true Panel.inch_4_2) =
        [Msg.cmd 0x22, Msg.data 0xF7, Msg.cmd 0x20, Msg.busy] ∧
      decode 0 (EPD_Update true Panel.inch_2_13) =
        [Msg.cmd 0x22, Msg.data 0xF4, Msg.cmd 0x20, Msg.busy] ∧
      EPD_frameBytes v = ((EPD_W v + 7) / 8) * EPD_H v ∧
      EPD_frameBytes Panel.inch_4_2 = 15000 ∧ EPD_frameBytes Panel.inch_2_13 = 3904 := by
  obtain ⟨l, hl, hd⟩ := EPD_WR_DATA_REPEAT_spec fuel 0xFF (EPD_frameBytes v) hf
  obtain ⟨hno, h44, h45⟩ := EPD_Init_no_activation d v
  refine ⟨EPD_Init true v ++ (EPD_WR_REG true 0x24 ++ (l ++
      (EPD_WR_REG true 0x26 ++ (l ++ EPD_Update true v)))), ?_, ?_, ?_, h44, h45,
      rfl, rfl, ?_, rfl, rfl⟩
  · unfold EPD_Clear
    rw [hl]
  · rw [decode_append_WR_REG, hd, decode_EPD_Update]
    unfold EPD_Update
    rw [hd, decode_WR_DATA8, decode_WR_REG, decode_ReadBusy_nil]
    simp only [List.append_assoc, List.cons_append, List.nil_append]
  · intro hmem
    rw [List.mem_append] at hmem
    rcases hmem with hmem | hmem
    · exact hno hmem
    · rw [List.mem_append, List.mem_cons, List.mem_cons] at hmem
      rcases hmem with (h | h) | h | h
      · cases h
      · cases List.eq_of_mem_replicate h
      · cases h
      · cases List.eq_of_mem_replicate h
  · cases v <;> rfl

/-- C12 (witness): the 2.13 inch panel needs 31 chunks; fuel 32 is enough. -/
theorem EPD_Clear_trace_witness :
    (EPD_frameBytes Panel.inch_2_13 + 127) / 128 < 32 ∧
    ∃ tr, EPD_Clear 32 true Panel.inch_2_13 = some tr ∧
      decode 0 tr =
        (decode 0 (EPD_Init true Panel.inch_2_13) ++
          ((Msg.cmd 0x24 :: List.replicate (EPD_frameBytes Panel.inch_2_13) (Msg.data 0xFF)) ++
            (Msg.cmd 0x26 :: List.replicate (EPD_frameBytes Panel.inch_2_13) (Msg.data 0xFF)))) ++
          [Msg.cmd 0x22, Msg.data 0xF4, Msg.cmd 0x20, Msg.busy] :=
  ⟨by decide,
    (EPD_Clear_trace Panel.inch_2_13 32 0 (by decide)).imp
      (fun _ h => ⟨h.1, h.2.1⟩)⟩

/-! ## The fast initialisation -/

theorem EPD_Init_Fast_4_2_other (mode : Nat) (h1 : mode ≠ 1) (h2 : mode ≠ 2) :
    EPD_Init_Fast true Panel.inch_4_2 mode = EPD_Init_Fast true Panel.inch_4_2 0 := by
  simp only [EPD_Init_Fast, if_neg h1, if_neg h2]
  rfl

/-- C13 (failing input): `EPD_Init_Fast(Fast_Seconds_1_5s)` against
`EPD_Init_Fast(Fast_Seconds_1_s)` on the 2.13 inch panel. The two calls have the
same transport trace: the function does not read `mode`, and both write the two
data bytes 0x64, 0x00 to the register 0x1A. The 4.2 inch function of the same
name writes 0x6E for mode 1 and 0x5A for mode 2. -/
theorem EPD_Init_Fast_2_13_same_trace :
    EPD_Init_Fast true Panel.inch_2_13 1 = EPD_Init_Fast true Panel.inch_2_13 2 ∧
    dataAfter 0x1A (decode 0 (EPD_Init_Fast true Panel.inch_2_13 1)) = [0x64, 0x00] ∧
    dataAfter 0x1A (decode 0 (EPD_Init_Fast true Panel.inch_2_13 2)) = [0x64, 0x00] ∧
    dataAfter 0x1A (decode 0 (EPD_Init_Fast true Panel.inch_4_2 1)) = [0x6E] ∧
    dataAfter 0x1A (decode 0 (EPD_Init_Fast true Panel.inch_4_2 2)) = [0x5A] :=
  ⟨rfl, rfl, rfl, rfl, rfl⟩

/-- The register 0x1A in the traces of `EPD_Init_Fast`, as the code is: the 4.2 inch
function writes one data byte selected by `mode` (0x6E for 1, 0x5A for 2, no
write for any other value), the 2.13 inch function writes 0x64, 0x00 whatever
`mode` is. -/
theorem EPD_Init_Fast_timing (d m m1 m2 : Nat) :
    dataAfter 0x1A (decode d (EPD_Init_Fast true Panel.inch_4_2 1)) = [0x6E] ∧
    dataAfter 0x1A (decode d (EPD_Init_Fast true Panel.inch_4_2 2)) = [0x5A] ∧
    decode d (EPD_Init_Fast true Panel.inch_4_2 1) ≠
      decode d (EPD_Init_Fast true Panel.inch_4_2 2) ∧
    Msg.cmd 0x1A ∉ decode d (EPD_Init_Fast true Panel.inch_4_2 0) ∧
    Msg.cmd 0x1A ∉ decode d (EPD_Init_Fast true Panel.inch_4_2 (m + 3)) ∧
    dataAfter 0x1A (decode d (EPD_Init_Fast true Panel.inch_2_13 m)) = [0x64, 0x00] ∧
    EPD_Init_Fast true Panel.inch_2_13 m1 = EPD_Init_Fast true Panel.inch_2_13 m2 := by
  refine ⟨rfl, rfl, ?_, ?_, ?_, rfl, rfl⟩
  · intro h
    have h1 : dataAfter 0x1A (decode d (EPD_Init_Fast true Panel.inch_4_2 1)) = [0x6E] := rfl
    rw [h] at h1
    cases h1
  · have e : decode d (EPD_Init_Fast true Panel.inch_4_2 0) =
        decode 0 (EPD_Init_Fast true Panel.inch_4_2 0) := rfl
    rw [e]
    decide
  · have e : decode d (EPD_Init_Fast true Panel.inch_4_2 (m + 3)) =
        decode 0 (EPD_Init_Fast true Panel.inch_4_2 0) := by
      rw [EPD_Init_Fast_4_2_other (m + 3) (by omega) (by omega)]
      rfl
    rw [e]
    decide

/-! ## The filled circle is solid -/

/-- From a state with `1 <= XCurrent` and `YCurrent < 65535` no loop variable wraps and the
loop of `EPD_DrawCircle` returns. -/
theorem EPD_DrawCircle_loop_returns (cx cy mode : Nat) :
    ∀ (fuel : Nat) (s : CircleState), 1 ≤ s.XCurrent → s.YCurrent < 65535 →
      s.YCurrent + 1 - s.XCurrent < fuel →
      ∃ L, EPD_DrawCircle_loop cx cy mode fuel s = some L := by
  intro fuel
  induction fuel with
  | zero => intro s _ _ hf; omega
  | succ f ih =>
    intro s hX hY hf
    by_cases hXY : s.XCurrent ≤ s.YCurrent
    · obtain ⟨hnx, hny⟩ := EPD_DrawCircle_next_spec s hXY (by omega) hY
      obtain ⟨L, hL⟩ := ih (EPD_DrawCircle_next s) (by omega) (by omega) (by omega)
      refine ⟨EPD_DrawCircle_round cx cy mode s ++ L, ?_⟩
      simp only [EPD_DrawCircle_loop]
      rw [if_pos hXY, hL]
      rfl
    · refine ⟨[], ?_⟩
      simp only [EPD_DrawCircle_loop]
      rw [if_neg hXY]

/-- With radius 0 the first round draws the centre, `YCurrent--` takes `YCurrent` from 0 to
65535, and the loop goes on: the calls are those of the rounds
`(XCurrent, YCurrent) = (0, 0)` and `(1, 65535)` followed by the calls of the loop
continued from `(2, 65534)`, which returns. -/
theorem EPD_DrawCircle_calls_zero (fuel cx cy mode : Nat) (hf : 65536 < fuel) :
    ∃ L, EPD_DrawCircle_calls fuel cx cy 0 mode =
      some (EPD_DrawCircle_round cx cy mode { XCurrent := 0, YCurrent := 0, Esp := 3 } ++
        (EPD_DrawCircle_round cx cy mode { XCurrent := 1, YCurrent := 65535, Esp := 13 } ++ L)) := by
  obtain ⟨f, rfl⟩ : ∃ f, fuel = f + 2 := ⟨fuel - 2, by omega⟩
  have n0 : EPD_DrawCircle_next { XCurrent := 0, YCurrent := 0, Esp := 3 } =
      { XCurrent := 1, YCurrent := 65535, Esp := 13 } := by decide
  have n1 : EPD_DrawCircle_next { XCurrent := 1, YCurrent := 65535, Esp := 13 } =
      { XCurrent := 2, YCurrent := 65534, Esp := -262113 } := by decide
  obtain ⟨L, hL⟩ := EPD_DrawCircle_loop_returns cx cy mode f
    { XCurrent := 2, YCurrent := 65534, Esp := -262113 } (by decide) (by decide)
    (by simp only; omega)
  refine ⟨L, ?_⟩
  unfold EPD_DrawCircle_calls
  show EPD_DrawCircle_loop cx cy mode (f + 2) { XCurrent := 0, YCurrent := 0, Esp := 3 } = _
  rw [EPD_DrawCircle_loop, if_pos (by decide), n0, EPD_DrawCircle_loop,
    if_pos (by decide), n1, hL]
  rfl

theorem u16_lt (i : Int) : u16 i < 65536 := by
  unfold u16
  omega

theorem EPD_DrawCircle_points_lt (cx cy a b : Nat) :
    ∀ pt ∈ EPD_DrawCircle_points cx cy a b, pt.1 < 65536 ∧ pt.2 < 65536 := by
  intro pt h
  unfold EPD_DrawCircle_points at h
  simp only [List.mem_cons, List.mem_singleton, List.not_mem_nil, or_false] at h
  rcases h with h | h | h | h | h | h | h | h <;>
    (subst h; refine ⟨?_, ?_⟩ <;> (simp only []; unfold u16; omega))

theorem EPD_DrawCircle_span_lt (cx cy a : Nat) :
    ∀ (n s : Nat), ∀ pt ∈ EPD_DrawCircle_span cx cy a s n, pt.1 < 65536 ∧ pt.2 < 65536 := by
  intro n
  induction n with
  | zero => intro s pt h; simp [EPD_DrawCircle_span] at h
  | succ n ih =>
    intro s pt h
    simp only [EPD_DrawCircle_span, List.mem_append] at h
    rcases h with h | h
    · exact EPD_DrawCircle_points_lt cx cy a s pt h
    · exact ih (s + 1) pt h

theorem EPD_DrawCircle_round_lt (cx cy mode : Nat) (s : CircleState) :
    ∀ pt ∈ EPD_DrawCircle_round cx cy mode s, pt.1 < 65536 ∧ pt.2 < 65536 := by
  intro pt h
  unfold EPD_DrawCircle_round at h
  split at h
  · exact EPD_DrawCircle_span_lt cx cy _ _ _ pt h
  · exact EPD_DrawCircle_points_lt cx cy _ _ pt h

theorem EPD_DrawCircle_loop_lt (cx cy mode : Nat) :
    ∀ (fuel : Nat) (s : CircleState) (L : List (Nat × Nat)),
      EPD_DrawCircle_loop cx cy mode fuel s = some L →
      ∀ pt ∈ L, pt.1 < 65536 ∧ pt.2 < 65536 := by
  intro fuel
  induction fuel with
  | zero => intro s L h; simp [EPD_DrawCircle_loop] at h
  | succ f ih =>
    intro s L h pt hpt
    rw [EPD_DrawCircle_loop] at h
    by_cases hXY : s.XCurrent ≤ s.YCurrent
    · rw [if_pos hXY] at h
      cases hl : EPD_DrawCircle_loop cx cy mode f (EPD_DrawCircle_next s) with
      | none => rw [hl] at h; simp at h
      | some l =>
        rw [hl] at h
        simp only [Option.map_some', Option.some.injEq] at h
        rw [← h, List.mem_append] at hpt
        rcases hpt with hpt | hpt
        · exact EPD_DrawCircle_round_lt cx cy mode s pt hpt
        · exact ih _ l hl pt hpt
    · rw [if_neg hXY] at h
      simp only [Option.some.injEq] at h
      rw [← h] at hpt
      simp at hpt

/-- C22 (failing input): `EPD_DrawCircle(50, 50, 0, BLACK, 0)` on a white 400 x 300 framebuffer.
The call returns (after the loop has run on from `YCurrent = 65535`), its pixel
calls include (51, 49) - the second round calls `Paint_SetPixel(50 + 1, 50 + 65535)`
with the sum truncated to 16 bits - and the pixel (51, 49), which is outside
the square `[50, 50] x [50, 50]`, has changed from white to black. The filled mode
likewise calls (51, 51). -/
theorem EPD_DrawCircle_radius_zero (fuel : Nat) (hf : 65536 < fuel) :
    (∃ L, EPD_DrawCircle_calls fuel 50 50 0 0 = some L ∧ (51, 49) ∈ L) ∧
    (∃ L, EPD_DrawCircle_calls fuel 50 50 0 1 = some L ∧ (51, 51) ∈ L) ∧
    Paint_GetPixel (demoPaint 0) 51 49 = some true ∧
    (∃ q, EPD_DrawCircle fuel (demoPaint 0) 50 50 0 BLACK 0 = some q ∧
      Paint_GetPixel q 51 49 = some false) := by
  obtain ⟨L0, hL0⟩ := EPD_DrawCircle_calls_zero fuel 50 50 0 hf
  obtain ⟨L1, hL1⟩ := EPD_DrawCircle_calls_zero fuel 50 50 1 hf
  have hmem0 : ((51 : Nat), (49 : Nat)) ∈
      EPD_DrawCircle_round 50 50 0 { XCurrent := 0, YCurrent := 0, Esp := 3 } ++
        (EPD_DrawCircle_round 50 50 0 { XCurrent := 1, YCurrent := 65535, Esp := 13 } ++ L0) := by
    apply List.mem_append_right
    apply List.mem_append_left
    decide
  refine ⟨⟨_, hL0, hmem0⟩, ⟨_, hL1, ?_⟩, by decide, ?_⟩
  · apply List.mem_append_right
    apply List.mem_append_left
    unfold EPD_DrawCircle_round
    rw [if_pos (by decide), show 65535 + 1 - 1 = 65534 + 1 from rfl, EPD_DrawCircle_span]
    apply List.mem_append_left
    decide
  · refine ⟨_, by unfold EPD_DrawCircle; rw [hL0]; rfl, ?_⟩
    have h16 := EPD_DrawCircle_loop_lt 50 50 0 fuel _ _ hL0
    rw [Paint_GetPixel_SetPixels BLACK 51 49 (by decide) (by decide) _ (demoPaint 0)
      (by decide) h16, if_pos hmem0]
    decide

/-- C22 (instance): fuel 70000. -/
theorem EPD_DrawCircle_radius_zero_witness :
    65536 < 70000 ∧ ∃ L, EPD_DrawCircle_calls 70000 50 50 0 0 = some L ∧ (51, 49) ∈ L :=
  ⟨by decide, (EPD_DrawCircle_radius_zero 70000 (by decide)).1⟩

/-! ## Bit order of the glyph bytes -/

theorem u16_succ (y k : Nat) : u16 ((u16 ((y : Int) + k) : Nat) + 1) = u16 ((y : Int) + (k + 1 : Nat)) := by
  unfold u16
  omega

/-- The eight calls made for one glyph byte, in program order: the `k`-th call
(from 0) is in row `y + k` and its colour is selected by bit `k` of the byte. -/
theorem EPD_ShowChar_bits_eq (x color : Nat) :
    ∀ (n temp y k0 : Nat),
      EPD_ShowChar_bits x color n (temp >>> k0) (u16 ((y : Int) + k0)) =
        (List.range n).map (fun k =>
          GlyphEv.pixel x (u16 ((y : Int) + ((k0 + k : Nat) : Int)))
            (if temp.testBit (k0 + k) then color else (if color = 0 then 1 else 0))) := by
  intro n
  induction n with
  | zero => intro temp y k0; rfl
  | succ n ih =>
    intro temp y k0
    rw [EPD_ShowChar_bits, List.range_succ_eq_map, List.map_cons, List.map_map]
    have e1 : (temp >>> k0) >>> 1 = temp >>> (k0 + 1) := by
      rw [Nat.shiftRight_add]
    have e2 : u16 ((u16 ((y : Int) + k0) : Nat) + 1) = u16 ((y : Int) + ((k0 + 1 : Nat) : Int)) :=
      u16_succ y k0
    have e3 : ((temp >>> k0) &&& 0x01 ≠ 0) ↔ temp.testBit (k0 + 0) = true := by
      rw [and_one_ne_zero_iff, Nat.testBit_shiftRight, Nat.add_zero]
    rw [e1, e2, ih temp y (k0 + 1)]
    congr 1
    · congr 1
      by_cases h : temp.testBit (k0 + 0) = true
      · rw [if_pos (e3.mpr h), if_pos h]
      · rw [if_neg (fun h' => h (e3.mp h')), if_neg h]
    · apply List.map_congr_left
      intro k _
      simp only [Function.comp, Nat.succ_eq_add_one]
      rw [show k0 + 1 + k = k0 + (k + 1) by omega]

/-- C23 (counterexample): with glyph bytes 0x01 (bit 7 clear, bit 0 set) the first
pixel call made for the first byte of the glyph carries the requested colour
and the other seven the inverse: the first pixel is controlled by bit 0, not
by bit 7. -/
theorem EPD_ShowChar_first_pixel_bit0 :
    (EPD_ShowChar_events lsbFonts 0 0 65 8 BLACK).take 9 =
      [GlyphEv.read 8 33 0, GlyphEv.pixel 1 1 BLACK, GlyphEv.pixel 1 2 1, GlyphEv.pixel 1 3 1,
        GlyphEv.pixel 1 4 1, GlyphEv.pixel 1 5 1, GlyphEv.pixel 1 6 1, GlyphEv.pixel 1 7 1,
        GlyphEv.pixel 1 8 1] ∧
    Nat.testBit 0x01 7 = false ∧ Nat.testBit 0x01 0 = true := by
  refine ⟨?_, ?_, ?_⟩
  · decide
  · decide
  · decide

/-- C23 (amended): in every round of the glyph loop of `EPD_ShowChar` the byte is
read and then plotted from the least-significant bit to the most-significant
bit: the `k`-th of the eight pixel calls (from 0) is in row `y0 + k` of the
column and its colour is `color` when bit `k` of the byte is set and `!color`
otherwise, so the first pixel is controlled by bit 0 and the eighth by
bit 7. -/
theorem EPD_ShowChar_lsb_first (F : Fonts) (size1 chr1 color x0 n i x y0 temp : Nat)
    (hy0 : y0 < 65536) (ht : EPD_ShowChar_temp F size1 chr1 i = some temp) :
    ∃ rest, EPD_ShowChar_loop F size1 chr1 color x0 (n + 1) i x y0 =
      GlyphEv.read size1 chr1 i ::
        ((List.range 8).map (fun (k : Nat) =>
          GlyphEv.pixel x (u16 ((y0 : Int) + (k : Int)))
            (if temp.testBit k then color else (if color = 0 then 1 else 0))) ++ rest) := by
  have hb := EPD_ShowChar_bits_eq x color 8 temp y0 0
  have e0 : u16 ((y0 : Int) + ((0 : Nat) : Int)) = y0 := by unfold u16; omega
  rw [Nat.shiftRight_zero, e0] at hb
  simp only [Nat.zero_add] at hb
  rw [EPD_ShowChar_loop, ht]
  simp only []
  rw [hb]
  exact ⟨_, rfl⟩

/-- C23 (instance): size 8, character 'A', glyph bytes 0x01. -/
theorem EPD_ShowChar_lsb_first_witness :
    (1 < 65536 ∧ EPD_ShowChar_temp lsbFonts 8 33 0 = some 1) ∧
    ∃ rest, EPD_ShowChar_loop lsbFonts 8 33 BLACK 1 6 0 1 1 =
      GlyphEv.read 8 33 0 ::
        ((List.range 8).map (fun (k : Nat) =>
          GlyphEv.pixel 1 (u16 (((1 : Nat) : Int) + (k : Int)))
            (if Nat.testBit 1 k then BLACK else (if BLACK = 0 then 1 else 0))) ++ rest) :=
  ⟨⟨by decide, rfl⟩, EPD_ShowChar_lsb_first lsbFonts 8 33 BLACK 1 5 0 1 1 1 (by decide) rfl⟩

/-! ## The RAM window of `EPD_Init` -/

theorem dataAfter_busy (c : Nat) (r : List Msg) : dataAfter c (Msg.busy :: r) = dataAfter c r := by
  rw [dataAfter]
  intro b h
  cases h

theorem dataAfter_reset (c l : Nat) (r : List Msg) :
    dataAfter c (Msg.reset l :: r) = dataAfter c r := by
  rw [dataAfter]
  intro b h
  cases h

theorem dataAfter_pause (c ms : Nat) (r : List Msg) :
    dataAfter c (Msg.pause ms :: r) = dataAfter c r := by
  rw [dataAfter]
  intro b h
  cases h

/-- C24 (failing input): on the 2.13 inch panel `EPD_Init` programs the X byte range
0 .. 15 and the Y range 0 .. 249, while `ceil(EPD_W / 8) - 1 = 31` and
`EPD_H - 1 = 121`: the window holds 16 * 250 = 4000 bytes and `EPD_Clear` and
`EPD_Display` stream `ceil(EPD_W / 8) * EPD_H = 3904` bytes into it. The cursor is
at the origin. On the 4.2 inch panel the window is 0 .. 49 by 0 .. 299, 15000
bytes, as many as are streamed. -/
theorem EPD_Init_window (d : Nat) :
    (dataAfter 0x44 (decode d (EPD_Init true Panel.inch_2_13)) = [0, 15] ∧
      dataAfter 0x45 (decode d (EPD_Init true Panel.inch_2_13)) = [0, 0, 249, 0] ∧
      dataAfter 0x4E (decode d (EPD_Init true Panel.inch_2_13)) = [0] ∧
      dataAfter 0x4F (decode d (EPD_Init true Panel.inch_2_13)) = [0, 0] ∧
      (EPD_W Panel.inch_2_13 + 7) / 8 - 1 = 31 ∧ EPD_H Panel.inch_2_13 - 1 = 121 ∧
      ramWindowBytes (dataAfter 0x44 (decode d (EPD_Init true Panel.inch_2_13)))
        (dataAfter 0x45 (decode d (EPD_Init true Panel.inch_2_13))) = 4000 ∧
      EPD_frameBytes Panel.inch_2_13 = 3904) ∧
    (dataAfter 0x44 (decode d (EPD_Init true Panel.inch_4_2)) =
        [0, (EPD_W Panel.inch_4_2 + 7) / 8 - 1] ∧
      dataAfter 0x45 (decode d (EPD_Init true Panel.inch_4_2)) =
        [0, 0, (EPD_H Panel.inch_4_2 - 1) % 256, (EPD_H Panel.inch_4_2 - 1) / 256] ∧
      dataAfter 0x4E (decode d (EPD_Init true Panel.inch_4_2)) = [0] ∧
      dataAfter 0x4F (decode d (EPD_Init true Panel.inch_4_2)) = [0, 0] ∧
      ramWindowBytes (dataAfter 0x44 (decode d (EPD_Init true Panel.inch_4_2)))
        (dataAfter 0x45 (decode d (EPD_Init true Panel.inch_4_2))) =
          EPD_frameBytes Panel.inch_4_2) := by
  rw [(decode_EPD_Init d).1, (decode_EPD_Init d).2]
  decide

/-! ## The full clear against an all-white frame -/

/-- The bytes of the buffer after `EPD_Full`. -/
theorem EPD_Full_Image (p : Paint_t) (c a : Nat) (h : p.HeightByte * p.WidthByte ≤ 2 ^ 32) :
    (EPD_Full p c).Image a = if a < p.HeightByte * p.WidthByte then c else p.Image a := by
  unfold EPD_Full
  simp only []
  rw [EPD_Full_rows_spec p.WidthByte c a p.HeightByte 0 p.Image
    (by rw [Nat.zero_add]; exact h)]
  rw [Nat.zero_add, Nat.zero_mul]
  by_cases h1 : a < p.HeightByte * p.WidthByte
  · rw [if_pos h1, if_pos ⟨Nat.zero_le _, h1⟩]
  · rw [if_neg h1, if_neg (fun h' => h1 h'.2)]

theorem map_range_const (n c : Nat) (f : Nat → Nat) (h : ∀ i, i < n → f i = c) :
    (List.range n).map f = List.replicate n c := by
  rw [List.eq_replicate_iff]
  refine ⟨by simp, ?_⟩
  intro b hb
  obtain ⟨i, hi, rfl⟩ := List.mem_map.mp hb
  exact h i (List.mem_range.mp hi)

theorem dataAfter_EPD_Display (v : Panel) (Image : Nat → Nat) (d : Nat) :
    dataAfter 0x24 (decode d (EPD_Display true v Image)) =
      (List.range (EPD_frameBytes v)).map (fun i => Panel.sent v (Image i % 256)) := by
  unfold EPD_Display EPD_Update
  rw [decode_WR_REG, dataAfter_cmd_eq, dataRun_stream]

/-- The bytes that `EPD_Display` streams for a frame made by
`Paint_NewImage(buf, EPD_W, EPD_H, rot, bg)` and `EPD_Full(WHITE)`. -/
theorem dataAfter_EPD_Display_white (v : Panel) (buf : Nat → Nat) (rot bg d : Nat) :
    dataAfter 0x24 (decode d (EPD_Display true v
        (EPD_Full (Paint_NewImage buf (EPD_W v) (EPD_H v) rot bg) WHITE).Image)) =
      List.replicate (EPD_frameBytes v) (Panel.sent v 0xFF) := by
  have e : (Paint_NewImage buf (EPD_W v) (EPD_H v) rot bg).HeightByte *
      (Paint_NewImage buf (EPD_W v) (EPD_H v) rot bg).WidthByte = EPD_frameBytes v := by
    cases v <;> simp [Paint_NewImage, EPD_frameBytes, EPD_W, EPD_H]
  have hN : EPD_frameBytes v ≤ 2 ^ 32 := by
    cases v <;> simp [EPD_frameBytes, EPD_W, EPD_H]
  rw [dataAfter_EPD_Display]
  apply map_range_const
  intro i hi
  rw [EPD_Full_Image _ _ _ (by rw [e]; exact hN), e, if_pos hi]
  rfl

/-- The bytes that `EPD_Clear` streams after the command 0x24. -/
theorem dataAfter_EPD_Clear (v : Panel) (fuel d : Nat)
    (hf : (EPD_frameBytes v + 127) / 128 < fuel) :
    ∃ tr, EPD_Clear fuel true v = some tr ∧
      dataAfter 0x24 (decode d tr) = List.replicate (EPD_frameBytes v) 0xFF := by
  obtain ⟨l, hl, hd⟩ := EPD_WR_DATA_REPEAT_spec fuel 0xFF (EPD_frameBytes v) hf
  refine ⟨EPD_Init true v ++ (EPD_WR_REG true 0x24 ++ (l ++
      (EPD_WR_REG true 0x26 ++ (l ++ EPD_Update true v)))), ?_, ?_⟩
  · unfold EPD_Clear
    rw [hl]
  · rw [decode_append_WR_REG, hd]
    have e : List.replicate (EPD_frameBytes v) (Msg.data 0xFF) =
        (List.replicate (EPD_frameBytes v) 0xFF).map Msg.data := by
      rw [List.map_replicate]
    have hrun : dataRun (List.replicate (EPD_frameBytes v) (Msg.data 255) ++
        Msg.cmd 38 :: decode 0 (l ++ EPD_Update true v)) =
          List.replicate (EPD_frameBytes v) 0xFF := by
      rw [e, dataRun_map_data]
    cases v
    · rw [(decode_EPD_Init d).1]
      simp only [List.cons_append, List.nil_append, dataAfter_reset, dataAfter_pause,
        dataAfter_busy, dataAfter_data, dataAfter_cmd_eq,
        dataAfter_cmd_ne 0x24 0x12 _ (by decide), dataAfter_cmd_ne 0x24 0x21 _ (by decide),
        dataAfter_cmd_ne 0x24 0x3C _ (by decide), dataAfter_cmd_ne 0x24 0x11 _ (by decide),
        dataAfter_cmd_ne 0x24 0x44 _ (by decide), dataAfter_cmd_ne 0x24 0x45 _ (by decide),
        dataAfter_cmd_ne 0x24 0x4E _ (by decide), dataAfter_cmd_ne 0x24 0x4F _ (by decide)]
      exact hrun
    · rw [(decode_EPD_Init d).2]
      simp only [List.cons_append, List.nil_append, dataAfter_reset, dataAfter_pause,
        dataAfter_busy, dataAfter_data, dataAfter_cmd_eq,
        dataAfter_cmd_ne 0x24 0x12 _ (by decide), dataAfter_cmd_ne 0x24 0x01 _ (by decide),
        dataAfter_cmd_ne 0x24 0x3C _ (by decide), dataAfter_cmd_ne 0x24 0x11 _ (by decide),
        dataAfter_cmd_ne 0x24 0x44 _ (by decide), dataAfter_cmd_ne 0x24 0x45 _ (by decide),
        dataAfter_cmd_ne 0x24 0x18 _ (by decide),
        dataAfter_cmd_ne 0x24 0x4E _ (by decide), dataAfter_cmd_ne 0x24 0x4F _ (by decide)]
      exact hrun

/-- C25 (failing input): on the 2.13 inch panel `EPD_Clear` streams 3904 bytes 0xFF after
the command 0x24, while `EPD_Display` of a frame prepared with
`Paint_NewImage(buf, EPD_W, EPD_H, rot, bg)` and `EPD_Full(WHITE)` streams 3904
bytes 0x00: `EPD_Display` complements every byte on this panel and `EPD_Clear`
does not. On the 4.2 inch panel both stream 15000 bytes 0xFF. -/
theorem EPD_Clear_vs_white_frame (buf : Nat → Nat) (rot bg fuel d : Nat) :
    (∃ tr, EPD_Clear (fuel + 32) true Panel.inch_2_13 = some tr ∧
      dataAfter 0x24 (decode d tr) = List.replicate 3904 0xFF ∧
      dataAfter 0x24 (decode d (EPD_Display true Panel.inch_2_13
        (EPD_Full (Paint_NewImage buf (EPD_W Panel.inch_2_13) (EPD_H Panel.inch_2_13) rot bg)
          WHITE).Image)) = List.replicate 3904 0x00 ∧
      dataAfter 0x24 (decode d tr) ≠
        dataAfter 0x24 (decode d (EPD_Display true Panel.inch_2_13
          (EPD_Full (Paint_NewImage buf (EPD_W Panel.inch_2_13) (EPD_H Panel.inch_2_13) rot bg)
            WHITE).Image))) ∧
    (∃ tr, EPD_Clear (fuel + 119) true Panel.inch_4_2 = some tr ∧
      dataAfter 0x24 (decode d tr) = List.replicate 15000 0xFF ∧
      dataAfter 0x24 (decode d tr) =
        dataAfter 0x24 (decode d (EPD_Display true Panel.inch_4_2
          (EPD_Full (Paint_NewImage buf (EPD_W Panel.inch_4_2) (EPD_H Panel.inch_4_2) rot bg)
            WHITE).Image))) := by
  constructor
  · obtain ⟨tr, htr, hd⟩ := dataAfter_EPD_Clear Panel.inch_2_13 (fuel + 32) d
      (by rw [show EPD_frameBytes Panel.inch_2_13 = 3904 from rfl]; omega)
    have hw := dataAfter_EPD_Display_white Panel.inch_2_13 buf rot bg d
    rw [show EPD_frameBytes Panel.inch_2_13 = 3904 from rfl] at hd hw
    rw [show Panel.sent Panel.inch_2_13 0xFF = 0x00 from rfl] at hw
    refine ⟨tr, htr, hd, hw, ?_⟩
    rw [hd, hw]
    intro h
    have hm : (0xFF : Nat) ∈ List.replicate 3904 (0xFF : Nat) :=
      List.mem_replicate.mpr ⟨by decide, rfl⟩
    rw [h] at hm
    have h0 := List.eq_of_mem_replicate hm
    omega
  · obtain ⟨tr, htr, hd⟩ := dataAfter_EPD_Clear Panel.inch_4_2 (fuel + 119) d
      (by rw [show EPD_frameBytes Panel.inch_4_2 = 15000 from rfl]; omega)
    have hw := dataAfter_EPD_Display_white Panel.inch_4_2 buf rot bg d
    rw [show EPD_frameBytes Panel.inch_4_2 = 15000 from rfl] at hd hw
    rw [show Panel.sent Panel.inch_4_2 0xFF = 0xFF from rfl] at hw
    exact ⟨tr, htr, hd, by rw [hd, hw]⟩

/-! ## The reset prefix of the initialisation functions -/

/-- C26 (failing input): `EPD_Init_Fast(Fast_Seconds_1_5s)` on the 2.13 inch panel. The
function sends the command 0x12 right after the reset pulse, without the wait
for the busy line in between; the only wait comes after 0x12, and the register
0x18 is written next. `EPD_Init` of the same panel and `EPD_Init_Fast` of the
4.2 inch panel wait before 0x12 and after it. -/
theorem EPD_Init_Fast_2_13_no_first_wait :
    (decode 0 (EPD_Init_Fast true Panel.inch_2_13 1)).take 9 =
      [Msg.reset 1, Msg.pause 100, Msg.reset 0, Msg.pause 10, Msg.reset 1, Msg.pause 10,
        Msg.cmd 0x12, Msg.busy, Msg.cmd 0x18] ∧
    (decode 0 (EPD_Init_Fast true Panel.inch_2_13 1)).take 9 ≠ resetSequence ∧
    (decode 0 (EPD_Init true Panel.inch_2_13)).take 9 = resetSequence ∧
    (decode 0 (EPD_Init_Fast true Panel.inch_4_2 1)).take 9 = resetSequence := by
  refine ⟨rfl, ?_, rfl, rfl⟩
  decide

/-- The first messages of the initialisation functions, as the code is: `EPD_Init` on
both panel variants and `EPD_Init_Fast` on the 4.2 inch panel begin with the
reset pulse, the wait for the busy line, the command 0x12 and a second wait;
the trace of `EPD_Init_Fast` on the 2.13 inch panel has the reset pulse, 0x12
and one wait. -/
theorem EPD_Init_reset_first (d mode : Nat) (v : Panel) :
    (decode d (EPD_Init true v)).take 9 = resetSequence ∧
    (decode d (EPD_Init_Fast true Panel.inch_4_2 mode)).take 9 = resetSequence ∧
    (decode d (EPD_Init_Fast true Panel.inch_2_13 mode)).take 8 =
      [Msg.reset 1, Msg.pause 100, Msg.reset 0, Msg.pause 10, Msg.reset 1, Msg.pause 10,
        Msg.cmd 0x12, Msg.busy] := by
  refine ⟨?_, ?_, rfl⟩
  · cases v
    · rw [(decode_EPD_Init d).1]; rfl
    · rw [(decode_EPD_Init d).2]; rfl
  · unfold EPD_Init_Fast
    simp only []
    rw [decode_RESET, decode_ReadBusy, decode_WR_REG, decode_ReadBusy]
    rfl

/-! ## The RAM window of `EPD_Display_Part` -/

theorem and_0xFF (y : Nat) : y &&& 0xFF = y % 256 :=
  Nat.and_pow_two_sub_one_eq_mod y 8

theorem shift3_and_0xFF (x : Nat) (h : x < 2048) : (x >>> 3) &&& 0xFF = x / 8 := by
  rw [and_0xFF, Nat.shiftRight_eq_div_pow]
  exact Nat.mod_eq_of_lt (by omega)

theorem shift8_and_0xFF (y : Nat) (h : y < 65536) : (y >>> 8) &&& 0xFF = y / 256 := by
  rw [and_0xFF, Nat.shiftRight_eq_div_pow]
  exact Nat.mod_eq_of_lt (by omega)

/-- The controller's view of `EPD_Display_Part`. -/
theorem decode_EPD_Display_Part (v : Panel) (Image : Nat → Nat) (d x y sizex sizey : Nat) :
    ∃ rest, decode d (EPD_Display_Part true v x y sizex sizey Image) =
      [Msg.cmd 0x3C, Msg.data 0x80, Msg.cmd 0x21, Msg.data 0x00, Msg.data 0x00,
        Msg.cmd 0x3C, Msg.data 0x80, Msg.cmd 0x11, Msg.data 0x03,
        Msg.cmd 0x44, Msg.data ((x >>> 3) &&& 0xFF),
          Msg.data ((u16 ((x : Int) + sizex - 1) >>> 3) &&& 0xFF),
        Msg.cmd 0x45, Msg.data (y &&& 0xFF), Msg.data ((y >>> 8) &&& 0xFF),
          Msg.data (u16 ((y : Int) + sizey - 1) &&& 0xFF),
          Msg.data ((u16 ((y : Int) + sizey - 1) >>> 8) &&& 0xFF),
        Msg.cmd 0x4E, Msg.data ((x >>> 3) &&& 0xFF),
        Msg.cmd 0x4F, Msg.data (y &&& 0xFF), Msg.data ((y >>> 8) &&& 0xFF),
        Msg.cmd 0x24] ++
      (((List.range ((if sizex % 8 = 0 then sizex / 8 else sizex / 8 + 1) * sizey)).map
          (fun i => Panel.sent v (Image i % 256))).map Msg.data ++ Msg.cmd 0x22 :: rest) := by
  unfold EPD_Display_Part EPD_Address_Set EPD_SetCursor EPD_Update_Part
  simp only [List.append_assoc, decode_WR_REG, decode_WR_DATA8, decode_stream]
  exact ⟨_, rfl⟩

/-- C27 (counterexample): for `x = 4`, `sizex = 8`, one row, on the 4.2 inch panel the
programmed window is the X bytes 0 .. 1, two bytes, while one byte is
streamed. -/
theorem EPD_Display_Part_unaligned :
    dataAfter 0x44 (decode 0 (EPD_Display_Part true Panel.inch_4_2 4 0 8 1 (fun _ => 0))) =
      [0, 1] ∧
    dataAfter 0x45 (decode 0 (EPD_Display_Part true Panel.inch_4_2 4 0 8 1 (fun _ => 0))) =
      [0, 0, 0, 0] ∧
    ramWindowBytes
      (dataAfter 0x44 (decode 0 (EPD_Display_Part true Panel.inch_4_2 4 0 8 1 (fun _ => 0))))
      (dataAfter 0x45 (decode 0 (EPD_Display_Part true Panel.inch_4_2 4 0 8 1 (fun _ => 0)))) =
        2 ∧
    (dataAfter 0x24
      (decode 0 (EPD_Display_Part true Panel.inch_4_2 4 0 8 1 (fun _ => 0)))).length = 1 := by
  decide

/-- C27 (amended): for a region inside the panel (`sizex >= 1`, `sizey >= 1`) `EPD_Display_Part`
programs the X bytes `x / 8 .. (x + sizex - 1) / 8` and the rows `y .. y + sizey - 1`
(low byte first) with the cursor at `(x / 8, y)`, and streams
`ceil(sizex / 8) * sizey` image bytes. The byte capacity of the window is
`(ceil(sizex / 8) + c) * sizey` with `c = 0` when `x % 8 + (sizex - 1) % 8 < 8` and
`c = 1` otherwise, so it equals the number of streamed bytes exactly when
`x % 8 + (sizex - 1) % 8 < 8`. -/
theorem EPD_Display_Part_window (v : Panel) (Image : Nat → Nat) (d x y sizex sizey : Nat)
    (hsx : 1 ≤ sizex) (hsy : 1 ≤ sizey) (hx : x + sizex ≤ EPD_W v) (hy : y + sizey ≤ EPD_H v) :
    dataAfter 0x44 (decode d (EPD_Display_Part true v x y sizex sizey Image)) =
      [x / 8, (x + sizex - 1) / 8] ∧
    dataAfter 0x45 (decode d (EPD_Display_Part true v x y sizex sizey Image)) =
      [y % 256, y / 256, (y + sizey - 1) % 256, (y + sizey - 1) / 256] ∧
    dataAfter 0x4E (decode d (EPD_Display_Part true v x y sizex sizey Image)) = [x / 8] ∧
    dataAfter 0x4F (decode d (EPD_Display_Part true v x y sizex sizey Image)) =
      [y % 256, y / 256] ∧
    (dataAfter 0x24 (decode d (EPD_Display_Part true v x y sizex sizey Image))).length =
      (if sizex % 8 = 0 then sizex / 8 else sizex / 8 + 1) * sizey ∧
    ramWindowBytes
      (dataAfter 0x44 (decode d (EPD_Display_Part true v x y sizex sizey Image)))
      (dataAfter 0x45 (decode d (EPD_Display_Part true v x y sizex sizey Image))) =
        ((if sizex % 8 = 0 then sizex / 8 else sizex / 8 + 1) +
          (if x % 8 + (sizex - 1) % 8 < 8 then 0 else 1)) * sizey ∧
    (ramWindowBytes
      (dataAfter 0x44 (decode d (EPD_Display_Part true v x y sizex sizey Image)))
      (dataAfter 0x45 (decode d (EPD_Display_Part true v x y sizex sizey Image))) =
        (dataAfter 0x24
          (decode d (EPD_Display_Part true v x y sizex sizey Image))).length ↔
      x % 8 + (sizex - 1) % 8 < 8) := by
  have hW : EPD_W v ≤ 400 := by cases v <;> decide
  have hH : EPD_H v ≤ 300 := by cases v <;> decide
  obtain ⟨rest, hdec⟩ := decode_EPD_Display_Part v Image d x y sizex sizey
  have ex : u16 ((x : Int) + sizex - 1) = x + sizex - 1 := by unfold u16; omega
  have ey : u16 ((y : Int) + sizey - 1) = y + sizey - 1 := by unfold u16; omega
  rw [ex, ey, shift3_and_0xFF x (by omega), shift3_and_0xFF (x + sizex - 1) (by omega),
    and_0xFF y, and_0xFF (y + sizey - 1), shift8_and_0xFF y (by omega),
    shift8_and_0xFF (y + sizey - 1) (by omega)] at hdec
  have h44 : dataAfter 0x44 (decode d (EPD_Display_Part true v x y sizex sizey Image)) =
      [x / 8, (x + sizex - 1) / 8] := by
    rw [hdec]
    simp only [List.cons_append, List.nil_append, dataAfter_data, dataAfter_cmd_eq,
      dataAfter_cmd_ne 0x44 0x3C _ (by decide), dataAfter_cmd_ne 0x44 0x21 _ (by decide),
      dataAfter_cmd_ne 0x44 0x11 _ (by decide), dataRun]
  have h45 : dataAfter 0x45 (decode d (EPD_Display_Part true v x y sizex sizey Image)) =
      [y % 256, y / 256, (y + sizey - 1) % 256, (y + sizey - 1) / 256] := by
    rw [hdec]
    simp only [List.cons_append, List.nil_append, dataAfter_data, dataAfter_cmd_eq,
      dataAfter_cmd_ne 0x45 0x3C _ (by decide), dataAfter_cmd_ne 0x45 0x21 _ (by decide),
      dataAfter_cmd_ne 0x45 0x11 _ (by decide), dataAfter_cmd_ne 0x45 0x44 _ (by decide),
      dataRun]
  have h24 : (dataAfter 0x24
      (decode d (EPD_Display_Part true v x y sizex sizey Image))).length =
      (if sizex % 8 = 0 then sizex / 8 else sizex / 8 + 1) * sizey := by
    rw [hdec]
    simp only [List.cons_append, List.nil_append, dataAfter_data, dataAfter_cmd_eq,
      dataAfter_cmd_ne 0x24 0x3C _ (by decide), dataAfter_cmd_ne 0x24 0x21 _ (by decide),
      dataAfter_cmd_ne 0x24 0x11 _ (by decide), dataAfter_cmd_ne 0x24 0x44 _ (by decide),
      dataAfter_cmd_ne 0x24 0x45 _ (by decide), dataAfter_cmd_ne 0x24 0x4E _ (by decide),
      dataAfter_cmd_ne 0x24 0x4F _ (by decide), dataRun_map_data, List.length_map,
      List.length_range]
  have hcap : ramWindowBytes
      (dataAfter 0x44 (decode d (EPD_Display_Part true v x y sizex sizey Image)))
      (dataAfter 0x45 (decode d (EPD_Display_Part true v x y sizex sizey Image))) =
        ((if sizex % 8 = 0 then sizex / 8 else sizex / 8 + 1) +
          (if x % 8 + (sizex - 1) % 8 < 8 then 0 else 1)) * sizey := by
    rw [h44, h45]
    simp only [ramWindowBytes]
    have e1 : (x + sizex - 1) / 8 + 1 - x / 8 =
        (if sizex % 8 = 0 then sizex / 8 else sizex / 8 + 1) +
          (if x % 8 + (sizex - 1) % 8 < 8 then 0 else 1) := by
      split <;> split <;> omega
    have e2 : (y + sizey - 1) % 256 + 256 * ((y + sizey - 1) / 256) + 1 -
        (y % 256 + 256 * (y / 256)) = sizey := by omega
    rw [e1, e2]
  refine ⟨h44, h45, ?_, ?_, h24, hcap, ?_⟩
  · rw [hdec]
    simp only [List.cons_append, List.nil_append, dataAfter_data, dataAfter_cmd_eq,
      dataAfter_cmd_ne 0x4E 0x3C _ (by decide), dataAfter_cmd_ne 0x4E 0x21 _ (by decide),
      dataAfter_cmd_ne 0x4E 0x11 _ (by decide), dataAfter_cmd_ne 0x4E 0x44 _ (by decide),
      dataAfter_cmd_ne 0x4E 0x45 _ (by decide), dataRun]
  · rw [hdec]
    simp only [List.cons_append, List.nil_append, dataAfter_data, dataAfter_cmd_eq,
      dataAfter_cmd_ne 0x4F 0x3C _ (by decide), dataAfter_cmd_ne 0x4F 0x21 _ (by decide),
      dataAfter_cmd_ne 0x4F 0x11 _ (by decide), dataAfter_cmd_ne 0x4F 0x44 _ (by decide),
      dataAfter_cmd_ne 0x4F 0x45 _ (by decide), dataAfter_cmd_ne 0x4F 0x4E _ (by decide),
      dataRun]
  · rw [hcap, h24]
    by_cases hc : x % 8 + (sizex - 1) % 8 < 8
    · simp only [hc, if_true, Nat.add_zero]
    · simp only [hc, if_false, iff_false]
      rw [Nat.add_mul, Nat.one_mul]
      omega

/-- C27 (instance): the region (50, 50), 100 x 40, on the 4.2 inch panel, as in the
partial-update example of the repository: `x` is not a multiple of 8, the
window is the X bytes 6 .. 18 and its 13 * 40 bytes are the streamed ones. -/
theorem EPD_Display_Part_window_witness :
    (1 ≤ 100 ∧ 1 ≤ 40 ∧ 50 + 100 ≤ EPD_W Panel.inch_4_2 ∧ 50 + 40 ≤ EPD_H Panel.inch_4_2) ∧
    dataAfter 0x44 (decode 0 (EPD_Display_Part true Panel.inch_4_2 50 50 100 40 (fun i => i))) =
      [6, 18] ∧
    dataAfter 0x45 (decode 0 (EPD_Display_Part true Panel.inch_4_2 50 50 100 40 (fun i => i))) =
      [50, 0, 89, 0] ∧
    ramWindowBytes
      (dataAfter 0x44 (decode 0 (EPD_Display_Part true Panel.inch_4_2 50 50 100 40 (fun i => i))))
      (dataAfter 0x45 (decode 0 (EPD_Display_Part true Panel.inch_4_2 50 50 100 40 (fun i => i)))) =
        520 ∧
    (dataAfter 0x24
      (decode 0 (EPD_Display_Part true Panel.inch_4_2 50 50 100 40 (fun i => i)))).length = 520 :=
  ⟨by decide,
    (EPD_Display_Part_window Panel.inch_4_2 (fun i => i) 0 50 50 100 40 (by decide) (by decide)
      (by decide) (by decide)).1,
    (EPD_Display_Part_window Panel.inch_4_2 (fun i => i) 0 50 50 100 40 (by decide) (by decide)
      (by decide) (by decide)).2.1,
    (EPD_Display_Part_window Panel.inch_4_2 (fun i => i) 0 50 50 100 40 (by decide) (by decide)
      (by decide) (by decide)).2.2.2.2.2.1,
    (EPD_Display_Part_window Panel.inch_4_2 (fun i => i) 0 50 50 100 40 (by decide) (by decide)
      (by decide) (by decide)).2.2.2.2.1⟩

/-! ## Bitmaps -/

/-- C28 (failing input): `EPD_ShowPicture(0, 0, 12, 2, BMP, BLACK)` with `BMP[2] = 0x80` and all
other bytes 0. The width 12 is not a multiple of 8, so `x - x0` (a multiple of 8
after each byte) never equals `width` and `y` never advances: all four bytes are
drawn in row 0, at the columns 0 .. 31, and no call is made in row 1. The bit 7
of `BMP[2]`, which belongs to the pixel (0, 1), is drawn at (16, 0). With
`sizex = 16` the same bitmap is drawn in two rows. -/
theorem EPD_ShowPicture_unaligned_width :
    EPD_ShowPicture_calls 0 0 12 2 (fun j => if j = 2 then 0x80 else 0) BLACK =
      (List.range 32).map (fun c => (c, 0, if c = 16 then WHITE else BLACK)) ∧
    (∀ call ∈ EPD_ShowPicture_calls 0 0 12 2 (fun j => if j = 2 then 0x80 else 0) BLACK,
      call.2.1 ≠ 1) ∧
    Paint_GetPixel (demoPaint 0) 1 1 = some true ∧
    Paint_GetPixel
      (EPD_ShowPicture (demoPaint 0) 0 0 12 2 (fun j => if j = 2 then 0x80 else 0) BLACK)
      1 1 = some true ∧
    Paint_GetPixel
      (EPD_ShowPicture (demoPaint 0) 0 0 12 2 (fun j => if j = 2 then 0x80 else 0) BLACK)
      17 0 = some false ∧
    EPD_ShowPicture_calls 0 0 16 2 (fun j => if j = 2 then 0x80 else 0) BLACK =
      (List.range 16).map (fun c => (c, 0, BLACK)) ++
        (List.range 16).map (fun c => (c, 1, if c = 0 then WHITE else BLACK)) := by
  refine ⟨?_, ?_, ?_, ?_, ?_, ?_⟩
  · decide
  · decide
  · decide
  · decide
  · decide
  · decide

/-! ## The coordinate transform as a bijection -/

/-- C29: for a framebuffer created by `Paint_NewImage(buf, W, H, rot, bg)` with 16-bit `W`,
`H` and `rot` one of 0, 90, 180, 270, the transform of `Paint_SetPixel` maps the
logical rectangle `[0, Paint.Width) x [0, Paint.Height)` one-to-one onto the
physical rectangle `[0, W) x [0, H)`: every logical pixel of the rectangle has
a physical point inside the frame (it is stored, not dropped), every
physical point of the frame is the image of a logical pixel of the
rectangle, two logical pixels with the same physical point are equal, and two
logical pixels with the same byte index and the same bit position are
equal. -/
theorem Paint_SetPixel_XY_bijective (buf : Nat → Nat) (W H rot bg : Nat) (hW : W < 65536)
    (hH : H < 65536) (hbg : bg < 65536)
    (hrot : rot = 0 ∨ rot = 90 ∨ rot = 180 ∨ rot = 270) :
    (∀ x y, x < (Paint_NewImage buf W H rot bg).Width →
      y < (Paint_NewImage buf W H rot bg).Height →
      ∃ X Y, Paint_SetPixel_XY (Paint_NewImage buf W H rot bg) x y = some (X, Y) ∧
        X < W ∧ Y < H ∧
        Paint_SetPixel_Addr (Paint_NewImage buf W H rot bg) x y =
          some (X / 8 + Y * (Paint_NewImage buf W H rot bg).WidthByte) ∧
        Paint_GetPixel (Paint_NewImage buf W H rot bg) x y ≠ none) ∧
    (∀ X Y, X < W → Y < H →
      ∃ x y, x < (Paint_NewImage buf W H rot bg).Width ∧
        y < (Paint_NewImage buf W H rot bg).Height ∧
        Paint_SetPixel_XY (Paint_NewImage buf W H rot bg) x y = some (X, Y)) ∧
    (∀ x y x1 y1, x < (Paint_NewImage buf W H rot bg).Width →
      y < (Paint_NewImage buf W H rot bg).Height →
      x1 < (Paint_NewImage buf W H rot bg).Width →
      y1 < (Paint_NewImage buf W H rot bg).Height →
      Paint_SetPixel_XY (Paint_NewImage buf W H rot bg) x y =
        Paint_SetPixel_XY (Paint_NewImage buf W H rot bg) x1 y1 →
      x = x1 ∧ y = y1) ∧
    (∀ x y x1 y1 X Y X1 Y1, x < (Paint_NewImage buf W H rot bg).Width →
      y < (Paint_NewImage buf W H rot bg).Height →
      x1 < (Paint_NewImage buf W H rot bg).Width →
      y1 < (Paint_NewImage buf W H rot bg).Height →
      Paint_SetPixel_XY (Paint_NewImage buf W H rot bg) x y = some (X, Y) →
      Paint_SetPixel_XY (Paint_NewImage buf W H rot bg) x1 y1 = some (X1, Y1) →
      X / 8 + Y * (Paint_NewImage buf W H rot bg).WidthByte =
        X1 / 8 + Y1 * (Paint_NewImage buf W H rot bg).WidthByte →
      7 - X % 8 = 7 - X1 % 8 →
      x = x1 ∧ y = y1) := by
  have hWB : W ≤ 8 * (if W % 8 = 0 then W / 8 else W / 8 + 1) := by split <;> omega
  have hWB2 : (if W % 8 = 0 then W / 8 else W / 8 + 1) ≤ 8192 := by split <;> omega
  have hstored : ∀ x y, x < (Paint_NewImage buf W H rot bg).Width →
      y < (Paint_NewImage buf W H rot bg).Height →
      ∃ X Y, Paint_SetPixel_XY (Paint_NewImage buf W H rot bg) x y = some (X, Y) ∧
        X < W ∧ Y < H := by
    intro x y hx hy
    rcases hrot with rfl | rfl | rfl | rfl
    · exact ⟨x, y, rfl, hx, hy⟩
    · refine ⟨W - y - 1, x, ?_, ?_, hx⟩
      · have hy' : y < W := hy
        show some (u16 ((W : Int) - y - 1), x) = some (W - y - 1, x)
        have : u16 ((W : Int) - y - 1) = W - y - 1 := by unfold u16; omega
        rw [this]
      · have hy' : y < W := hy
        omega
    · have hx' : x < W := hx
      have hy' : y < H := hy
      refine ⟨W - x - 1, H - y - 1, ?_, by omega, by omega⟩
      show some (u16 ((W : Int) - x - 1), u16 ((H : Int) - y - 1)) = some (W - x - 1, H - y - 1)
      have e1 : u16 ((W : Int) - x - 1) = W - x - 1 := by unfold u16; omega
      have e2 : u16 ((H : Int) - y - 1) = H - y - 1 := by unfold u16; omega
      rw [e1, e2]
    · have hx' : x < H := hx
      have hy' : y < W := hy
      refine ⟨y, H - x - 1, ?_, hy', by omega⟩
      show some (y, u16 ((H : Int) - x - 1)) = some (y, H - x - 1)
      have e2 : u16 ((H : Int) - x - 1) = H - x - 1 := by unfold u16; omega
      rw [e2]
  have hwf : (Paint_NewImage buf W H rot bg).wf :=
    Paint_NewImage_wf buf W H rot bg hW hH (by rcases hrot with rfl | rfl | rfl | rfl <;> decide)
      hbg
  have hlt : ∀ x y, x < (Paint_NewImage buf W H rot bg).Width →
      y < (Paint_NewImage buf W H rot bg).Height → x < 65536 ∧ y < 65536 := by
    intro x y hx hy
    have h1 : (Paint_NewImage buf W H rot bg).Width < 65536 := hwf.1.1
    have h2 : (Paint_NewImage buf W H rot bg).Height < 65536 := hwf.1.2.1
    omega
  have hinj : ∀ x y x1 y1, x < (Paint_NewImage buf W H rot bg).Width →
      y < (Paint_NewImage buf W H rot bg).Height →
      x1 < (Paint_NewImage buf W H rot bg).Width →
      y1 < (Paint_NewImage buf W H rot bg).Height →
      Paint_SetPixel_XY (Paint_NewImage buf W H rot bg) x y =
        Paint_SetPixel_XY (Paint_NewImage buf W H rot bg) x1 y1 →
      x = x1 ∧ y = y1 := by
    intro x y x1 y1 hx hy hx1 hy1 h
    obtain ⟨X, Y, hXY, -, -⟩ := hstored x y hx hy
    have h1 : Paint_SetPixel_XY (Paint_NewImage buf W H rot bg) x1 y1 = some (X, Y) := by
      rw [← h, hXY]
    have := Paint_SetPixel_XY_inj _ x y x1 y1 (X, Y) hwf.1 (hlt x y hx hy).1 (hlt x y hx hy).2
      (hlt x1 y1 hx1 hy1).1 (hlt x1 y1 hx1 hy1).2 hXY h1
    exact ⟨this.1.symm, this.2.symm⟩
  refine ⟨?_, ?_, hinj, ?_⟩
  · intro x y hx hy
    obtain ⟨X, Y, hXY, hX, hY⟩ := hstored x y hx hy
    have hno : ¬ (X ≥ (Paint_NewImage buf W H rot bg).WidthMemory ∨
        Y ≥ (Paint_NewImage buf W H rot bg).HeightMemory) := by
      show ¬ (X ≥ W ∨ Y ≥ H)
      omega
    have hsmall : X / 8 + Y * (Paint_NewImage buf W H rot bg).WidthByte < 2 ^ 32 := by
      show X / 8 + Y * (if W % 8 = 0 then W / 8 else W / 8 + 1) < 2 ^ 32
      have : Y * (if W % 8 = 0 then W / 8 else W / 8 + 1) ≤ 65535 * 8192 :=
        Nat.mul_le_mul (by omega) hWB2
      omega
    refine ⟨X, Y, hXY, hX, hY, ?_, ?_⟩
    · unfold Paint_SetPixel_Addr
      rw [hXY]
      simp only []
      rw [if_neg hno, Nat.mod_eq_of_lt hsmall]
    · unfold Paint_GetPixel
      rw [hXY]
      simp only []
      rw [if_neg hno]
      exact fun h => Option.noConfusion h
  · intro X Y hX hY
    rcases hrot with rfl | rfl | rfl | rfl
    · exact ⟨X, Y, hX, hY, rfl⟩
    · refine ⟨Y, W - 1 - X, hY, ?_, ?_⟩
      · show W - 1 - X < W
        omega
      · show some (u16 ((W : Int) - ((W - 1 - X : Nat) : Int) - 1), Y) = some (X, Y)
        have : u16 ((W : Int) - ((W - 1 - X : Nat) : Int) - 1) = X := by unfold u16; omega
        rw [this]
    · refine ⟨W - 1 - X, H - 1 - Y, ?_, ?_, ?_⟩
      · show W - 1 - X < W
        omega
      · show H - 1 - Y < H
        omega
      · show some (u16 ((W : Int) - ((W - 1 - X : Nat) : Int) - 1),
          u16 ((H : Int) - ((H - 1 - Y : Nat) : Int) - 1)) = some (X, Y)
        have e1 : u16 ((W : Int) - ((W - 1 - X : Nat) : Int) - 1) = X := by unfold u16; omega
        have e2 : u16 ((H : Int) - ((H - 1 - Y : Nat) : Int) - 1) = Y := by unfold u16; omega
        rw [e1, e2]
    · refine ⟨H - 1 - Y, X, ?_, hX, ?_⟩
      · show H - 1 - Y < H
        omega
      · show some (X, u16 ((H : Int) - ((H - 1 - Y : Nat) : Int) - 1)) = some (X, Y)
        have e2 : u16 ((H : Int) - ((H - 1 - Y : Nat) : Int) - 1) = Y := by unfold u16; omega
        rw [e2]
  · intro x y x1 y1 X Y X1 Y1 hx hy hx1 hy1 hXY hXY1 hA hb
    obtain ⟨X', Y', hXY', hX, hY⟩ := hstored x y hx hy
    obtain ⟨X1', Y1', hXY1', hX1, hY1⟩ := hstored x1 y1 hx1 hy1
    rw [hXY] at hXY'
    rw [hXY1] at hXY1'
    simp only [Option.some.injEq, Prod.mk.injEq] at hXY' hXY1'
    obtain ⟨rfl, rfl⟩ := hXY'
    obtain ⟨rfl, rfl⟩ := hXY1'
    have hA' : X / 8 + Y * (if W % 8 = 0 then W / 8 else W / 8 + 1) =
        X1 / 8 + Y1 * (if W % 8 = 0 then W / 8 else W / 8 + 1) := hA
    have := bit_address_inj (if W % 8 = 0 then W / 8 else W / 8 + 1) X Y X1 Y1 (by omega)
      (by omega) hA' (by omega)
    apply hinj x y x1 y1 hx hy hx1 hy1
    rw [hXY, hXY1, this.1, this.2]

/-- C29 (instance): a 400 x 300 framebuffer with rotation 90; the logical pixel (10, 20)
is stored at the physical point (379, 10). -/
theorem Paint_SetPixel_XY_bijective_witness :
    (400 < 65536 ∧ 300 < 65536 ∧ WHITE < 65536 ∧ (90 = 0 ∨ 90 = 90 ∨ 90 = 180 ∨ 90 = 270)) ∧
    (demoPaint 90).Width = 300 ∧ (demoPaint 90).Height = 400 ∧
    Paint_SetPixel_XY (demoPaint 90) 10 20 = some (379, 10) ∧
    ∃ x y, x < (demoPaint 90).Width ∧ y < (demoPaint 90).Height ∧
      Paint_SetPixel_XY (demoPaint 90) x y = some (379, 10) :=
  ⟨by decide, rfl, rfl, by decide,
    (Paint_SetPixel_XY_bijective (fun _ => 0xFF) 400 300 90 WHITE (by decide) (by decide)
      (by decide) (by decide)).2.1 379 10 (by decide) (by decide)⟩

/-! ## The glyph cell -/

/-- C30: for a supported size (cell `w x h` = 6 x 8, 6 x 16, 8 x 16, 12 x 24 for sizes 8, 12,
16, 24) and a cell inside the 16-bit coordinate range, `EPD_ShowChar(x, y, chr,
size, color)` writes exactly the cell whose top-left corner is the logical
pixel `(x + 1, y + 1)`: the stored pixel `(x + 1 + c, y + 1 + 8 * b + m)` with `c < w`,
`m < 8`, `8 * b + m < h` reads back as bit `m` of the glyph byte `b * w + c` says
(`color` for a 1 bit, its inverse for a 0 bit), and every pixel outside the
cell reads back as before the call. -/
theorem EPD_ShowChar_cell (F : Fonts) (p : Paint_t) (x y chr size1 color w h : Nat)
    (hwf : p.wf)
    (hsz : (size1 = 8 ∧ w = 6 ∧ h = 8) ∨ (size1 = 12 ∧ w = 6 ∧ h = 16) ∨
      (size1 = 16 ∧ w = 8 ∧ h = 16) ∨ (size1 = 24 ∧ w = 12 ∧ h = 24))
    (hx : x + 1 + w < 65536) (hy : y + 1 + h ≤ 65536) :
    (∀ c b m, c < w → m < 8 → 8 * b + m < h →
      Paint_GetPixel (EPD_ShowChar F p x y chr size1 color) (x + 1 + c) (y + 1 + 8 * b + m) =
        (Paint_GetPixel p (x + 1 + c) (y + 1 + 8 * b + m)).map (fun _ =>
          glyphBit color (EPD_ShowChar_byte F size1 (u16 ((chr : Int) - 32)) (b * w + c)) m)) ∧
    (∀ px py, px < 65536 → py < 65536 →
      ¬ ((x + 1 ≤ px ∧ px < x + 1 + w) ∧ (y + 1 ≤ py ∧ py < y + 1 + h)) →
      Paint_GetPixel (EPD_ShowChar F p x y chr size1 color) px py = Paint_GetPixel p px py) := by
  constructor
  · intro c b m hc hm hbm
    rw [EPD_ShowChar_get F p x y chr size1 color w h _ _ hwf hsz hx hy (by omega) (by omega),
      if_pos ⟨⟨by omega, by omega⟩, by omega, by omega⟩]
    have e1 : (y + 1 + 8 * b + m - (y + 1)) / 8 = b := by omega
    have e2 : (y + 1 + 8 * b + m - (y + 1)) % 8 = m := by omega
    have e3 : x + 1 + c - (x + 1) = c := by omega
    rw [e1, e2, e3]
  · intro px py hpx hpy hout
    rw [EPD_ShowChar_get F p x y chr size1 color w h px py hwf hsz hx hy hpx hpy, if_neg hout]

/-- C30 (instance): size 16 at (10, 10) on a white 400 x 300 framebuffer with glyph bytes
0x81, colour BLACK: the pixel (11, 11) (bit 0, set) becomes black, the pixel
(11, 12) (bit 1, clear) is white, and the pixel (10, 10) outside the cell
stays white. -/
theorem EPD_ShowChar_cell_witness :
    ((demoPaint 0).wf ∧ 10 + 1 + 8 < 65536 ∧ 10 + 1 + 16 ≤ 65536) ∧
    Paint_GetPixel (EPD_ShowChar demoFonts (demoPaint 0) 10 10 65 16 BLACK) 11 11 =
      some false ∧
    Paint_GetPixel (EPD_ShowChar demoFonts (demoPaint 0) 10 10 65 16 BLACK) 11 12 =
      some true ∧
    Paint_GetPixel (EPD_ShowChar demoFonts (demoPaint 0) 10 10 65 16 BLACK) 10 10 =
      some true :=
  ⟨by decide,
    (EPD_ShowChar_cell demoFonts (demoPaint 0) 10 10 65 16 BLACK 8 16 (by decide)
      (Or.inr (Or.inr (Or.inl ⟨rfl, rfl, rfl⟩))) (by decide) (by decide)).1 0 0 0
      (by decide) (by decide) (by decide),
    (EPD_ShowChar_cell demoFonts (demoPaint 0) 10 10 65 16 BLACK 8 16 (by decide)
      (Or.inr (Or.inr (Or.inl ⟨rfl, rfl, rfl⟩))) (by decide) (by decide)).1 0 0 1
      (by decide) (by decide) (by decide),
    (EPD_ShowChar_cell demoFonts (demoPaint 0) 10 10 65 16 BLACK 8 16 (by decide)
      (Or.inr (Or.inr (Or.inl ⟨rfl, rfl, rfl⟩))) (by decide) (by decide)).2 10 10
      (by decide) (by decide) (by decide)⟩

/-! ## The advance of `EPD_ShowString` against the glyph cell -/

theorem EPD_ShowString_two (F : Fonts) (p : Paint_t) (x y c1 c2 size1 color : Nat) :
    EPD_ShowString F p x y [c1, c2] size1 color =
      EPD_ShowChar F (EPD_ShowChar F p x y c1 size1 color)
        (u16 ((x : Int) + ((size1 / 2 : Nat) : Int))) y c2 size1 color := by
  rw [EPD_ShowString_cons, EPD_ShowString_cons]
  rfl

theorem EPD_ShowChar_wf (F : Fonts) (p : Paint_t) (x y chr size1 color : Nat) (h : p.wf) :
    (EPD_ShowChar F p x y chr size1 color).wf :=
  Paint_Replay_wf _ p h

/-- For the sizes 12, 16 and 24 the advance `size / 2` equals the width of the cell: the
second character of a string leaves every pixel left of its own cell, in particular the
cell of the first character, as the first character has drawn it. -/
theorem EPD_ShowString_no_overlap (F : Fonts) (p : Paint_t) (x y c1 c2 size1 color w h : Nat)
    (hwf : p.wf)
    (hsz : (size1 = 12 ∧ w = 6 ∧ h = 16) ∨ (size1 = 16 ∧ w = 8 ∧ h = 16) ∨
      (size1 = 24 ∧ w = 12 ∧ h = 24))
    (hx : x + 1 + 2 * w < 65536) (hy : y + 1 + h ≤ 65536) (px py : Nat)
    (hpx : px < x + 1 + w) (hpy : py < 65536) :
    size1 / 2 = w ∧
    Paint_GetPixel (EPD_ShowString F p x y [c1, c2] size1 color) px py =
      Paint_GetPixel (EPD_ShowChar F p x y c1 size1 color) px py := by
  have hadv : size1 / 2 = w := by
    rcases hsz with ⟨rfl, rfl, -⟩ | ⟨rfl, rfl, -⟩ | ⟨rfl, rfl, -⟩ <;> rfl
  have hsz4 : (size1 = 8 ∧ w = 6 ∧ h = 8) ∨ (size1 = 12 ∧ w = 6 ∧ h = 16) ∨
      (size1 = 16 ∧ w = 8 ∧ h = 16) ∨ (size1 = 24 ∧ w = 12 ∧ h = 24) := Or.inr hsz
  have e : u16 ((x : Int) + ((size1 / 2 : Nat) : Int)) = x + w := by
    rw [hadv]; unfold u16; omega
  refine ⟨hadv, ?_⟩
  rw [EPD_ShowString_two, e,
    EPD_ShowChar_get F _ (x + w) y c2 size1 color w h px py
      (EPD_ShowChar_wf F p x y c1 size1 color hwf) hsz4 (by omega) hy (by omega) hpy,
    if_neg (by omega)]

/-- C31 (failing input): size 8. The cell of `EPD_ShowChar` is 6 columns wide (`x + 1 .. x + 6`) and
`EPD_ShowString` advances by `8 / 2 = 4`, so the cell of the second character starts at
`x + 5`: after `EPD_ShowString(x, y, [c1, c2], 8, color)` the columns `x + 5` and `x + 6`, which
the first character has drawn from the bytes 4 and 5 of its glyph, hold the bytes 0 and 1
of the glyph of the second character. -/
theorem EPD_ShowString_size8_overlap (F : Fonts) (p : Paint_t) (x y c1 c2 color r : Nat)
    (hwf : p.wf) (hx : x + 11 < 65536) (hy : y + 9 ≤ 65536) (hr : r < 8) :
    8 / 2 < 6 ∧
    Paint_GetPixel (EPD_ShowChar F p x y c1 8 color) (x + 5) (y + 1 + r) =
      (Paint_GetPixel p (x + 5) (y + 1 + r)).map (fun _ =>
        glyphBit color (EPD_ShowChar_byte F 8 (u16 ((c1 : Int) - 32)) 4) r) ∧
    Paint_GetPixel (EPD_ShowString F p x y [c1, c2] 8 color) (x + 5) (y + 1 + r) =
      (Paint_GetPixel p (x + 5) (y + 1 + r)).map (fun _ =>
        glyphBit color (EPD_ShowChar_byte F 8 (u16 ((c2 : Int) - 32)) 0) r) ∧
    Paint_GetPixel (EPD_ShowString F p x y [c1, c2] 8 color) (x + 6) (y + 1 + r) =
      (Paint_GetPixel p (x + 6) (y + 1 + r)).map (fun _ =>
        glyphBit color (EPD_ShowChar_byte F 8 (u16 ((c2 : Int) - 32)) 1) r) := by
  have hsz : (8 = 8 ∧ 6 = 6 ∧ 8 = 8) ∨ (8 = 12 ∧ 6 = 6 ∧ 8 = 16) ∨
      (8 = 16 ∧ 6 = 8 ∧ 8 = 16) ∨ (8 = 24 ∧ 6 = 12 ∧ 8 = 24) := Or.inl ⟨rfl, rfl, rfl⟩
  have e : u16 ((x : Int) + ((8 / 2 : Nat) : Int)) = x + 4 := by unfold u16; omega
  have hq := EPD_ShowChar_wf F p x y c1 8 color hwf
  have e1 : (y + 1 + r - (y + 1)) / 8 * 6 = 0 := by omega
  have e2 : (y + 1 + r - (y + 1)) % 8 = r := by omega
  have first : ∀ k, k < 6 →
      Paint_GetPixel (EPD_ShowChar F p x y c1 8 color) (x + 1 + k) (y + 1 + r) =
        (Paint_GetPixel p (x + 1 + k) (y + 1 + r)).map (fun _ =>
          glyphBit color (EPD_ShowChar_byte F 8 (u16 ((c1 : Int) - 32)) k) r) := by
    intro k hk
    rw [EPD_ShowChar_get F p x y c1 8 color 6 8 _ _ hwf hsz (by omega) (by omega) (by omega)
      (by omega), if_pos (by omega), e1, e2, Nat.zero_add,
      show x + 1 + k - (x + 1) = k by omega]
  have second : ∀ k, k < 2 →
      Paint_GetPixel (EPD_ShowString F p x y [c1, c2] 8 color) (x + 5 + k) (y + 1 + r) =
        (Paint_GetPixel p (x + 5 + k) (y + 1 + r)).map (fun _ =>
          glyphBit color (EPD_ShowChar_byte F 8 (u16 ((c2 : Int) - 32)) k) r) := by
    intro k hk
    rw [EPD_ShowString_two, e,
      EPD_ShowChar_get F _ (x + 4) y c2 8 color 6 8 _ _ hq hsz (by omega) (by omega) (by omega)
        (by omega), if_pos (by omega), e1, e2, Nat.zero_add,
      show x + 5 + k - (x + 4 + 1) = k by omega]
    have h1 := first (4 + k) (by omega)
    rw [show x + 1 + (4 + k) = x + 5 + k by omega] at h1
    rw [h1, Option.map_map]
    rfl
  refine ⟨by decide, first 4 (by decide), second 0 (by decide), second 1 (by decide)⟩

/-- C31 (instance): the string "AB" in size 8, colour BLACK, at (10, 10) on a white 400 x 300
framebuffer, the glyph of 'A' being solid and that of 'B' empty: the pixel (15, 11) of the
fifth column of 'A' is black after 'A' alone and white after the string. -/
theorem EPD_ShowString_size8_overlap_witness :
    ((demoPaint 0).wf ∧ 10 + 11 < 65536 ∧ 10 + 9 ≤ 65536 ∧ 0 < 8) ∧
    Paint_GetPixel (EPD_ShowChar solidA (demoPaint 0) 10 10 65 8 BLACK) 15 11 = some false ∧
    Paint_GetPixel (EPD_ShowString solidA (demoPaint 0) 10 10 [65, 66] 8 BLACK) 15 11 =
      some true :=
  ⟨by decide,
    (EPD_ShowString_size8_overlap solidA (demoPaint 0) 10 10 65 66 BLACK 0 (by decide)
      (by decide) (by decide) (by decide)).2.1,
    (EPD_ShowString_size8_overlap solidA (demoPaint 0) 10 10 65 66 BLACK 0 (by decide)
      (by decide) (by decide) (by decide)).2.2.1⟩

/-! ## The border register around the partial update -/

/-- The whole trace of `EPD_Display_Part` as the controller sees it: configuration, window,
cursor, the image bytes, the partial activation, and on the 2.13 inch panel the border
register once more. -/
theorem decode_EPD_Display_Part_full (v : Panel) (Image : Nat → Nat) (d x y sizex sizey : Nat) :
    decode d (EPD_Display_Part true v x y sizex sizey Image) =
      [Msg.cmd 0x3C, Msg.data 0x80, Msg.cmd 0x21, Msg.data 0x00, Msg.data 0x00,
        Msg.cmd 0x3C, Msg.data 0x80, Msg.cmd 0x11, Msg.data 0x03,
        Msg.cmd 0x44, Msg.data ((x >>> 3) &&& 0xFF),
          Msg.data ((u16 ((x : Int) + sizex - 1) >>> 3) &&& 0xFF),
        Msg.cmd 0x45, Msg.data (y &&& 0xFF), Msg.data ((y >>> 8) &&& 0xFF),
          Msg.data (u16 ((y : Int) + sizey - 1) &&& 0xFF),
          Msg.data ((u16 ((y : Int) + sizey - 1) >>> 8) &&& 0xFF),
        Msg.cmd 0x4E, Msg.data ((x >>> 3) &&& 0xFF),
        Msg.cmd 0x4F, Msg.data (y &&& 0xFF), Msg.data ((y >>> 8) &&& 0xFF),
        Msg.cmd 0x24] ++
      (((List.range ((if sizex % 8 = 0 then sizex / 8 else sizex / 8 + 1) * sizey)).map
          (fun i => Panel.sent v (Image i % 256))).map Msg.data ++
        (match v with
         | Panel.inch_4_2 => [Msg.cmd 0x22, Msg.data 0xFF, Msg.cmd 0x20, Msg.busy]
         | Panel.inch_2_13 =>
           [Msg.cmd 0x22, Msg.data 0xFC, Msg.cmd 0x20, Msg.busy, Msg.cmd 0x3C, Msg.data 0x01])) := by
  unfold EPD_Display_Part EPD_Address_Set EPD_SetCursor EPD_Update_Part
  simp only [List.append_assoc, decode_WR_REG, decode_WR_DATA8, decode_stream]
  cases v
  · simp only [List.append_nil, decode_ReadBusy_nil, List.cons_append, List.nil_append]
  · simp only [decode_ReadBusy, decode_WR_REG, decode_WR_DATA8_nil, List.cons_append,
      List.nil_append]

/-- C32 (counterexample): on the 4.2 inch panel the trace of `EPD_Display_Part` ends with the
partial activation and the wait; the register 0x3C is written twice before the
activation and not after it. -/
theorem EPD_Display_Part_4_2_no_restore :
    decode 0 (EPD_Display_Part true Panel.inch_4_2 0 0 8 1 (fun _ => 0xFF)) =
      [Msg.cmd 0x3C, Msg.data 0x80, Msg.cmd 0x21, Msg.data 0x00, Msg.data 0x00,
        Msg.cmd 0x3C, Msg.data 0x80, Msg.cmd 0x11, Msg.data 0x03,
        Msg.cmd 0x44, Msg.data 0, Msg.data 0,
        Msg.cmd 0x45, Msg.data 0, Msg.data 0, Msg.data 0, Msg.data 0,
        Msg.cmd 0x4E, Msg.data 0, Msg.cmd 0x4F, Msg.data 0, Msg.data 0,
        Msg.cmd 0x24, Msg.data 0xFF,
        Msg.cmd 0x22, Msg.data 0xFF, Msg.cmd 0x20, Msg.busy] ∧
    Msg.cmd 0x3C ∉
      (decode 0 (EPD_Display_Part true Panel.inch_4_2 0 0 8 1 (fun _ => 0xFF))).drop 24 := by
  constructor
  · decide
  · decide

/-- C32 (amended): on each panel variant `EPD_Display_Part` writes 0x80 to the border register
0x3C at the start (twice, around the register 0x21) and ends the image data with the
partial activation 0x22, control byte (0xFF on the 4.2 inch panel, 0xFC on the 2.13 inch
panel), 0x20 and the wait for the busy line. On the 2.13 inch panel the activation is
followed by a further write of 0x3C with the value 0x01, which differs from 0x80; on the
4.2 inch panel nothing follows the activation. -/
theorem EPD_Display_Part_border (v : Panel) (Image : Nat → Nat) (d x y sizex sizey : Nat) :
    (decode d (EPD_Display_Part true v x y sizex sizey Image)).take 7 =
      [Msg.cmd 0x3C, Msg.data 0x80, Msg.cmd 0x21, Msg.data 0x00, Msg.data 0x00,
        Msg.cmd 0x3C, Msg.data 0x80] ∧
    (∃ pre, decode d (EPD_Display_Part true Panel.inch_4_2 x y sizex sizey Image) =
        pre ++ [Msg.cmd 0x22, Msg.data 0xFF, Msg.cmd 0x20, Msg.busy] ∧
      Msg.cmd 0x3C ∈ pre ∧ Msg.cmd 0x20 ∉ pre ∧ Msg.cmd 0x22 ∉ pre) ∧
    (∃ pre, decode d (EPD_Display_Part true Panel.inch_2_13 x y sizex sizey Image) =
        pre ++ [Msg.cmd 0x22, Msg.data 0xFC, Msg.cmd 0x20, Msg.busy,
          Msg.cmd 0x3C, Msg.data 0x01] ∧
      Msg.cmd 0x3C ∈ pre ∧ Msg.cmd 0x20 ∉ pre ∧ Msg.cmd 0x22 ∉ pre) ∧
    (0x01 : Nat) ≠ 0x80 := by
  have hpre : ∀ (w : Panel) (m : Msg), m = Msg.cmd 0x20 ∨ m = Msg.cmd 0x22 →
      m ∉ [Msg.cmd 0x3C, Msg.data 0x80, Msg.cmd 0x21, Msg.data 0x00, Msg.data 0x00,
        Msg.cmd 0x3C, Msg.data 0x80, Msg.cmd 0x11, Msg.data 0x03,
        Msg.cmd 0x44, Msg.data ((x >>> 3) &&& 0xFF),
          Msg.data ((u16 ((x : Int) + sizex - 1) >>> 3) &&& 0xFF),
        Msg.cmd 0x45, Msg.data (y &&& 0xFF), Msg.data ((y >>> 8) &&& 0xFF),
          Msg.data (u16 ((y : Int) + sizey - 1) &&& 0xFF),
          Msg.data ((u16 ((y : Int) + sizey - 1) >>> 8) &&& 0xFF),
        Msg.cmd 0x4E, Msg.data ((x >>> 3) &&& 0xFF),
        Msg.cmd 0x4F, Msg.data (y &&& 0xFF), Msg.data ((y >>> 8) &&& 0xFF),
        Msg.cmd 0x24] ++
      ((List.range ((if sizex % 8 = 0 then sizex / 8 else sizex / 8 + 1) * sizey)).map
          (fun i => Panel.sent w (Image i % 256))).map Msg.data := by
    intro w m hm hmem
    rw [List.mem_append] at hmem
    rcases hmem with h | h
    · rcases hm with rfl | rfl <;> simp at h
    · obtain ⟨b, -, hb⟩ := List.mem_map.mp h
      rcases hm with rfl | rfl <;> cases hb
  refine ⟨?_, ?_, ?_, by decide⟩
  · rw [decode_EPD_Display_Part_full]
    rfl
  · refine ⟨_, ?_, List.mem_append_left _ (List.mem_cons_self _ _),
      hpre Panel.inch_4_2 _ (Or.inl rfl), hpre Panel.inch_4_2 _ (Or.inr rfl)⟩
    rw [decode_EPD_Display_Part_full, List.append_assoc]
  · refine ⟨_, ?_, List.mem_append_left _ (List.mem_cons_self _ _),
      hpre Panel.inch_2_13 _ (Or.inl rfl), hpre Panel.inch_2_13 _ (Or.inr rfl)⟩
    rw [decode_EPD_Display_Part_full, List.append_assoc]

/-! ## The chunked repeat write -/

theorem repeatChunks_step (b n : Nat) (h : 128 < n) :
    repeatChunks b n = Ev.transmit (List.replicate 128 b) :: repeatChunks b (n - 128) := by
  unfold repeatChunks
  have e1 : n / 128 = (n - 128) / 128 + 1 := by omega
  have e2 : n % 128 = (n - 128) % 128 := by omega
  rw [e1, e2, List.replicate_succ, List.cons_append]

theorem repeatChunks_last (b n : Nat) (h0 : 0 < n) (h : n ≤ 128) :
    repeatChunks b n = [Ev.transmit (List.replicate n b)] := by
  unfold repeatChunks
  by_cases h128 : n = 128
  · subst h128
    rfl
  · have e1 : n / 128 = 0 := by omega
    have e2 : n % 128 = n := by omega
    rw [e1, e2, if_neg (by omega)]
    rfl

theorem repeatChunks_zero (b : Nat) : repeatChunks b 0 = [] := rfl

/-- With enough fuel the loop of `EPD_WR_DATA_REPEAT` returns, and its transactions are the
chunks of 128 bytes followed by the remainder. -/
theorem EPD_WR_DATA_REPEAT_loop_chunks (b : Nat) :
    ∀ fuel remaining, (remaining + 127) / 128 < fuel →
      EPD_WR_DATA_REPEAT_loop b fuel remaining = some (repeatChunks b remaining) := by
  intro fuel
  induction fuel with
  | zero => intro remaining h; omega
  | succ fuel ih =>
    intro remaining h
    rw [EPD_WR_DATA_REPEAT_loop]
    by_cases hr : remaining > 0
    · rw [if_pos hr]
      by_cases hc : remaining > 128
      · simp only [if_pos hc]
        rw [ih (remaining - 128) (by omega), repeatChunks_step b remaining hc]
        rfl
      · simp only [if_neg hc]
        rw [ih (remaining - remaining) (by omega), Nat.sub_self, repeatChunks_zero,
          repeatChunks_last b remaining hr (by omega)]
        rfl
    · rw [if_neg hr]
      have h0 : remaining = 0 := by omega
      subst h0
      rfl

theorem repeatChunks_length (b n : Nat) : (repeatChunks b n).length = (n + 127) / 128 := by
  unfold repeatChunks
  rw [List.length_append, List.length_replicate]
  split
  · rw [List.length_nil]; omega
  · rw [List.length_singleton]; omega

theorem repeatChunks_mem (b n : Nat) (e : Ev) (h : e ∈ repeatChunks b n) :
    ∃ k, 1 ≤ k ∧ k ≤ 128 ∧ e = Ev.transmit (List.replicate k b) := by
  unfold repeatChunks at h
  rw [List.mem_append] at h
  rcases h with h | h
  · exact ⟨128, by decide, Nat.le_refl _, List.eq_of_mem_replicate h⟩
  · split at h
    · simp at h
    · rw [List.mem_singleton] at h
      exact ⟨n % 128, by omega, by omega, h⟩

theorem replicate_flatMap_bytes (b k : Nat) :
    (List.replicate k (Ev.transmit (List.replicate 128 b))).flatMap Ev.bytes =
      List.replicate (k * 128) b := by
  induction k with
  | zero => simp
  | succ k ih =>
    rw [List.replicate_succ, List.flatMap_cons, ih, Ev.bytes, ← List.replicate_add,
      show 128 + k * 128 = (k + 1) * 128 by omega]

theorem repeatChunks_bytes (b n : Nat) :
    (repeatChunks b n).flatMap Ev.bytes = List.replicate n b := by
  unfold repeatChunks
  rw [List.flatMap_append, replicate_flatMap_bytes]
  split
  · rw [List.flatMap_nil, List.append_nil, show n / 128 * 128 = n by omega]
  · rw [List.flatMap_cons, List.flatMap_nil, List.append_nil, Ev.bytes,
      ← List.replicate_add, show n / 128 * 128 + n % 128 = n by omega]

/-- C33: with the SPI device attached and fuel for `ceil(count / 128) + 1` tests of the loop
condition, `EPD_WR_DATA_REPEAT(b, count)` returns. For `count = 0` it does nothing: no pin is
touched and nothing is sent. For `count > 0` it sets the data/command line high, pulls
chip select low once, makes `ceil(count / 128)` transactions and releases chip select
once; every transaction carries between 1 and 128 bytes, all equal to `b`, and together
they carry exactly `count` bytes. The controller receives `count` data bytes `b`. -/
theorem EPD_WR_DATA_REPEAT_chunks (fuel b count : Nat) (hf : (count + 127) / 128 < fuel) :
    EPD_WR_DATA_REPEAT fuel true b count =
      some (if count = 0 then []
        else [Ev.dc 1, Ev.cs 0] ++ (repeatChunks b count ++ [Ev.cs 1])) ∧
    (repeatChunks b count).length = (count + 127) / 128 ∧
    (∀ e ∈ repeatChunks b count, ∃ k, 1 ≤ k ∧ k ≤ 128 ∧ e = Ev.transmit (List.replicate k b)) ∧
    (repeatChunks b count).flatMap Ev.bytes = List.replicate count b ∧
    decode 0 ([Ev.dc 1, Ev.cs 0] ++ (repeatChunks b count ++ [Ev.cs 1])) =
      List.replicate count (Msg.data b) ∧
    EPD_WR_DATA_REPEAT fuel true b 0 = some [] := by
  refine ⟨?_, repeatChunks_length b count, repeatChunks_mem b count,
    repeatChunks_bytes b count, ?_, ?_⟩
  · unfold EPD_WR_DATA_REPEAT
    by_cases hc : count = 0
    · rw [if_pos (Or.inl hc), if_pos hc]
    · rw [if_neg (by simp [hc]), if_neg hc, EPD_WR_DATA_REPEAT_loop_chunks b fuel count hf]
      rfl
  · obtain ⟨l, hl, hd⟩ := EPD_WR_DATA_REPEAT_loop_spec b (count / 128 + 2) count (by omega)
    rw [EPD_WR_DATA_REPEAT_loop_chunks b _ count (by omega)] at hl
    have e := Option.some.inj hl
    subst e
    have h1 : decode 0 ([Ev.dc 1, Ev.cs 0] ++ (repeatChunks b count ++ [Ev.cs 1])) =
        decode 1 (repeatChunks b count ++ [Ev.cs 1]) := rfl
    rw [h1, hd]
    simp [decode]
  · unfold EPD_WR_DATA_REPEAT
    rw [if_pos (Or.inl rfl)]

/-- C33 (instance): 300 bytes 0xFF go out as chunks of 128, 128 and 44 bytes in one
chip-select frame. -/
theorem EPD_WR_DATA_REPEAT_chunks_witness :
    (300 + 127) / 128 < 4 ∧
    EPD_WR_DATA_REPEAT 4 true 0xFF 300 =
      some [Ev.dc 1, Ev.cs 0, Ev.transmit (List.replicate 128 0xFF),
        Ev.transmit (List.replicate 128 0xFF), Ev.transmit (List.replicate 44 0xFF),
        Ev.cs 1] :=
  ⟨by decide, (EPD_WR_DATA_REPEAT_chunks 4 0xFF 300 (by decide)).1⟩

end EPaper
